import Mathlib

/-!
# The OBJ loader of `resources/format/obj.go`

A shallow embedding of `LoadOBJ` and its helpers (`tokensToOBJPolygons`,
`tokensToFloat64Values`, `validLength`, `tokenize`) together with the parts of the Go
standard library they call (`bufio.Scanner` with `ScanLines` and `ScanWords`,
`strings.Split`, `strconv.ParseUint`, `strconv.Atoi`).

Conventions of the embedding:

* a Go `string` is a Lean `String`, read as the sequence of its code points (the input
  is well-formed UTF-8 text); byte lengths are `Char.utf8Size` sums;
* `uint64` and `int` values are `Nat` / `Int`, with the wrap-around of the machine
  arithmetic written out where the library code relies on it (`int` is 64 bits wide);
* `float64` is a type parameter `F` and `strconv.ParseFloat` a parameter of the loader:
  nothing in `obj.go` inspects a parsed coordinate;
* a function returning `(T, error)` whose `T` is dropped by every caller on error is an
  `Except`; `LoadOBJ` itself returns the pair, as in the source.
-/

namespace OBJ

/-! ## Errors -/

deriving instance DecidableEq for Except

/-- The sentinel errors of `strconv`: `ErrSyntax` and `ErrRange`. -/
inductive NumErr where
  | ErrSyntax
  | ErrRange
  deriving DecidableEq

/-- The error values that `LoadOBJ` can return: the value of
`errors.New("invalid format")` and a `*strconv.NumError{Func, Num, Err}`. -/
inductive Error where
  | invalidFormat
  | numError (Func : String) (Num : String) (Err : NumErr)
  deriving DecidableEq

/-- `strconv.syntaxError fn str`. -/
def syntaxError (fn str : String) : Error := .numError fn str .ErrSyntax

/-- `strconv.rangeError fn str`. -/
def rangeError (fn str : String) : Error := .numError fn str .ErrRange

/-! ## Data model (`obj.go` lines 11-35) -/

/-- `OBJUseMaterial`: `StartIndex` is a `uint64`. -/
structure OBJUseMaterial where
  StartIndex : Nat
  Material : String
  deriving DecidableEq

/-- `OBJPolygon`: one corner of a face, three `uint64` indices. -/
structure OBJPolygon where
  VertexIndex : Nat
  UVIndex : Nat
  NormalIndex : Nat
  deriving DecidableEq

/-- `OBJGroup`, over the coordinate type `F` (Go `float64`). -/
structure OBJGroup (F : Type) where
  UseMaterial : List OBJUseMaterial
  Vertex : List (List F)
  UV : List (List F)
  Normal : List (List F)
  Polygon : List (List OBJPolygon)
  Smoothing : Int
  deriving DecidableEq

/-- The zero value `OBJGroup{}`. -/
def OBJGroup.zero (F : Type) : OBJGroup F := ⟨[], [], [], [], [], 0⟩

/-- A Go `map[string]V` value: `nil`, or an allocated table given by its entries (one
per key; the order of the entries is the order in which the keys were first assigned
and carries no meaning in Go). -/
inductive GoMap (V : Type) where
  | nil
  | table (entries : List (String × V))
  deriving DecidableEq

namespace GoMap

variable {V : Type}

/-- The entries of the map; a nil map has none. -/
def entries : GoMap V → List (String × V)
  | nil => []
  | table es => es

/-- Lookup in an entry list. -/
def find (k : String) : List (String × V) → Option V
  | [] => none
  | (k', v) :: es => if k' = k then some v else find k es

/-- The comma-ok lookup `v, ok := m[k]`. -/
def get? (m : GoMap V) (k : String) : Option V := find k m.entries

/-- The index expression `m[k]`: the zero value `z` of `V` when `k` is absent. -/
def index (z : V) (m : GoMap V) (k : String) : V := (m.get? k).getD z

/-- Replace the value of `k` in an entry list, or add the entry at the end. -/
def put (k : String) (v : V) : List (String × V) → List (String × V)
  | [] => [(k, v)]
  | (k', v') :: es => if k' = k then (k, v) :: es else (k', v') :: put k v es

/-- The assignment `m[k] = v`. Go panics when `m` is nil; `LoadOBJ` only ever assigns
to the table it allocates at line 39, so that case is left as the nil map. -/
def assign (m : GoMap V) (k : String) (v : V) : GoMap V :=
  match m with
  | nil => nil
  | table es => table (put k v es)

/-- The keys of the map. -/
def keys (m : GoMap V) : List String := m.entries.map Prod.fst

end GoMap

/-- `OBJModel`. -/
structure OBJModel (F : Type) where
  Name : String
  MaterialFile : String
  Groups : GoMap (OBJGroup F)
  deriving DecidableEq

/-- The zero value `OBJModel{}`: empty strings and a nil `Groups` map. -/
def OBJModel.zero (F : Type) : OBJModel F := ⟨"", "", .nil⟩

/-! ## Library functions -/

/-- The function `isSpace` of package `bufio` (the white space of `unicode.IsSpace`). -/
def isSpace (r : Char) : Bool :=
  if r.toNat ≤ 0xFF then
    r = ' ' || r = '\t' || r = '\n' || r.toNat = 0x0B || r.toNat = 0x0C || r = '\r'
      || r.toNat = 0x85 || r.toNat = 0xA0
  else if 0x2000 ≤ r.toNat && r.toNat ≤ 0x200a then true
  else r.toNat = 0x1680 || r.toNat = 0x2028 || r.toNat = 0x2029 || r.toNat = 0x202f
      || r.toNat = 0x205f || r.toNat = 0x3000

/-- All tokens that a scanner with split function `bufio.ScanWords` yields on `data`:
`cur` is the word being read (empty while white space is skipped). A word ends at the
next white space character or at the end of the data; an empty word is never
returned. -/
def scanWords : List Char → List Char → List (List Char)
  | cur, [] => if cur = [] then [] else [cur]
  | cur, c :: cs =>
    if isSpace c then
      if cur = [] then scanWords [] cs else cur :: scanWords [] cs
    else scanWords (cur ++ [c]) cs

/-- `strings.Split(s, sep)` for a one-character separator: the fields between the
occurrences of `sep`, always at least one field. -/
def splitChars (sep : Char) : List Char → List (List Char)
  | [] => [[]]
  | c :: cs =>
    if c = sep then [] :: splitChars sep cs
    else
      match splitChars sep cs with
      | [] => [[c]]
      | f :: fs => (c :: f) :: fs

/-- `strings.Split(s, "/")`. -/
def Split (s : String) (sep : Char) : List String := (splitChars sep s.data).map String.mk

/-- The constant `maxUint64`. -/
def maxUint64 : Nat := 2 ^ 64 - 1

/-- The loop of `strconv.ParseUint(s, 10, 64)` over the characters of `s`, with `n` the
value accumulated so far. A character that is not an ASCII digit is a syntax error
(a letter is a digit of value at least 10, the base; `_` is only legal with base 0).
`cutoff` is `maxUint64/10 + 1` and `maxVal` is `1<<64 - 1`. -/
def parseUintLoop (s0 : String) : List Char → Nat → Except Error Nat
  | [], n => .ok n
  | c :: cs, n =>
    if '0'.toNat ≤ c.toNat ∧ c.toNat ≤ '9'.toNat then
      let d := c.toNat - '0'.toNat
      if n ≥ maxUint64 / 10 + 1 then .error (rangeError "ParseUint" s0)
      else
        let n10 := (n * 10) % 2 ^ 64
        let n1 := (n10 + d) % 2 ^ 64
        if n1 < n10 ∨ n1 > maxUint64 then .error (rangeError "ParseUint" s0)
        else parseUintLoop s0 cs n1
    else .error (syntaxError "ParseUint" s0)

/-- `strconv.ParseUint(s, 10, 64)`. -/
def ParseUint (s : String) : Except Error Nat :=
  if s = "" then .error (syntaxError "ParseUint" s)
  else parseUintLoop s s.data 0

/-! ## `obj.go`: helpers -/

/-- `tokenize` (lines 195-203): the words of `source`, in order. -/
def tokenize (source : String) : List String :=
  (scanWords [] source.data).map String.mk

/-- `validLength` (lines 188-193): `some` error when `len(src) != length`, else nil. -/
def validLength (src : List String) (length : Nat) : Option Error :=
  if src.length ≠ length then some .invalidFormat else none

/-- The element `f[i]` of a slice of strings; every use below is guarded by a length
test, as in the source. -/
def elemAt (f : List String) (i : Nat) : String := f.getD i ""

/-- The body of the loop of `tokensToOBJPolygons` (lines 148-171) for one token `s`:
the polygon stored into `result[i]`, or the error returned. -/
def polygonOfToken (s : String) : Except Error OBJPolygon :=
  let polygon : OBJPolygon := ⟨0, 0, 0⟩
  let f := Split s '/'
  let r1 : Except Error OBJPolygon :=
    if f.length ≥ 1 ∧ elemAt f 0 ≠ "" then
      match ParseUint (elemAt f 0) with
      | .error err => .error err
      | .ok v => .ok { polygon with VertexIndex := v }
    else .ok polygon
  match r1 with
  | .error err => .error err
  | .ok polygon =>
    let r2 : Except Error OBJPolygon :=
      if f.length ≥ 2 ∧ elemAt f 1 ≠ "" then
        match ParseUint (elemAt f 1) with
        | .error err => .error err
        | .ok v => .ok { polygon with UVIndex := v }
      else .ok polygon
    match r2 with
    | .error err => .error err
    | .ok polygon =>
      if f.length ≥ 3 ∧ elemAt f 2 ≠ "" then
        match ParseUint (elemAt f 2) with
        | .error err => .error err
        | .ok v => .ok { polygon with NormalIndex := v }
      else .ok polygon

/-- `tokensToOBJPolygons` (lines 145-174): one polygon per token, in order; the error
of the first token that fails. -/
def tokensToOBJPolygons : List String → Except Error (List OBJPolygon)
  | [] => .ok []
  | s :: rest =>
    match polygonOfToken s with
    | .error err => .error err
    | .ok polygon =>
      match tokensToOBJPolygons rest with
      | .error err => .error err
      | .ok result => .ok (polygon :: result)

/-- `tokensToFloat64Values` (lines 176-186): one value per token, in order; the error
of the first token that `ParseFloat` rejects. -/
def tokensToFloat64Values {F : Type} (ParseFloat : String → Except Error F) :
    List String → Except Error (List F)
  | [] => .ok []
  | s :: rest =>
    match ParseFloat s with
    | .error err => .error err
    | .ok v =>
      match tokensToFloat64Values ParseFloat rest with
      | .error err => .error err
      | .ok result => .ok (v :: result)

/-- The byte length `len(s)` of a string given by its characters. -/
def byteLen (l : List Char) : Nat := (l.map Char.utf8Size).sum

/-- `strconv.ParseInt(s, 10, 0)` with `IntSize = 64`: an optional sign, then
`ParseUint`; the magnitude is checked against `cutoff = 1 << 63`. A syntax error of
`ParseUint` is re-labelled; on a range error of `ParseUint` the value it returns is
`maxUint64`, which fails the cutoff test. -/
def ParseInt (s : String) : Except Error Int :=
  if s = "" then .error (syntaxError "ParseInt" s)
  else
    let s0 := s
    let neg := s.data.head? = some '-'
    let s : String :=
      if s.data.head? = some '+' ∨ s.data.head? = some '-' then String.mk (s.data.drop 1)
      else s
    match ParseUint s with
    | .error (.numError _ _ .ErrSyntax) => .error (syntaxError "ParseInt" s0)
    | .error _ => .error (rangeError "ParseInt" s0)
    | .ok un =>
      if ¬ neg ∧ un ≥ 2 ^ 63 then .error (rangeError "ParseInt" s0)
      else if neg ∧ un > 2 ^ 63 then .error (rangeError "ParseInt" s0)
      else if neg then .ok (-(un : Int)) else .ok (un : Int)

/-- The digit loop of the fast path of `strconv.Atoi`. -/
def atoiLoop (s0 : String) : List Char → Int → Except Error Int
  | [], n => .ok n
  | ch :: cs, n =>
    if '0'.toNat ≤ ch.toNat ∧ ch.toNat ≤ '9'.toNat then
      atoiLoop s0 cs (n * 10 + ((ch.toNat - '0'.toNat : Nat) : Int))
    else .error (syntaxError "Atoi" s0)

/-- `strconv.Atoi(s)` on a platform with 64-bit `int`: the fast path for strings of 1
to 18 bytes, otherwise `ParseInt(s, 10, 0)` with the error's `Func` set to `Atoi`. -/
def Atoi (s : String) : Except Error Int :=
  let sLen := byteLen s.data
  if 0 < sLen ∧ sLen < 19 then
    let s0 := s
    let signed := s.data.head? = some '-' ∨ s.data.head? = some '+'
    let digits := if signed then s.data.drop 1 else s.data
    if signed ∧ digits.length < 1 then .error (syntaxError "Atoi" s0)
    else
      match atoiLoop s0 digits 0 with
      | .error err => .error err
      | .ok n => if s0.data.head? = some '-' then .ok (-n) else .ok n
  else
    match ParseInt s with
    | .error (.numError _ num err) => .error (.numError "Atoi" num err)
    | .error err => .error err
    | .ok i64 => .ok i64

/-! ## The reader and the line scanner -/

/-- An `io.Reader` as `LoadOBJ` can observe it: the text that `Read` delivers, and the
error on which reading stops (`none` for `io.EOF`, `some` for any other error). The
end of the data is reported by a `Read` of its own (as files and in-memory readers
do). -/
structure Reader where
  data : String
  err : Option String

/-- `bufio.MaxScanTokenSize`, the size at which the scanner's buffer stops growing. -/
def MaxScanTokenSize : Nat := 64 * 1024

/-- `dropCR` of package `bufio`: drops one terminal carriage return. -/
def dropCR (data : List Char) : List Char :=
  if data.getLast? = some '\r' then data.dropLast else data

/-- The tokens that a scanner with split function `bufio.ScanLines` yields, given the
pieces of the data between its newline characters (the last piece is the unterminated
rest). A terminated line is yielded when it fits the buffer together with its
newline; the rest is yielded when it is not empty and leaves room in the buffer. At
the first piece that does not fit, `Scan` returns false for good. -/
def scanLines : List (List Char) → List (List Char)
  | [] => []
  | [last] =>
    if last = [] then []
    else if byteLen last < MaxScanTokenSize then [dropCR last]
    else []
  | l :: rest =>
    if byteLen l + 1 ≤ MaxScanTokenSize then dropCR l :: scanLines rest
    else []

/-- Whether the scan over the given pieces ends with `bufio.ErrTooLong`. -/
def scanTooLong : List (List Char) → Bool
  | [] => false
  | [last] => decide (last ≠ [] ∧ ¬ byteLen last < MaxScanTokenSize)
  | l :: rest => if byteLen l + 1 ≤ MaxScanTokenSize then scanTooLong rest else true

/-- The value of `scanner.Err()` once `Scan` has returned false. -/
inductive ScanError where
  | ErrTooLong
  | readError (msg : String)
  deriving DecidableEq

namespace Scanner

/-- The lines of the whole data: what `Scan`/`Text` would yield from the pieces
between the newline characters if no line were too long for the buffer. -/
def allLinesOf : List (List Char) → List (List Char)
  | [] => []
  | [last] => if last = [] then [] else [dropCR last]
  | l :: rest => dropCR l :: allLinesOf rest

/-- The lines of the whole data. -/
def allLines (data : String) : List String :=
  (allLinesOf (splitChars '\n' data.data)).map String.mk

/-- The successive values of `scanner.Text()` in `for scanner.Scan()`, for
`scanner := bufio.NewScanner(reader)`. -/
def lines (reader : Reader) : List String :=
  (scanLines (splitChars '\n' reader.data.data)).map String.mk

/-- The value of `scanner.Err()` after the loop: `ErrTooLong`, else the reader's own
error, else nil. -/
def Err (reader : Reader) : Option ScanError :=
  if scanTooLong (splitChars '\n' reader.data.data) then some .ErrTooLong
  else reader.err.map ScanError.readError

end Scanner

/-! ## `LoadOBJ` (lines 37-143) -/

/-- What one pass through the body of the loop of `LoadOBJ` does: go on to the next
line with the variables `result` and `group`, or leave the function through a
`return` statement with the pair it returns. -/
inductive Outcome (F : Type) where
  | next (result : OBJModel F) (group : String)
  | ret (model : OBJModel F) (err : Option Error)

/-- The read-modify-write of the current group that the data directives share:
`tmp := result.Groups[group]`, a change `f` to a field of `tmp`, and
`result.Groups[group] = tmp`. -/
def updateGroup {F : Type} (result : OBJModel F) (group : String)
    (f : OBJGroup F → OBJGroup F) : OBJModel F :=
  { result with
    Groups := result.Groups.assign group (f (result.Groups.index (OBJGroup.zero F) group)) }

/-- Case `"mtllib"` of the switch (lines 50-55); `tokens` is `tokens[1:]`. -/
def caseMtllib {F : Type} (result : OBJModel F) (group : String) (tokens : List String) :
    Outcome F :=
  match validLength tokens 1 with
  | some err => .ret (OBJModel.zero F) (some err)
  | none => .next { result with MaterialFile := elemAt tokens 0 } group

/-- Case `"o"` of the switch (lines 56-61). -/
def caseO {F : Type} (result : OBJModel F) (group : String) (tokens : List String) :
    Outcome F :=
  match validLength tokens 1 with
  | some err => .ret (OBJModel.zero F) (some err)
  | none => .next { result with Name := elemAt tokens 0 } group

/-- Case `"g"` of the switch (lines 62-68): `group = tokens[0]` and
`result.Groups[group] = OBJGroup{}`. -/
def caseG {F : Type} (result : OBJModel F) (tokens : List String) : Outcome F :=
  match validLength tokens 1 with
  | some err => .ret (OBJModel.zero F) (some err)
  | none =>
    .next { result with Groups := result.Groups.assign (elemAt tokens 0) (OBJGroup.zero F) }
      (elemAt tokens 0)

/-- Case `"usemtl"` of the switch (lines 69-79). The conversion
`uint64(len(tmp.Polygon))` of a slice length is exact. -/
def caseUsemtl {F : Type} (result : OBJModel F) (group : String) (tokens : List String) :
    Outcome F :=
  match validLength tokens 1 with
  | some err => .ret (OBJModel.zero F) (some err)
  | none =>
    .next (updateGroup result group fun tmp =>
      { tmp with UseMaterial := tmp.UseMaterial ++ [⟨tmp.Polygon.length, elemAt tokens 0⟩] })
      group

/-- Case `"v"` of the switch (lines 80-91). -/
def caseV {F : Type} (ParseFloat : String → Except Error F) (result : OBJModel F)
    (group : String) (tokens : List String) : Outcome F :=
  match validLength tokens 3 with
  | some err => .ret (OBJModel.zero F) (some err)
  | none =>
    match tokensToFloat64Values ParseFloat tokens with
    | .error err => .ret (OBJModel.zero F) (some err)
    | .ok vertex =>
      .next (updateGroup result group fun tmp =>
        { tmp with Vertex := tmp.Vertex ++ [vertex] }) group

/-- Case `"vt"` of the switch (lines 92-103). -/
def caseVt {F : Type} (ParseFloat : String → Except Error F) (result : OBJModel F)
    (group : String) (tokens : List String) : Outcome F :=
  match validLength tokens 2 with
  | some err => .ret (OBJModel.zero F) (some err)
  | none =>
    match tokensToFloat64Values ParseFloat tokens with
    | .error err => .ret (OBJModel.zero F) (some err)
    | .ok uv =>
      .next (updateGroup result group fun tmp => { tmp with UV := tmp.UV ++ [uv] }) group

/-- Case `"vn"` of the switch (lines 104-115). -/
def caseVn {F : Type} (ParseFloat : String → Except Error F) (result : OBJModel F)
    (group : String) (tokens : List String) : Outcome F :=
  match validLength tokens 3 with
  | some err => .ret (OBJModel.zero F) (some err)
  | none =>
    match tokensToFloat64Values ParseFloat tokens with
    | .error err => .ret (OBJModel.zero F) (some err)
    | .ok normal =>
      .next (updateGroup result group fun tmp =>
        { tmp with Normal := tmp.Normal ++ [normal] }) group

/-- Case `"f"` of the switch (lines 116-127). -/
def caseF {F : Type} (result : OBJModel F) (group : String) (tokens : List String) :
    Outcome F :=
  match validLength tokens 3 with
  | some err => .ret (OBJModel.zero F) (some err)
  | none =>
    match tokensToOBJPolygons tokens with
    | .error err => .ret (OBJModel.zero F) (some err)
    | .ok polygon =>
      .next (updateGroup result group fun tmp =>
        { tmp with Polygon := tmp.Polygon ++ [polygon] }) group

/-- Case `"s"` of the switch (lines 128-139). -/
def caseS {F : Type} (result : OBJModel F) (group : String) (tokens : List String) :
    Outcome F :=
  match validLength tokens 1 with
  | some err => .ret (OBJModel.zero F) (some err)
  | none =>
    match Atoi (elemAt tokens 0) with
    | .error err => .ret (OBJModel.zero F) (some err)
    | .ok smoothing =>
      .next (updateGroup result group fun tmp => { tmp with Smoothing := smoothing }) group

/-- The body of the loop of `LoadOBJ` (lines 44-140) for one `line`: no tokens is
`continue`; otherwise the switch on `tokens[0]`, here `directive`, each case of which
starts with `tokens = tokens[1:]`. A first token that matches no case does nothing. -/
def lineStep {F : Type} (ParseFloat : String → Except Error F)
    (result : OBJModel F) (group : String) (line : String) : Outcome F :=
  match tokenize line with
  | [] => .next result group
  | directive :: tokens =>
    if directive = "mtllib" then caseMtllib result group tokens
    else if directive = "o" then caseO result group tokens
    else if directive = "g" then caseG result tokens
    else if directive = "usemtl" then caseUsemtl result group tokens
    else if directive = "v" then caseV ParseFloat result group tokens
    else if directive = "vt" then caseVt ParseFloat result group tokens
    else if directive = "vn" then caseVn ParseFloat result group tokens
    else if directive = "f" then caseF result group tokens
    else if directive = "s" then caseS result group tokens
    else .next result group

/-- The loop `for scanner.Scan()` of `LoadOBJ` over the lines the scanner yields, from
the values `result` and `group` of the variables, followed by the final
`return result, nil` (line 142). The value of `scanner.Err()` is not consulted. -/
def loadLoop {F : Type} (ParseFloat : String → Except Error F) :
    OBJModel F → String → List String → OBJModel F × Option Error
  | result, _, [] => (result, none)
  | result, group, line :: rest =>
    match lineStep ParseFloat result group line with
    | .next result group => loadLoop ParseFloat result group rest
    | .ret model err => (model, err)

/-- The run of `LoadOBJ` on a given sequence of scanned lines: `result` starts as
`OBJModel{Groups: map[string]OBJGroup{}}` and `group` as `""`. -/
def loadLines {F : Type} (ParseFloat : String → Except Error F) (lines : List String) :
    OBJModel F × Option Error :=
  loadLoop ParseFloat ⟨"", "", .table []⟩ "" lines

/-- `LoadOBJ(reader)`: the returned model and error (`none` is nil). -/
def LoadOBJ {F : Type} (ParseFloat : String → Except Error F) (reader : Reader) :
    OBJModel F × Option Error :=
  loadLines ParseFloat (Scanner.lines reader)

/-- A sample value for the parameter `ParseFloat`, used where a run is evaluated on a
concrete input: it reads unsigned decimal integers and rejects everything else, with
the error shape of `strconv.ParseFloat`. -/
def sampleParseFloat (s : String) : Except Error Nat :=
  match ParseUint s with
  | .ok n => .ok n
  | .error _ => .error (syntaxError "ParseFloat" s)

/-- The values of the variables `result` and `group` after the loop of `LoadOBJ` has
processed the given lines (`next`), or the return statement that ended it (`ret`). -/
def runLines {F : Type} (ParseFloat : String → Except Error F) :
    OBJModel F → String → List String → Outcome F
  | result, group, [] => .next result group
  | result, group, line :: rest =>
    match lineStep ParseFloat result group line with
    | .next result group => runLines ParseFloat result group rest
    | .ret model err => .ret model err

/-! ## The directive table of the specification -/

/-- The recognised directives with their required argument counts. -/
def requiredArgs (d : String) : Option Nat :=
  if d = "mtllib" then some 1
  else if d = "o" then some 1
  else if d = "g" then some 1
  else if d = "usemtl" then some 1
  else if d = "v" then some 3
  else if d = "vt" then some 2
  else if d = "vn" then some 3
  else if d = "f" then some 3
  else if d = "s" then some 1
  else none

/-- What a return statement of the loop body returns: the zero model and an error. -/
def IsErrorReturn {F : Type} (o : Outcome F) : Prop :=
  ∀ m e, o = .ret m e → m = OBJModel.zero F ∧ ∃ err, e = some err

/-! ## Decimal numerals -/

/-- An ASCII decimal digit. -/
def isDecimalDigit (c : Char) : Bool := decide ('0'.toNat ≤ c.toNat ∧ c.toNat ≤ '9'.toNat)

/-- The number that a string of decimal digits denotes, continuing from `n`. -/
def decimalFrom (n : Nat) (cs : List Char) : Nat :=
  cs.foldl (fun n c => n * 10 + (c.toNat - '0'.toNat)) n

/-- The number that a string of decimal digits denotes. -/
def decimalValue (cs : List Char) : Nat := decimalFrom 0 cs

/-- A field of a face argument that `tokensToOBJPolygons` accepts: empty, or a
non-empty string of ASCII decimal digits whose value is below `2^64`. -/
def validField (fld : String) : Bool :=
  fld = "" || (fld.data.all isDecimalDigit && decide (decimalValue fld.data < 2 ^ 64))

/-- The index that a valid field stands for: 0 when it is empty. -/
def fieldValue (fld : String) : Nat := decimalValue fld.data

/-- The parse of one field of a face argument: an empty or missing field is skipped
and leaves the index 0. -/
def parseField (x : String) : Except Error Nat :=
  if x ≠ "" then ParseUint x else .ok 0

/-! ## Lines and their layout -/

/-- The first tokens that the switch of `LoadOBJ` has a case for. -/
def directives : List String := ["mtllib", "o", "g", "usemtl", "v", "vt", "vn", "f", "s"]

/-- A line without effect: it has no token (blank or white space only), or its first
token is not exactly one of the directives. -/
def Ignorable (line : String) : Prop :=
  tokenize line = [] ∨ ∃ d args, tokenize line = d :: args ∧ d ∉ directives

/-- A run of white space. -/
def isBlank (cs : List Char) : Bool := cs.all isSpace

/-- A word: a non-empty run of characters none of which is white space. -/
def isWord (cs : List Char) : Bool := !cs.isEmpty && cs.all fun c => !isSpace c

/-- The words of a line, each paired with the white space that follows it: all but the
last are followed by at least one white space character. -/
def wellSpaced : List (List Char × List Char) → Bool
  | [] => true
  | (w, sp) :: rest => isWord w && isBlank sp && (rest.isEmpty || !sp.isEmpty) && wellSpaced rest

/-- The words of a line written out with the white space after each. -/
def spell : List (List Char × List Char) → List Char
  | [] => []
  | (w, sp) :: rest => w ++ sp ++ spell rest

/-- The line made of the leading white space `lead` and then the words `ws` with the
white space after each. -/
def layOut (lead : List Char) (ws : List (List Char × List Char)) : String :=
  String.mk (lead ++ spell ws)

/-- The words of a laid-out line, as strings. -/
def wordsOf (ws : List (List Char × List Char)) : List String :=
  ws.map fun p => String.mk p.1

/-! ## Sections of a stream -/

/-- A line whose first token is `d`. -/
def isLineOf (d : String) (line : String) : Bool := (tokenize line).head? = some d

/-- The arguments of a line: its tokens after the first. -/
def argsOf (line : String) : List String := (tokenize line).drop 1

/-- A `g` line. -/
def isGroupLine (line : String) : Bool := isLineOf "g" line

/-- A line of one of the directives that act on the current group. -/
def isDataLine (line : String) : Bool :=
  isLineOf "usemtl" line || isLineOf "v" line || isLineOf "vt" line || isLineOf "vn" line
    || isLineOf "f" line || isLineOf "s" line

/-- The line `g n`. -/
def declares (n : String) (line : String) : Bool := tokenize line = ["g", n]

/-- The lines before the next `g` line (all of them if there is none). -/
def untilNextG (lines : List String) : List String := lines.takeWhile fun l => !isGroupLine l

/-- The lines after the last `g n` line, if there is one. -/
def afterLastDecl (n : String) : List String → Option (List String)
  | [] => none
  | l :: rest =>
    match afterLastDecl n rest with
    | some s => some s
    | none => if declares n l then some rest else none

/-- The section of group `n` in a stream: the lines lying between the last `g n` line
(the start of the stream for the implicit group `""`) and the following `g` line or
the end of the stream. A name that no `g` line declares has an empty section. -/
def sectionOf (n : String) (lines : List String) : List String :=
  if n = "" then untilNextG lines
  else
    match afterLastDecl n lines with
    | some s => untilNextG s
    | none => []

/-- Whether the section of `n` runs to the end of the stream: no `g` line follows the
last `g n` line (for `""`: the stream has no `g` line). -/
def sectionOpen (n : String) (lines : List String) : Bool :=
  if n = "" then lines.all fun l => !isGroupLine l
  else
    match afterLastDecl n lines with
    | some s => s.all fun l => !isGroupLine l
    | none => false

/-- The number of lines of directive `d`. -/
def countLines (d : String) (lines : List String) : Nat := (lines.filter (isLineOf d)).length

/-- The group name `n` occurs in a stream: a `g n` line declares it, or, for the
implicit group `""`, a data line occurs before the first `g` line. -/
def occurs (n : String) (lines : List String) : Bool :=
  lines.any (declares n) || (decide (n = "") && (untilNextG lines).any isDataLine)

/-- The coordinates of the lines of directive `d`, in order. -/
def floatsOf {F : Type} (ParseFloat : String → Except Error F) (d : String)
    (lines : List String) : List (List F) :=
  (lines.filter (isLineOf d)).filterMap fun l =>
    (tokensToFloat64Values ParseFloat (argsOf l)).toOption

/-- The faces of the `f` lines, in order. -/
def facesOf (lines : List String) : List (List OBJPolygon) :=
  (lines.filter (isLineOf "f")).filterMap fun l => (tokensToOBJPolygons (argsOf l)).toOption

/-- The material ranges of the `usemtl` lines, in order: each starts at the number of
`f` lines before it, counted from `k` at the head of the list. -/
def materialsFrom : Nat → List String → List OBJUseMaterial
  | _, [] => []
  | k, l :: rest =>
    if isLineOf "usemtl" l then ⟨k, elemAt (argsOf l) 0⟩ :: materialsFrom k rest
    else if isLineOf "f" l then materialsFrom (k + 1) rest
    else materialsFrom k rest

/-- The smoothing value that the lines set: that of the last `s` line, 0 without one. -/
def smoothingOf (lines : List String) : Int :=
  match (lines.filter (isLineOf "s")).getLast? with
  | some l => ((Atoi (elemAt (argsOf l) 0)).toOption).getD 0
  | none => 0

/-- The group that the data lines of a section describe. -/
def groupOf {F : Type} (ParseFloat : String → Except Error F) (lines : List String) :
    OBJGroup F :=
  { UseMaterial := materialsFrom 0 lines
    Vertex := floatsOf ParseFloat "v" lines
    UV := floatsOf ParseFloat "vt" lines
    Normal := floatsOf ParseFloat "vn" lines
    Polygon := facesOf lines
    Smoothing := smoothingOf lines }

/-- The lists of a section's group have one entry per line of their directive. -/
def Counted {F : Type} (ParseFloat : String → Except Error F) (lines : List String) : Prop :=
  (floatsOf ParseFloat "v" lines).length = countLines "v" lines ∧
    (floatsOf ParseFloat "vt" lines).length = countLines "vt" lines ∧
    (floatsOf ParseFloat "vn" lines).length = countLines "vn" lines ∧
    (facesOf lines).length = countLines "f" lines

/-- The state of the loop of `LoadOBJ` after the lines `pre`, described by the
sections of `pre`: `group` is the name whose section is open, the keys of
`result.Groups` are the names that occur, and the group stored for a name is the
group of its section. -/
structure Described {F : Type} (ParseFloat : String → Except Error F) (pre : List String)
    (result : OBJModel F) (group : String) : Prop where
  allocated : ∃ es, result.Groups = .table es
  current : ∀ n, sectionOpen n pre = true ↔ n = group
  keys : ∀ n, (result.Groups.get? n).isSome = true ↔ occurs n pre = true
  content : ∀ n, result.Groups.index (OBJGroup.zero F) n = groupOf ParseFloat (sectionOf n pre)
  counted : ∀ n, Counted ParseFloat (sectionOf n pre)

/-- How a pass of the loop body over `line` that goes on to the next line changes
the state: a `g k` line makes `k` current and assigns it the empty group; a data
line rewrites the current group, turning the group of a section into the group of
the section with the line added; any other line leaves the groups alone. -/
def StepEffect {F : Type} (ParseFloat : String → Except Error F) (result : OBJModel F)
    (group line : String) (o : Outcome F) : Prop :=
  ∀ result' group', o = .next result' group' →
    (∃ k, tokenize line = ["g", k] ∧ group' = k ∧ result'.Name = result.Name ∧
        result'.MaterialFile = result.MaterialFile ∧
        result'.Groups = result.Groups.assign k (OBJGroup.zero F)) ∨
    (isGroupLine line = false ∧ isDataLine line = true ∧ group' = group ∧
      ∃ f : OBJGroup F → OBJGroup F, result' = updateGroup result group f ∧
        ∀ sec, Counted ParseFloat sec →
          f (groupOf ParseFloat sec) = groupOf ParseFloat (sec ++ [line]) ∧
            Counted ParseFloat (sec ++ [line])) ∨
    (isGroupLine line = false ∧ isDataLine line = false ∧ group' = group ∧
      result'.Groups = result.Groups)

/-! ## Invariants of the groups -/

/-- The writes that the data directives make to the current group `tmp` (lines
74-79, 89-91, 101-103, 113-115, 125-127, 137-139), each with what the switch has
checked before it. -/
inductive GroupUpdate {F : Type} (ParseFloat : String → Except Error F) :
    OBJGroup F → OBJGroup F → Prop where
  | usemtl (tmp : OBJGroup F) (m : String) :
    GroupUpdate ParseFloat tmp
      { tmp with UseMaterial := tmp.UseMaterial ++ [⟨tmp.Polygon.length, m⟩] }
  | v (tmp : OBJGroup F) (tokens : List String) (vertex : List F) :
    tokens.length = 3 → tokensToFloat64Values ParseFloat tokens = .ok vertex →
    GroupUpdate ParseFloat tmp { tmp with Vertex := tmp.Vertex ++ [vertex] }
  | vt (tmp : OBJGroup F) (tokens : List String) (uv : List F) :
    tokens.length = 2 → tokensToFloat64Values ParseFloat tokens = .ok uv →
    GroupUpdate ParseFloat tmp { tmp with UV := tmp.UV ++ [uv] }
  | vn (tmp : OBJGroup F) (tokens : List String) (normal : List F) :
    tokens.length = 3 → tokensToFloat64Values ParseFloat tokens = .ok normal →
    GroupUpdate ParseFloat tmp { tmp with Normal := tmp.Normal ++ [normal] }
  | f (tmp : OBJGroup F) (tokens : List String) (polygon : List OBJPolygon) :
    tokens.length = 3 → tokensToOBJPolygons tokens = .ok polygon →
    GroupUpdate ParseFloat tmp { tmp with Polygon := tmp.Polygon ++ [polygon] }
  | s (tmp : OBJGroup F) (x : String) (smoothing : Int) :
    Atoi x = .ok smoothing → GroupUpdate ParseFloat tmp { tmp with Smoothing := smoothing }

/-- What a pass of the loop body that goes on to the next line does to
`result.Groups`: nothing, the assignment of the empty group to a name, or the
assignment of an updated current group. -/
def GroupsEffect {F : Type} (ParseFloat : String → Except Error F) (result : OBJModel F)
    (group : String) (o : Outcome F) : Prop :=
  ∀ result' group', o = .next result' group' →
    result'.Groups = result.Groups ∨
    (∃ k, result'.Groups = result.Groups.assign k (OBJGroup.zero F)) ∨
    (∃ new, GroupUpdate ParseFloat (result.Groups.index (OBJGroup.zero F) group) new ∧
      result'.Groups = result.Groups.assign group new)

/-- The shape of a group: faces of 3 vertex references, vertices of 3 components,
texture coordinates of 2, normals of 3. -/
def Shaped {F : Type} (grp : OBJGroup F) : Prop :=
  (∀ p ∈ grp.Polygon, p.length = 3) ∧ (∀ v ∈ grp.Vertex, v.length = 3) ∧
    (∀ uv ∈ grp.UV, uv.length = 2) ∧ (∀ n ∈ grp.Normal, n.length = 3)

/-- The `StartIndex` values of a group's material ranges, in list order. -/
def startIndices {F : Type} (grp : OBJGroup F) : List Nat :=
  grp.UseMaterial.map OBJUseMaterial.StartIndex

/-- The material ranges of a group are in order: the `StartIndex` values do not
decrease along the list, and none exceeds the number of faces. -/
def Ranged {F : Type} (grp : OBJGroup F) : Prop :=
  (startIndices grp).Pairwise (· ≤ ·) ∧ ∀ i ∈ startIndices grp, i ≤ grp.Polygon.length

/-! ## Document-level fields -/

/-- The argument of the last line of directive `d`, the empty string when there is
no such line: the value of a field for which the last write wins. -/
def lastArgOf (d : String) (lines : List String) : String :=
  match (lines.filter (isLineOf d)).getLast? with
  | some l => elemAt (argsOf l) 0
  | none => ""

/-- What a pass of the loop body over `line` that goes on to the next line does to
`Name` and `MaterialFile`: an `o` line sets the one, a `mtllib` line the other. -/
def NamesEffect {F : Type} (result : OBJModel F) (line : String) (o : Outcome F) : Prop :=
  ∀ result' group', o = .next result' group' →
    result'.Name = (if isLineOf "o" line = true then elemAt (argsOf line) 0 else result.Name) ∧
    result'.MaterialFile =
      (if isLineOf "mtllib" line = true then elemAt (argsOf line) 0 else result.MaterialFile)

/-- Whether a line is without effect, computed from its tokens. -/
def ignorableB (line : String) : Bool :=
  match tokenize line with
  | [] => true
  | d :: _ => decide (d ∉ directives)

instance (line : String) : Decidable (Ignorable line) :=
  decidable_of_iff (ignorableB line = true) (by
    unfold ignorableB Ignorable
    cases h : tokenize line with
    | nil => simp
    | cons d args => simp)

/-! ## Integer literals -/

/-- The integer that a string denotes in base 10: an optional sign `+` or `-`
followed by one or more ASCII decimal digits; `none` for every other string. -/
def intLiteral (x : String) : Option Int :=
  let digits :=
    if x.data.head? = some '+' ∨ x.data.head? = some '-' then x.data.drop 1 else x.data
  if digits ≠ [] ∧ digits.all isDecimalDigit = true then
    some (if x.data.head? = some '-' then -(decimalValue digits : Int)
      else (decimalValue digits : Int))
  else none

/-- The range of a 64-bit `int`. -/
def inIntRange (v : Int) : Prop := -(2 : Int) ^ 63 ≤ v ∧ v ≤ (2 : Int) ^ 63 - 1

/-! ## Streams that are not read to the end -/

/-- A line of `MaxScanTokenSize` bytes: one byte more than the scanner can hold
together with a newline. -/
def longLine : String := String.mk (List.replicate MaxScanTokenSize 'x')

/-! ## The consumer in `main.go` (lines 63-75) -/

/-- The conversion `uint32(x - 1)` of a `uint64` value `x`: the subtraction wraps around at
0 and the conversion keeps the low 32 bits. -/
def toIndex (x : Nat) : Nat := ((x + 2 ^ 64 - 1) % 2 ^ 64) % 2 ^ 32

/-- The loop over `group.Vertex` (lines 66-68): it appends `float32(v[0])`,
`float32(v[1])`, `float32(v[2])` to `triangle`; `none` when an index expression is
out of range, where the program panics. -/
def vertexLoop {F G : Type} (float32 : F → G) : List (List F) → List G → Option (List G)
  | [], triangle => some triangle
  | v :: rest, triangle =>
    match v[0]?, v[1]?, v[2]? with
    | some a, some b, some c =>
      vertexLoop float32 rest (triangle ++ [float32 a, float32 b, float32 c])
    | _, _, _ => none

/-- The loop over `group.Polygon` (lines 69-72): it appends the three converted
vertex indices of `p[0]`, `p[1]`, `p[2]` to `index`; `none` when an index
expression is out of range. -/
def polygonLoop : List (List OBJPolygon) → List Nat → Option (List Nat)
  | [], index => some index
  | p :: rest, index =>
    match p[0]?, p[1]?, p[2]? with
    | some a, some b, some c =>
      polygonLoop rest
        (index ++ [toIndex a.VertexIndex, toIndex b.VertexIndex, toIndex c.VertexIndex])
    | _, _, _ => none

/-- The loop `for _, group := range obj.Groups` (lines 65-73) over the entries of the
map in the order `groups` in which the iteration yields them, from the buffers
`triangle` and `index`. -/
def flatten {F G : Type} (float32 : F → G) :
    List (String × OBJGroup F) → List G → List Nat → Option (List G × List Nat)
  | [], triangle, index => some (triangle, index)
  | (_, group) :: rest, triangle, index =>
    match vertexLoop float32 group.Vertex triangle with
    | none => none
    | some triangle =>
      match polygonLoop group.Polygon index with
      | none => none
      | some index => flatten float32 rest triangle index

/-- The total number of vertices of the groups. -/
def totalVertices {F : Type} (groups : List (String × OBJGroup F)) : Nat :=
  (groups.map fun e => e.2.Vertex.length).sum

/-- The total number of faces of the groups. -/
def totalFaces {F : Type} (groups : List (String × OBJGroup F)) : Nat :=
  (groups.map fun e => e.2.Polygon.length).sum

/-! ## Basic facts -/

section Basic

variable {F : Type} (ParseFloat : String → Except Error F)

/-- Case analysis on one pass through the loop body: a property holds of the outcome
of `lineStep` as soon as it holds of the outcome of each case of the switch. -/
theorem lineStep_dispatch (P : Outcome F → Prop) (result : OBJModel F) (group line : String)
    (hnil : tokenize line = [] → P (.next result group))
    (hmtllib : ∀ tokens, tokenize line = "mtllib" :: tokens → P (caseMtllib result group tokens))
    (ho : ∀ tokens, tokenize line = "o" :: tokens → P (caseO result group tokens))
    (hg : ∀ tokens, tokenize line = "g" :: tokens → P (caseG result tokens))
    (husemtl : ∀ tokens, tokenize line = "usemtl" :: tokens → P (caseUsemtl result group tokens))
    (hv : ∀ tokens, tokenize line = "v" :: tokens → P (caseV ParseFloat result group tokens))
    (hvt : ∀ tokens, tokenize line = "vt" :: tokens → P (caseVt ParseFloat result group tokens))
    (hvn : ∀ tokens, tokenize line = "vn" :: tokens → P (caseVn ParseFloat result group tokens))
    (hf : ∀ tokens, tokenize line = "f" :: tokens → P (caseF result group tokens))
    (hs : ∀ tokens, tokenize line = "s" :: tokens → P (caseS result group tokens))
    (hother : ∀ d tokens, tokenize line = d :: tokens → requiredArgs d = none →
      P (.next result group)) :
    P (lineStep ParseFloat result group line) := by
  unfold lineStep
  cases htok : tokenize line with
  | nil => exact hnil htok
  | cons d tokens =>
    dsimp only
    by_cases h1 : d = "mtllib"
    · rw [if_pos h1]; exact hmtllib tokens (h1 ▸ htok)
    rw [if_neg h1]
    by_cases h2 : d = "o"
    · rw [if_pos h2]; exact ho tokens (h2 ▸ htok)
    rw [if_neg h2]
    by_cases h3 : d = "g"
    · rw [if_pos h3]; exact hg tokens (h3 ▸ htok)
    rw [if_neg h3]
    by_cases h4 : d = "usemtl"
    · rw [if_pos h4]; exact husemtl tokens (h4 ▸ htok)
    rw [if_neg h4]
    by_cases h5 : d = "v"
    · rw [if_pos h5]; exact hv tokens (h5 ▸ htok)
    rw [if_neg h5]
    by_cases h6 : d = "vt"
    · rw [if_pos h6]; exact hvt tokens (h6 ▸ htok)
    rw [if_neg h6]
    by_cases h7 : d = "vn"
    · rw [if_pos h7]; exact hvn tokens (h7 ▸ htok)
    rw [if_neg h7]
    by_cases h8 : d = "f"
    · rw [if_pos h8]; exact hf tokens (h8 ▸ htok)
    rw [if_neg h8]
    by_cases h9 : d = "s"
    · rw [if_pos h9]; exact hs tokens (h9 ▸ htok)
    rw [if_neg h9]
    refine hother d tokens htok ?_
    unfold requiredArgs
    rw [if_neg h1, if_neg h2, if_neg h3, if_neg h4, if_neg h5, if_neg h6, if_neg h7,
      if_neg h8, if_neg h9]

theorem lineStep_ret {result : OBJModel F} {group line : String} {m : OBJModel F}
    {e : Option Error} (h : lineStep ParseFloat result group line = .ret m e) :
    m = OBJModel.zero F ∧ ∃ err, e = some err := by
  have key : IsErrorReturn (lineStep ParseFloat result group line) := by
    refine lineStep_dispatch ParseFloat IsErrorReturn result group line ?_ ?_ ?_ ?_ ?_ ?_ ?_
      ?_ ?_ ?_ ?_
    all_goals intros
    all_goals intro m e h
    all_goals
      first
      | cases h
      | (simp only [caseMtllib, caseO, caseG, caseUsemtl, caseV, caseVt, caseVn, caseF,
          caseS] at h
         (try split at h) <;> (try split at h) <;>
          first
          | (cases h; exact ⟨rfl, _, rfl⟩)
          | cases h)
  exact key m e h

theorem loadLoop_eq_runLines (result : OBJModel F) (group : String) (lines : List String) :
    loadLoop ParseFloat result group lines =
      match runLines ParseFloat result group lines with
      | .next result _ => (result, none)
      | .ret model err => (model, err) := by
  induction lines generalizing result group with
  | nil => rfl
  | cons line rest ih =>
    simp only [loadLoop, runLines]
    cases h : lineStep ParseFloat result group line with
    | next r g => simpa using ih r g
    | ret m e => rfl

theorem runLines_append (result : OBJModel F) (group : String) (pre post : List String) :
    runLines ParseFloat result group (pre ++ post) =
      match runLines ParseFloat result group pre with
      | .next r g => runLines ParseFloat r g post
      | .ret m e => .ret m e := by
  induction pre generalizing result group with
  | nil => rfl
  | cons line rest ih =>
    simp only [List.cons_append, runLines]
    cases h : lineStep ParseFloat result group line with
    | next r g => simpa using ih r g
    | ret m e => rfl

theorem runLines_ret {result : OBJModel F} {group : String} {lines : List String}
    {m : OBJModel F} {e : Option Error}
    (h : runLines ParseFloat result group lines = .ret m e) :
    m = OBJModel.zero F ∧ ∃ err, e = some err := by
  induction lines generalizing result group with
  | nil => cases h
  | cons line rest ih =>
    simp only [runLines] at h
    cases h1 : lineStep ParseFloat result group line with
    | next r g => rw [h1] at h; exact ih h
    | ret m1 e1 =>
      rw [h1] at h
      cases h
      exact lineStep_ret ParseFloat h1

end Basic

/-! ## The scanner -/

theorem scanLines_eq_allLinesOf (pieces : List (List Char))
    (h : scanTooLong pieces = false) : scanLines pieces = Scanner.allLinesOf pieces := by
  induction pieces with
  | nil => rfl
  | cons l rest ih =>
    cases rest with
    | nil =>
      simp only [scanTooLong, decide_eq_false_iff_not, not_and, not_not] at h
      simp only [scanLines, Scanner.allLinesOf]
      by_cases hl : l = []
      · simp [hl]
      · simp [hl, h hl]
    | cons l2 rest2 =>
      simp only [scanTooLong] at h
      simp only [scanLines, Scanner.allLinesOf]
      split_ifs at h with hfit
      rw [if_pos hfit, ih h]

theorem Scanner.lines_eq_allLines (reader : Reader) (h : Scanner.Err reader = none) :
    Scanner.lines reader = Scanner.allLines reader.data := by
  unfold Scanner.Err at h
  split_ifs at h with hlong
  simp only [Bool.not_eq_true] at hlong
  simp only [Scanner.lines, Scanner.allLines, scanLines_eq_allLinesOf _ hlong]

/-! ## Argument counts and errors (C1, C2) -/

section Errors

variable {F : Type} (ParseFloat : String → Except Error F)

theorem lineStep_badCount (result : OBJModel F) (group : String) {line d : String}
    {args : List String} {n : Nat} (htok : tokenize line = d :: args)
    (hreq : requiredArgs d = some n) (hlen : args.length ≠ n) :
    lineStep ParseFloat result group line = .ret (OBJModel.zero F) (some .invalidFormat) := by
  refine lineStep_dispatch ParseFloat
    (fun o => o = .ret (OBJModel.zero F) (some .invalidFormat)) result group line ?hnil ?_ ?_
    ?_ ?_ ?_ ?_ ?_ ?_ ?_ ?hother
  case hnil => intro h; rw [h] at htok; cases htok
  case hother =>
    intro d' tokens h hnone
    rw [h] at htok; cases htok; rw [hreq] at hnone; cases hnone
  all_goals
    intro tokens h
    rw [h] at htok
    cases htok
    replace hreq : some _ = some n := hreq
    cases hreq
    simp only [caseMtllib, caseO, caseG, caseUsemtl, caseV, caseVt, caseVn, caseF, caseS,
      validLength, ne_eq, hlen, not_false_eq_true, if_true]

theorem loadLines_badLine {pre post : List String} {line d : String} {args : List String}
    {n : Nat} (htok : tokenize line = d :: args) (hreq : requiredArgs d = some n)
    (hlen : args.length ≠ n) :
    (loadLines ParseFloat (pre ++ line :: post)).2 ≠ none ∧
      ((loadLines ParseFloat pre).2 = none →
        (loadLines ParseFloat (pre ++ line :: post)).2 = some .invalidFormat) := by
  simp only [loadLines, loadLoop_eq_runLines, runLines_append]
  cases hpre : runLines ParseFloat ⟨"", "", .table []⟩ "" pre with
  | next r g =>
    simp [runLines, lineStep_badCount ParseFloat r g htok hreq hlen]
  | ret m e =>
    obtain ⟨-, err, rfl⟩ := runLines_ret ParseFloat hpre
    simp

/-- C1: on a stream that the line scanner reads in full, a line whose first token is
a recognised directive and whose number of remaining tokens differs from the
required count makes `LoadOBJ` return a non-nil error; when no earlier line fails,
the error is the `invalid format` error, whatever the arguments are (the count is
checked before any of them is parsed). In particular `v 1.0 2.0`, `f 1 2` and
`v a b` fail with `invalid format`. -/
theorem C1_argument_count (reader : Reader) (hfull : Scanner.Err reader = none) :
    (∀ line ∈ Scanner.allLines reader.data, ∀ (d : String) (args : List String) (n : Nat),
        tokenize line = d :: args → requiredArgs d = some n → args.length ≠ n →
        (LoadOBJ ParseFloat reader).2 ≠ none) ∧
    (∀ (pre post : List String) (line d : String) (args : List String) (n : Nat),
        Scanner.allLines reader.data = pre ++ line :: post →
        (loadLines ParseFloat pre).2 = none →
        tokenize line = d :: args → requiredArgs d = some n → args.length ≠ n →
        (LoadOBJ ParseFloat reader).2 = some .invalidFormat) ∧
    (LoadOBJ ParseFloat ⟨"v 1.0 2.0", none⟩).2 = some .invalidFormat ∧
    (LoadOBJ ParseFloat ⟨"f 1 2", none⟩).2 = some .invalidFormat ∧
    (LoadOBJ ParseFloat ⟨"v a b", none⟩).2 = some .invalidFormat := by
  have hl := Scanner.lines_eq_allLines reader hfull
  refine ⟨?_, ?_, ?_, ?_, ?_⟩
  · intro line hmem d args n htok hreq hlen
    obtain ⟨pre, post, hsplit⟩ := List.append_of_mem hmem
    unfold LoadOBJ
    rw [hl, hsplit]
    exact (loadLines_badLine ParseFloat htok hreq hlen).1
  · intro pre post line d args n hsplit hpre htok hreq hlen
    unfold LoadOBJ
    rw [hl, hsplit]
    exact (loadLines_badLine ParseFloat htok hreq hlen).2 hpre
  · have h : Scanner.lines ⟨"v 1.0 2.0", none⟩ = [] ++ "v 1.0 2.0" :: [] := by decide
    unfold LoadOBJ
    rw [h]
    exact (@loadLines_badLine F ParseFloat [] [] "v 1.0 2.0" "v" ["1.0", "2.0"] 3
      (by decide) (by decide) (by decide)).2 rfl
  · have h : Scanner.lines ⟨"f 1 2", none⟩ = [] ++ "f 1 2" :: [] := by decide
    unfold LoadOBJ
    rw [h]
    exact (@loadLines_badLine F ParseFloat [] [] "f 1 2" "f" ["1", "2"] 3
      (by decide) (by decide) (by decide)).2 rfl
  · have h : Scanner.lines ⟨"v a b", none⟩ = [] ++ "v a b" :: [] := by decide
    unfold LoadOBJ
    rw [h]
    exact (@loadLines_badLine F ParseFloat [] [] "v a b" "v" ["a", "b"] 3
      (by decide) (by decide) (by decide)).2 rfl

/-- C1 at a concrete stream: the second line `v 1.0 2.0` is the first failing line. -/
theorem C1_argument_count_witness :
    (LoadOBJ sampleParseFloat ⟨"g a\nv 1.0 2.0\nf 1 2 3\n", none⟩).2 = some .invalidFormat :=
  (C1_argument_count sampleParseFloat ⟨"g a\nv 1.0 2.0\nf 1 2 3\n", none⟩ (by decide)).2.1
    ["g a"] ["f 1 2 3"] "v 1.0 2.0" "v" ["1.0", "2.0"] 3
    (by decide) (by decide) (by decide) (by decide) (by decide)

/-- C2: whenever `LoadOBJ` returns a non-nil error, the model returned with it is the
zero `OBJModel` (empty `Name`, empty `MaterialFile`, nil `Groups`), whatever was
processed before the failing line. -/
theorem C2_no_partial_document (reader : Reader)
    (herr : (LoadOBJ ParseFloat reader).2 ≠ none) :
    (LoadOBJ ParseFloat reader).1 = OBJModel.zero F := by
  unfold LoadOBJ loadLines at herr ⊢
  rw [loadLoop_eq_runLines] at herr ⊢
  cases h : runLines ParseFloat ⟨"", "", .table []⟩ "" (Scanner.lines reader) with
  | next r g => rw [h] at herr; exact absurd rfl herr
  | ret m e => exact (runLines_ret ParseFloat h).1

/-- C2 at a concrete stream: the name and the group set before the failing third
line are not returned. -/
theorem C2_no_partial_document_witness :
    (LoadOBJ sampleParseFloat ⟨"o cube\ng base\nv 0 0\n", none⟩).2 ≠ none ∧
      (LoadOBJ sampleParseFloat ⟨"o cube\ng base\nv 0 0\n", none⟩).1 = OBJModel.zero Nat :=
  ⟨by decide, C2_no_partial_document sampleParseFloat ⟨"o cube\ng base\nv 0 0\n", none⟩
    (by decide)⟩

end Errors

/-! ## Face arguments (C3, C4) -/

theorem decimalFrom_ge (n : Nat) (cs : List Char) : n ≤ decimalFrom n cs := by
  induction cs generalizing n with
  | nil => exact le_refl _
  | cons c cs ih =>
    have := ih (n * 10 + (c.toNat - '0'.toNat))
    simp only [decimalFrom, List.foldl_cons] at this ⊢
    omega

theorem decimalFrom_cons (n : Nat) (c : Char) (cs : List Char) :
    decimalFrom n (c :: cs) = decimalFrom (n * 10 + (c.toNat - '0'.toNat)) cs := rfl

theorem parseUintLoop_ok_iff (s0 : String) (cs : List Char) (n v : Nat) (hn : n < 2 ^ 64) :
    parseUintLoop s0 cs n = .ok v ↔
      (cs.all isDecimalDigit = true ∧ decimalFrom n cs = v ∧ v < 2 ^ 64) := by
  induction cs generalizing n with
  | nil =>
    simp only [parseUintLoop, List.all_nil, decimalFrom, List.foldl_nil, true_and]
    constructor
    · intro h; cases h; exact ⟨rfl, hn⟩
    · rintro ⟨rfl, -⟩; rfl
  | cons c cs ih =>
    rw [parseUintLoop, decimalFrom_cons, List.all_cons]
    by_cases hd : '0'.toNat ≤ c.toNat ∧ c.toNat ≤ '9'.toNat
    · have hdig : isDecimalDigit c = true := decide_eq_true hd
      have h9 : c.toNat - '0'.toNat ≤ 9 := by
        have : '9'.toNat = 57 := rfl
        have : '0'.toNat = 48 := rfl
        omega
      rw [if_pos hd, hdig]
      have hge := decimalFrom_ge (n * 10 + (c.toNat - '0'.toNat)) cs
      by_cases hcut : n ≥ maxUint64 / 10 + 1
      · rw [if_pos hcut]
        simp only [maxUint64] at hcut
        constructor
        · intro h; cases h
        · rintro ⟨-, h1, h2⟩; omega
      · rw [if_neg hcut]
        simp only [maxUint64] at hcut ⊢
        have h10 : n * 10 % 2 ^ 64 = n * 10 := Nat.mod_eq_of_lt (by omega)
        simp only [h10]
        by_cases hov : n * 10 + (c.toNat - '0'.toNat) < 2 ^ 64
        · have h1 : (n * 10 + (c.toNat - '0'.toNat)) % 2 ^ 64 = n * 10 + (c.toNat - '0'.toNat) :=
            Nat.mod_eq_of_lt hov
          rw [h1, if_neg (by omega), ih _ hov]
          simp
        · have h1 : (n * 10 + (c.toNat - '0'.toNat)) % 2 ^ 64
              = n * 10 + (c.toNat - '0'.toNat) - 2 ^ 64 := by
            rw [Nat.mod_eq_sub_mod (by omega), Nat.mod_eq_of_lt (by omega)]
          rw [h1, if_pos (by omega)]
          constructor
          · intro h; cases h
          · rintro ⟨-, h1, h2⟩; omega
    · have hdig : isDecimalDigit c = false := decide_eq_false hd
      rw [if_neg hd, hdig]
      simp

theorem ParseUint_ok_iff (s : String) (v : Nat) :
    ParseUint s = .ok v ↔
      (s ≠ "" ∧ s.data.all isDecimalDigit = true ∧ decimalValue s.data = v ∧ v < 2 ^ 64) := by
  unfold ParseUint
  by_cases hs : s = ""
  · rw [if_pos hs]; simp [hs]
  · rw [if_neg hs, parseUintLoop_ok_iff s s.data 0 v (by norm_num)]
    simp [hs, decimalValue]

theorem polygonOfToken_eq (s : String) :
    polygonOfToken s =
      match parseField (elemAt (Split s '/') 0) with
      | .error err => .error err
      | .ok a =>
        match parseField (elemAt (Split s '/') 1) with
        | .error err => .error err
        | .ok b =>
          match parseField (elemAt (Split s '/') 2) with
          | .error err => .error err
          | .ok c => .ok ⟨a, b, c⟩ := by
  have hlen : ∀ (f : List String) (i : Nat), (f.length ≥ i + 1 ∧ elemAt f i ≠ "") ↔ elemAt f i ≠ "" := by
    intro f i
    constructor
    · exact fun h => h.2
    · intro h
      refine ⟨?_, h⟩
      by_contra hlt
      apply h
      simp only [elemAt]
      rw [List.getD_eq_default]
      omega
  unfold polygonOfToken parseField
  simp only [hlen]
  generalize ParseUint (elemAt (Split s '/') 0) = r0
  generalize ParseUint (elemAt (Split s '/') 1) = r1
  generalize ParseUint (elemAt (Split s '/') 2) = r2
  by_cases h0 : elemAt (Split s '/') 0 ≠ "" <;> by_cases h1 : elemAt (Split s '/') 1 ≠ "" <;>
    by_cases h2 : elemAt (Split s '/') 2 ≠ "" <;>
    (first | simp only [if_pos h0] | simp only [if_neg h0]) <;>
    (first | simp only [if_pos h1] | simp only [if_neg h1]) <;>
    (first | simp only [if_pos h2] | simp only [if_neg h2]) <;>
    cases r0 <;> cases r1 <;> cases r2 <;> rfl

theorem parseField_ok_iff (x : String) (v : Nat) :
    parseField x = .ok v ↔ (validField x = true ∧ v = fieldValue x) := by
  unfold parseField validField fieldValue
  by_cases hx : x = ""
  · subst hx
    simp [decimalValue, decimalFrom]
    exact eq_comm
  · simp only [ne_eq, hx, not_false_eq_true, if_true, ParseUint_ok_iff, decide_False,
      Bool.false_or, Bool.and_eq_true, decide_eq_true_eq, true_and]
    constructor
    · rintro ⟨h1, h2, h3⟩; subst h2; exact ⟨⟨h1, h3⟩, rfl⟩
    · rintro ⟨⟨h1, h3⟩, h2⟩; subst h2; exact ⟨h1, rfl, h3⟩

theorem splitChars_ne_nil (sep : Char) (cs : List Char) : splitChars sep cs ≠ [] := by
  cases cs with
  | nil => simp [splitChars]
  | cons c cs =>
    simp only [splitChars]
    split_ifs
    · simp
    · split <;> simp

theorem splitChars_of_not_mem (sep : Char) (cs : List Char) (h : sep ∉ cs) :
    splitChars sep cs = [cs] := by
  induction cs with
  | nil => rfl
  | cons c cs ih =>
    simp only [List.mem_cons, not_or] at h
    simp only [splitChars, if_neg (Ne.symm h.1), ih h.2]

theorem splitChars_append (sep : Char) (xs ys : List Char) (h : sep ∉ xs) :
    splitChars sep (xs ++ sep :: ys) = xs :: splitChars sep ys := by
  induction xs with
  | nil => simp [splitChars]
  | cons c cs ih =>
    simp only [List.mem_cons, not_or] at h
    have := ih h.2
    change splitChars sep (c :: (cs ++ sep :: ys)) = _
    rw [splitChars, if_neg (Ne.symm h.1), this]

theorem digitChar_spec (k : Nat) (hk : k < 10) :
    isDecimalDigit (Nat.digitChar k) = true ∧ (Nat.digitChar k).toNat - '0'.toNat = k ∧
      Nat.digitChar k ≠ '/' := by
  interval_cases k <;> decide

theorem toDigitsCore_spec (fuel n : Nat) (ds : List Char) (h : n < fuel) :
    ∃ pre, Nat.toDigitsCore 10 fuel n ds = pre ++ ds ∧ pre ≠ [] ∧
      pre.all isDecimalDigit = true ∧ '/' ∉ pre ∧
      ∀ init, decimalFrom init pre = init * 10 ^ pre.length + n := by
  induction fuel generalizing n ds with
  | zero => omega
  | succ fuel ih =>
    obtain ⟨hd1, hd2, hd3⟩ := digitChar_spec (n % 10) (Nat.mod_lt _ (by norm_num))
    rw [Nat.toDigitsCore]
    by_cases h0 : n / 10 = 0
    · simp only [h0, if_true]
      refine ⟨[Nat.digitChar (n % 10)], rfl, by simp, by simp [hd1], by simpa using hd3.symm, ?_⟩
      intro init
      simp only [decimalFrom, List.foldl_cons, List.foldl_nil, hd2, List.length_singleton, pow_one]
      omega
    · simp only [h0, if_false]
      obtain ⟨pre, hpre, hne, hall, hsl, hval⟩ :=
        ih (n / 10) (Nat.digitChar (n % 10) :: ds) (by omega)
      refine ⟨pre ++ [Nat.digitChar (n % 10)], by simp [hpre], by simp, ?_, ?_, ?_⟩
      · simp [List.all_append, hall, hd1]
      · simp only [List.mem_append, List.mem_singleton, not_or]
        exact ⟨hsl, hd3.symm⟩
      · intro init
        have := hval init
        simp only [decimalFrom, List.foldl_append, List.foldl_cons, List.foldl_nil,
          List.length_append, List.length_singleton] at this ⊢
        rw [this, hd2, pow_succ]
        have := Nat.div_add_mod n 10
        nlinarith [Nat.div_add_mod n 10]

theorem repr_spec (n : Nat) :
    (Nat.repr n).data ≠ [] ∧ (Nat.repr n).data.all isDecimalDigit = true ∧
      '/' ∉ (Nat.repr n).data ∧ decimalValue (Nat.repr n).data = n := by
  obtain ⟨pre, hpre, hne, hall, hsl, hval⟩ := toDigitsCore_spec (n + 1) n [] (Nat.lt_succ_self n)
  have h : (Nat.repr n).data = pre := by
    simp [Nat.repr, Nat.toDigits, hpre, List.asString]
  rw [h]
  refine ⟨hne, hall, hsl, ?_⟩
  simp [decimalValue, hval 0]

theorem parseField_repr (n : Nat) (h : n < 2 ^ 64) : parseField (String.mk (Nat.repr n).data) = .ok n := by
  obtain ⟨hne, hall, -, hval⟩ := repr_spec n
  rw [parseField_ok_iff]
  constructor
  · simp only [validField, Bool.or_eq_true, decide_eq_true_eq, Bool.and_eq_true]
    right
    exact ⟨hall, by rw [hval]; exact h⟩
  · simp [fieldValue, hval]

theorem parseField_empty : parseField "" = .ok 0 := by decide

theorem tokensToOBJPolygons_singleton (s : String) (p : OBJPolygon)
    (h : polygonOfToken s = .ok p) : tokensToOBJPolygons [s] = .ok [p] := by
  simp [tokensToOBJPolygons, h]

theorem tokensToOBJPolygons_ok {tokens : List String} {result : List OBJPolygon}
    (h : tokensToOBJPolygons tokens = .ok result) :
    List.Forall₂ (fun t p => polygonOfToken t = .ok p) tokens result := by
  induction tokens generalizing result with
  | nil =>
    simp only [tokensToOBJPolygons] at h
    cases h
    exact List.Forall₂.nil
  | cons t ts ih =>
    simp only [tokensToOBJPolygons] at h
    cases hp : polygonOfToken t with
    | error e => rw [hp] at h; cases h
    | ok p =>
      rw [hp] at h
      cases hr : tokensToOBJPolygons ts with
      | error e => rw [hr] at h; cases h
      | ok r =>
        rw [hr] at h
        cases h
        exact List.Forall₂.cons hp (ih hr)

theorem tokensToOBJPolygons_isOk_iff (tokens : List String) :
    (∃ result, tokensToOBJPolygons tokens = .ok result) ↔
      ∀ t ∈ tokens, ∃ p, polygonOfToken t = .ok p := by
  induction tokens with
  | nil => simp [tokensToOBJPolygons]
  | cons t ts ih =>
    simp only [tokensToOBJPolygons, List.mem_cons, forall_eq_or_imp, ← ih]
    cases hp : polygonOfToken t with
    | error e => simp
    | ok p =>
      cases hr : tokensToOBJPolygons ts with
      | error e => simp
      | ok r => simp

theorem polygonOfToken_isOk_iff (s : String) :
    (∃ p, polygonOfToken s = .ok p) ↔
      ∀ fld ∈ (Split s '/').take 3, validField fld = true := by
  have hvalid : ∀ x, (∃ v, parseField x = .ok v) ↔ validField x = true := by
    intro x
    constructor
    · rintro ⟨v, hv⟩; exact ((parseField_ok_iff x v).1 hv).1
    · intro h; exact ⟨_, (parseField_ok_iff x _).2 ⟨h, rfl⟩⟩
  have hfields : (∀ fld ∈ (Split s '/').take 3, validField fld = true) ↔
      (validField (elemAt (Split s '/') 0) = true ∧ validField (elemAt (Split s '/') 1) = true ∧
        validField (elemAt (Split s '/') 2) = true) := by
    have he : validField "" = true := by decide
    generalize Split s '/' = f
    match f with
    | [] => simp [elemAt, he]
    | [a] => simp [elemAt, he]
    | [a, b] => simp [elemAt, he]
    | a :: b :: c :: rest => simp [elemAt]
  rw [hfields, ← hvalid, ← hvalid, ← hvalid, polygonOfToken_eq]
  cases parseField (elemAt (Split s '/') 0) <;> cases parseField (elemAt (Split s '/') 1) <;>
    cases parseField (elemAt (Split s '/') 2) <;> simp

theorem polygonOfToken_take (s t : String)
    (h : (Split s '/').take 3 = (Split t '/').take 3) : polygonOfToken s = polygonOfToken t := by
  have he : ∀ (f : List String) (i : Nat), i < 3 → elemAt f i = elemAt (f.take 3) i := by
    intro f i hi
    simp only [elemAt, List.getD_eq_getElem?_getD, List.getElem?_take]
    rw [if_pos hi]
  rw [polygonOfToken_eq, polygonOfToken_eq, he _ 0 (by norm_num), he _ 1 (by norm_num),
    he _ 2 (by norm_num), he (Split t '/') 0 (by norm_num), he (Split t '/') 1 (by norm_num),
    he (Split t '/') 2 (by norm_num), h]

theorem Split_repr3 (a b c : Nat) :
    Split (toString a ++ "/" ++ toString b ++ "/" ++ toString c) '/' =
      [String.mk (Nat.repr a).data, String.mk (Nat.repr b).data, String.mk (Nat.repr c).data] := by
  obtain ⟨-, -, ha, -⟩ := repr_spec a
  obtain ⟨-, -, hb, -⟩ := repr_spec b
  obtain ⟨-, -, hc, -⟩ := repr_spec c
  have h : (toString a ++ "/" ++ toString b ++ "/" ++ toString c).data =
      (Nat.repr a).data ++ '/' :: ((Nat.repr b).data ++ '/' :: (Nat.repr c).data) := by
    simp only [String.data_append, List.append_assoc]
    rfl
  simp only [Split, h, splitChars_append _ _ _ ha, splitChars_append _ _ _ hb,
    splitChars_of_not_mem _ _ hc, List.map_cons, List.map_nil]

theorem Split_repr2 (a b : Nat) :
    Split (toString a ++ "/" ++ toString b) '/' =
      [String.mk (Nat.repr a).data, String.mk (Nat.repr b).data] := by
  obtain ⟨-, -, ha, -⟩ := repr_spec a
  obtain ⟨-, -, hb, -⟩ := repr_spec b
  have h : (toString a ++ "/" ++ toString b).data =
      (Nat.repr a).data ++ '/' :: (Nat.repr b).data := by
    simp only [String.data_append, List.append_assoc]
    rfl
  simp only [Split, h, splitChars_append _ _ _ ha,
    splitChars_of_not_mem _ _ hb, List.map_cons, List.map_nil]

theorem Split_repr_skip (a c : Nat) :
    Split (toString a ++ "//" ++ toString c) '/' =
      [String.mk (Nat.repr a).data, "", String.mk (Nat.repr c).data] := by
  obtain ⟨-, -, ha, -⟩ := repr_spec a
  obtain ⟨-, -, hc, -⟩ := repr_spec c
  have h : (toString a ++ "//" ++ toString c).data =
      (Nat.repr a).data ++ '/' :: ([] ++ '/' :: (Nat.repr c).data) := by
    simp only [String.data_append, List.append_assoc]
    rfl
  simp only [Split, h, splitChars_append _ _ _ ha, splitChars_append _ [] _ (by simp),
    splitChars_of_not_mem _ _ hc, List.map_cons, List.map_nil]

theorem Split_repr1 (a : Nat) :
    Split (toString a) '/' = [String.mk (Nat.repr a).data] := by
  obtain ⟨-, -, ha, -⟩ := repr_spec a
  have h : (toString a).data = (Nat.repr a).data := rfl
  simp only [Split, h, splitChars_of_not_mem _ _ ha, List.map_cons, List.map_nil]

/-- C3: for unsigned 64-bit values `a`, `b`, `c` written in decimal,
`tokensToOBJPolygons` maps the token `a/b/c` to `{a, b, c}`, `a//c` to `{a, 0, c}`,
`a/b` to `{a, b, 0}` and `a` to `{a, 0, 0}`: the indices are the declared values, not
decremented. A successful result has one entry per token, and its `i`-th entry is
the polygon of the `i`-th token. -/
theorem C3_face_argument_grammar (a b c : Nat) (ha : a < 2 ^ 64) (hb : b < 2 ^ 64)
    (hc : c < 2 ^ 64) :
    tokensToOBJPolygons [toString a ++ "/" ++ toString b ++ "/" ++ toString c]
        = .ok [⟨a, b, c⟩] ∧
      tokensToOBJPolygons [toString a ++ "//" ++ toString c] = .ok [⟨a, 0, c⟩] ∧
      tokensToOBJPolygons [toString a ++ "/" ++ toString b] = .ok [⟨a, b, 0⟩] ∧
      tokensToOBJPolygons [toString a] = .ok [⟨a, 0, 0⟩] ∧
      ∀ (tokens : List String) (result : List OBJPolygon),
        tokensToOBJPolygons tokens = .ok result →
        result.length = tokens.length ∧
          ∀ (i : Nat) (h1 : i < tokens.length) (h2 : i < result.length),
            tokensToOBJPolygons [tokens[i]] = .ok [result[i]] := by
  have pa := parseField_repr a ha
  have pb := parseField_repr b hb
  have pc := parseField_repr c hc
  have pe := parseField_empty
  refine ⟨?_, ?_, ?_, ?_, ?_⟩
  · apply tokensToOBJPolygons_singleton
    rw [polygonOfToken_eq, Split_repr3]
    simp only [elemAt, List.getD_cons_zero, List.getD_cons_succ, pa, pb, pc]
  · apply tokensToOBJPolygons_singleton
    rw [polygonOfToken_eq, Split_repr_skip]
    simp only [elemAt, List.getD_cons_zero, List.getD_cons_succ, pa, pe, pc]
  · apply tokensToOBJPolygons_singleton
    rw [polygonOfToken_eq, Split_repr2]
    simp only [elemAt, List.getD_cons_zero, List.getD_cons_succ, List.getD_nil, pa, pb, pe]
  · apply tokensToOBJPolygons_singleton
    rw [polygonOfToken_eq, Split_repr1]
    simp only [elemAt, List.getD_cons_zero, List.getD_cons_succ, List.getD_nil, pa, pe]
  · intro tokens result h
    have hf := tokensToOBJPolygons_ok h
    refine ⟨hf.length_eq.symm, ?_⟩
    intro i h1 h2
    apply tokensToOBJPolygons_singleton
    exact List.Forall₂.get hf h1 h2

/-- C3 at the tokens of the specification: `3/4/5`, `3//5`, `3/4` and `3`. -/
theorem C3_face_argument_grammar_witness :
    tokensToOBJPolygons ["3/4/5"] = .ok [⟨3, 4, 5⟩] ∧
      tokensToOBJPolygons ["3//5"] = .ok [⟨3, 0, 5⟩] ∧
      tokensToOBJPolygons ["3/4"] = .ok [⟨3, 4, 0⟩] ∧
      tokensToOBJPolygons ["3"] = .ok [⟨3, 0, 0⟩] :=
  have h := C3_face_argument_grammar 3 4 5 (by decide) (by decide) (by decide)
  ⟨h.1, h.2.1, h.2.2.1, h.2.2.2.1⟩

/-- C4: `tokensToOBJPolygons` succeeds exactly when, in every token split on `/`,
each of the first three fields is empty or a non-empty string of ASCII decimal
digits whose value is below `2^64`; the fields after the third are never examined
(tokens with the same first three fields get the same result). So
`a/b/c d/e/f g/h/i`, `-1`, `+1` and `18446744073709551616` fail, the face line
`f a/b/c d/e/f g/h/i` fails the whole parse, and `1/2/3/x` is accepted as
`{1, 2, 3}`. -/
theorem C4_face_argument_validity :
    (∀ tokens : List String,
      (∃ result, tokensToOBJPolygons tokens = .ok result) ↔
        ∀ t ∈ tokens, ∀ fld ∈ (Split t '/').take 3, validField fld = true) ∧
    (∀ s t : String, (Split s '/').take 3 = (Split t '/').take 3 →
      tokensToOBJPolygons [s] = tokensToOBJPolygons [t]) ∧
    tokensToOBJPolygons ["a/b/c", "d/e/f", "g/h/i"] = .error (syntaxError "ParseUint" "a") ∧
    tokensToOBJPolygons ["-1"] = .error (syntaxError "ParseUint" "-1") ∧
    tokensToOBJPolygons ["+1"] = .error (syntaxError "ParseUint" "+1") ∧
    tokensToOBJPolygons ["18446744073709551616"]
      = .error (rangeError "ParseUint" "18446744073709551616") ∧
    tokensToOBJPolygons ["18446744073709551615"] = .ok [⟨18446744073709551615, 0, 0⟩] ∧
    tokensToOBJPolygons ["1/2/3/x"] = .ok [⟨1, 2, 3⟩] ∧
    (∀ (F : Type) (ParseFloat : String → Except Error F),
      LoadOBJ ParseFloat ⟨"f a/b/c d/e/f g/h/i", none⟩
        = (OBJModel.zero F, some (syntaxError "ParseUint" "a"))) := by
  refine ⟨?_, ?_, by decide, by decide, by decide, by decide, by decide, by decide, ?_⟩
  · intro tokens
    rw [tokensToOBJPolygons_isOk_iff]
    constructor
    · intro h t ht
      exact (polygonOfToken_isOk_iff t).1 (h t ht)
    · intro h t ht
      exact (polygonOfToken_isOk_iff t).2 (h t ht)
  · intro s t h
    simp only [tokensToOBJPolygons, polygonOfToken_take s t h]
  · intro F ParseFloat
    rfl

/-! ## Tokens and lines without effect (C9, C10) -/

theorem scanWords_word (cur w rest : List Char) (hw : w.all (fun c => !isSpace c) = true) :
    scanWords cur (w ++ rest) = scanWords (cur ++ w) rest := by
  induction w generalizing cur with
  | nil => simp
  | cons c w ih =>
    simp only [List.all_cons, Bool.and_eq_true, Bool.not_eq_true'] at hw
    change scanWords cur (c :: (w ++ rest)) = _
    rw [scanWords, hw.1, if_neg (by simp), ih _ hw.2]
    simp

theorem scanWords_blank (sp rest : List Char) (hsp : isBlank sp = true) :
    scanWords [] (sp ++ rest) = scanWords [] rest := by
  induction sp with
  | nil => rfl
  | cons c sp ih =>
    simp only [isBlank, List.all_cons, Bool.and_eq_true] at hsp
    change scanWords [] (c :: (sp ++ rest)) = _
    rw [scanWords, hsp.1, if_pos rfl, if_pos rfl]
    exact ih hsp.2

theorem scanWords_blank_end (cur sp rest : List Char) (hcur : cur ≠ [])
    (hsp : isBlank sp = true) (hne : sp ≠ []) :
    scanWords cur (sp ++ rest) = cur :: scanWords [] rest := by
  cases sp with
  | nil => exact absurd rfl hne
  | cons c sp =>
    simp only [isBlank, List.all_cons, Bool.and_eq_true] at hsp
    change scanWords cur (c :: (sp ++ rest)) = _
    rw [scanWords, hsp.1, if_pos rfl, if_neg hcur, scanWords_blank sp rest hsp.2]

theorem scanWords_spell (ws : List (List Char × List Char)) (h : wellSpaced ws = true) :
    scanWords [] (spell ws) = ws.map Prod.fst := by
  induction ws with
  | nil => rfl
  | cons p rest ih =>
    obtain ⟨w, sp⟩ := p
    simp only [wellSpaced, Bool.and_eq_true, isWord, Bool.not_eq_true', Bool.or_eq_true,
      List.isEmpty_iff] at h
    obtain ⟨⟨⟨⟨hwne, hw⟩, hsp⟩, hsep⟩, hrest⟩ := h
    have hwne' : w ≠ [] := by
      intro h0; rw [h0] at hwne; simp at hwne
    simp only [spell, List.append_assoc, List.map_cons]
    rw [scanWords_word [] w _ hw, List.nil_append]
    by_cases hsp0 : sp = []
    · subst hsp0
      rcases hsep with hr | hr
      · subst hr
        simp [spell, scanWords, hwne']
      · simp at hr
    · rw [scanWords_blank_end w sp _ hwne' hsp hsp0, ih hrest]

theorem tokenize_layOut (lead : List Char) (ws : List (List Char × List Char))
    (hlead : isBlank lead = true) (h : wellSpaced ws = true) :
    tokenize (layOut lead ws) = wordsOf ws := by
  simp only [tokenize, layOut, scanWords_blank lead _ hlead, scanWords_spell ws h, wordsOf,
    List.map_map]
  rfl

theorem exists_layOut (cs : List Char) :
    ∃ lead ws, isBlank lead = true ∧ wellSpaced ws = true ∧ cs = lead ++ spell ws := by
  induction cs with
  | nil => exact ⟨[], [], rfl, rfl, rfl⟩
  | cons c cs ih =>
    obtain ⟨lead, ws, hlead, hws, rfl⟩ := ih
    by_cases hc : isSpace c = true
    · refine ⟨c :: lead, ws, ?_, hws, rfl⟩
      simp only [isBlank, List.all_cons, hc, Bool.true_and]
      exact hlead
    · simp only [Bool.not_eq_true] at hc
      cases lead with
      | nil =>
        cases ws with
        | nil =>
          refine ⟨[], [([c], [])], rfl, ?_, rfl⟩
          simp [wellSpaced, isWord, isBlank, hc]
        | cons p rest =>
          obtain ⟨w, sp⟩ := p
          refine ⟨[], (c :: w, sp) :: rest, rfl, ?_, rfl⟩
          simp only [wellSpaced, Bool.and_eq_true, isWord, Bool.not_eq_true', Bool.or_eq_true,
            List.isEmpty_iff, List.all_cons] at hws ⊢
          obtain ⟨⟨⟨⟨hwne, hw⟩, hsp⟩, hsep⟩, hrest⟩ := hws
          exact ⟨⟨⟨⟨by simp, by simp [hc, hw]⟩, hsp⟩, hsep⟩, hrest⟩
      | cons b lead =>
        refine ⟨[], ([c], b :: lead) :: ws, rfl, ?_, by simp [spell]⟩
        simp only [wellSpaced, Bool.and_eq_true, isWord, Bool.not_eq_true', Bool.or_eq_true,
          List.isEmpty_iff, List.all_cons, List.all_nil, Bool.and_true]
        exact ⟨⟨⟨⟨by simp, by simp [hc]⟩, hlead⟩, Or.inr (by simp)⟩, hws⟩

section Lines

variable {F : Type} (ParseFloat : String → Except Error F)

theorem lineStep_congr (result : OBJModel F) (group : String) {l l' : String}
    (h : tokenize l = tokenize l') :
    lineStep ParseFloat result group l = lineStep ParseFloat result group l' := by
  unfold lineStep
  rw [h]

theorem requiredArgs_eq_none {d : String} (h : d ∉ directives) : requiredArgs d = none := by
  simp only [directives, List.mem_cons, List.mem_singleton, List.not_mem_nil, or_false,
    not_or] at h
  obtain ⟨h1, h2, h3, h4, h5, h6, h7, h8, h9⟩ := h
  unfold requiredArgs
  rw [if_neg h1, if_neg h2, if_neg h3, if_neg h4, if_neg h5, if_neg h6, if_neg h7,
    if_neg h8, if_neg h9]

theorem lineStep_ignorable (result : OBJModel F) (group : String) {l : String}
    (h : Ignorable l) : lineStep ParseFloat result group l = .next result group := by
  unfold lineStep
  rcases h with h | ⟨d, args, h, hd⟩
  · rw [h]
  · rw [h]
    simp only [directives, List.mem_cons, List.mem_singleton, List.not_mem_nil, or_false,
      not_or] at hd
    obtain ⟨h1, h2, h3, h4, h5, h6, h7, h8, h9⟩ := hd
    dsimp only
    rw [if_neg h1, if_neg h2, if_neg h3, if_neg h4, if_neg h5, if_neg h6, if_neg h7,
      if_neg h8, if_neg h9]

theorem runLines_insert (result : OBJModel F) (group : String) (pre post : List String)
    {l : String} (h : Ignorable l) :
    runLines ParseFloat result group (pre ++ l :: post)
      = runLines ParseFloat result group (pre ++ post) := by
  rw [runLines_append, runLines_append]
  cases runLines ParseFloat result group pre with
  | next r g => simp only [runLines, lineStep_ignorable ParseFloat r g h]
  | ret m e => rfl

theorem runLines_replace (result : OBJModel F) (group : String) (pre post : List String)
    {l l' : String} (h : tokenize l = tokenize l') :
    runLines ParseFloat result group (pre ++ l :: post)
      = runLines ParseFloat result group (pre ++ l' :: post) := by
  rw [runLines_append, runLines_append]
  cases runLines ParseFloat result group pre with
  | next r g => simp only [runLines, lineStep_congr ParseFloat r g h]
  | ret m e => rfl

/-- C9: a line that is blank or white space only, or whose first token is not
exactly one of `mtllib`, `o`, `g`, `usemtl`, `v`, `vt`, `vn`, `f`, `s`, is without
effect: one pass of the loop over it changes nothing and returns no error, whatever
its arguments are, and a stream whose scanned lines contain such a line at any
position gives the same result of `LoadOBJ`, document and error, as the stream
without it. White-space-only lines have no token; the comparison of the first token
is case-sensitive, and `#` is not a directive. -/
theorem C9_lines_without_effect :
    (∀ (result : OBJModel F) (group line : String), Ignorable line →
      lineStep ParseFloat result group line = .next result group) ∧
    (∀ (reader reader' : Reader) (pre post : List String) (line : String), Ignorable line →
      Scanner.lines reader = pre ++ post → Scanner.lines reader' = pre ++ line :: post →
      LoadOBJ ParseFloat reader' = LoadOBJ ParseFloat reader) ∧
    (∀ line : String, isBlank line.data = true → tokenize line = []) ∧
    "#" ∉ directives ∧ "V" ∉ directives ∧ "F" ∉ directives ∧ "O" ∉ directives := by
  refine ⟨?_, ?_, ?_, by decide, by decide, by decide, by decide⟩
  · intro result group line h
    exact lineStep_ignorable ParseFloat result group h
  · intro reader reader' pre post line h hr hr'
    unfold LoadOBJ loadLines
    rw [hr, hr', loadLoop_eq_runLines, loadLoop_eq_runLines, runLines_insert ParseFloat _ _ _ _ h]
  · intro line h
    have := scanWords_blank line.data [] h
    simp only [List.append_nil] at this
    simp [tokenize, this, scanWords]

/-- C9 at a concrete stream: a comment line with arguments that would be wrong for
a directive, inserted between a `g` line and a `v` line. -/
theorem C9_lines_without_effect_witness :
    LoadOBJ sampleParseFloat ⟨"g a\n# v 1 2\nv 1 2 3\n", none⟩
      = LoadOBJ sampleParseFloat ⟨"g a\nv 1 2 3\n", none⟩ :=
  (C9_lines_without_effect sampleParseFloat).2.1 ⟨"g a\nv 1 2 3\n", none⟩
    ⟨"g a\n# v 1 2\nv 1 2 3\n", none⟩ ["g a"] ["v 1 2 3"] "# v 1 2"
    (Or.inr ⟨"#", ["v", "1", "2"], by decide, by decide⟩) (by decide) (by decide)

/-- C10: `tokenize` returns the maximal runs of non-white-space characters of a line
in order: every line is some leading white space followed by words, each followed by
white space (at least one character between two words), and its tokens are these
words. So two lines that differ only in the white space around the same words have
the same tokens, and a stream in which a scanned line is replaced by such a variant
gives the same result of `LoadOBJ`, document or error. -/
theorem C10_whitespace_insensitive :
    (∀ (lead : List Char) (ws : List (List Char × List Char)),
      isBlank lead = true → wellSpaced ws = true → tokenize (layOut lead ws) = wordsOf ws) ∧
    (∀ line : String, ∃ lead ws,
      isBlank lead = true ∧ wellSpaced ws = true ∧ line = layOut lead ws) ∧
    (∀ (lead lead' : List Char) (ws ws' : List (List Char × List Char)),
      isBlank lead = true → wellSpaced ws = true → isBlank lead' = true →
      wellSpaced ws' = true → wordsOf ws = wordsOf ws' →
      tokenize (layOut lead ws) = tokenize (layOut lead' ws') ∧
      ∀ (reader reader' : Reader) (pre post : List String),
        Scanner.lines reader = pre ++ layOut lead ws :: post →
        Scanner.lines reader' = pre ++ layOut lead' ws' :: post →
        LoadOBJ ParseFloat reader' = LoadOBJ ParseFloat reader) := by
  refine ⟨tokenize_layOut, ?_, ?_⟩
  · intro line
    obtain ⟨lead, ws, h1, h2, h3⟩ := exists_layOut line.data
    refine ⟨lead, ws, h1, h2, ?_⟩
    simp only [layOut, ← h3]
  · intro lead lead' ws ws' h1 h2 h3 h4 h5
    have ht : tokenize (layOut lead ws) = tokenize (layOut lead' ws') := by
      rw [tokenize_layOut lead ws h1 h2, tokenize_layOut lead' ws' h3 h4, h5]
    refine ⟨ht, ?_⟩
    intro reader reader' pre post hr hr'
    unfold LoadOBJ loadLines
    rw [hr, hr', loadLoop_eq_runLines, loadLoop_eq_runLines,
      runLines_replace ParseFloat _ _ _ _ ht]

/-- C10 at a concrete stream: `v 1 2 3` against the same words with tabs and extra
spaces around them. -/
theorem C10_whitespace_insensitive_witness :
    tokenize "  v\t\t1   2 3 " = tokenize "v 1 2 3" ∧
      LoadOBJ sampleParseFloat ⟨"g a\n  v\t\t1   2 3 \n", none⟩
        = LoadOBJ sampleParseFloat ⟨"g a\nv 1 2 3\n", none⟩ :=
  have h := (C10_whitespace_insensitive sampleParseFloat).2.2
    [] [' ', ' '] [(['v'], [' ']), (['1'], [' ']), (['2'], [' ']), (['3'], [])]
    [(['v'], ['\t', '\t']), (['1'], [' ', ' ', ' ']), (['2'], [' ']), (['3'], [' '])]
    (by decide) (by decide) (by decide) (by decide) (by decide)
  ⟨h.1.symm, h.2 ⟨"g a\nv 1 2 3\n", none⟩ ⟨"g a\n  v\t\t1   2 3 \n", none⟩ ["g a"] []
    (by decide) (by decide)⟩

end Lines

/-! ## Maps -/

namespace GoMap

variable {V : Type}

theorem find_put (n k : String) (v : V) (es : List (String × V)) :
    find n (put k v es) = if n = k then some v else find n es := by
  induction es with
  | nil =>
    simp only [put, find]
    by_cases h : n = k
    · rw [if_pos h.symm, if_pos h]
    · rw [if_neg (Ne.symm h), if_neg h]
  | cons e es ih =>
    obtain ⟨k', v'⟩ := e
    by_cases hk : k' = k <;> by_cases h : n = k
    · subst hk; subst h; simp [put, find]
    · subst hk; simp [put, find, h, Ne.symm h]
    · subst h; simp [put, find, hk, ih]
    · simp [put, find, hk, h, ih]

theorem get?_assign_table (es : List (String × V)) (n k : String) (v : V) :
    ((table es).assign k v).get? n = if n = k then some v else (table es).get? n := by
  simp only [assign, get?, entries, find_put]

theorem assign_table (es : List (String × V)) (k : String) (v : V) :
    ∃ es', (table es).assign k v = table es' := ⟨_, rfl⟩

end GoMap

/-! ## Sections: adding a line at the end -/

theorem scanWords_ne_nil (cur cs : List Char) : ∀ w ∈ scanWords cur cs, w ≠ [] := by
  induction cs generalizing cur with
  | nil =>
    intro w hw
    simp only [scanWords] at hw
    split_ifs at hw with h
    · simp at hw
    · simp only [List.mem_singleton] at hw; rw [hw]; exact h
  | cons c cs ih =>
    intro w hw
    simp only [scanWords] at hw
    split_ifs at hw with h1 h2
    · exact ih _ w hw
    · simp only [List.mem_cons] at hw
      rcases hw with hw | hw
      · rw [hw]; exact h2
      · exact ih _ w hw
    · exact ih _ w hw

theorem tokenize_ne_empty (line : String) : ∀ t ∈ tokenize line, t ≠ "" := by
  intro t ht
  simp only [tokenize, List.mem_map] at ht
  obtain ⟨w, hw, rfl⟩ := ht
  intro h
  apply scanWords_ne_nil _ _ w hw
  have : (String.mk w).data = ("" : String).data := by rw [h]
  exact this

theorem declares_of_not_group {l : String} (hl : isGroupLine l = false) (n : String) :
    declares n l = false := by
  simp only [isGroupLine, isLineOf, decide_eq_false_iff_not] at hl
  simp only [declares, decide_eq_false_iff_not]
  intro h
  apply hl
  rw [h]
  rfl

theorem isGroupLine_of_tokens {l k : String} (h : tokenize l = ["g", k]) :
    isGroupLine l = true := by
  simp only [isGroupLine, isLineOf, h]
  rfl

theorem declares_of_tokens {l k : String} (h : tokenize l = ["g", k]) (n : String) :
    declares n l = decide (n = k) := by
  simp only [declares, h]
  by_cases hn : n = k
  · subst hn; simp
  · simp only [hn, decide_False, decide_eq_false_iff_not]
    intro h2
    simp only [List.cons.injEq, and_true, true_and] at h2
    exact hn h2.symm

theorem afterLastDecl_snoc (n : String) (pre : List String) (l : String) :
    afterLastDecl n (pre ++ [l]) =
      if declares n l then some [] else (afterLastDecl n pre).map (· ++ [l]) := by
  induction pre with
  | nil =>
    simp only [List.nil_append, afterLastDecl]
    split_ifs <;> rfl
  | cons x pre ih =>
    change afterLastDecl n (x :: (pre ++ [l])) = _
    rw [afterLastDecl, ih, afterLastDecl]
    by_cases hl : declares n l = true
    · simp only [hl, if_true]
    · simp only [hl, Bool.false_eq_true, if_false]
      cases afterLastDecl n pre with
      | none =>
        simp only [Option.map_none']
        split_ifs <;> simp
      | some s => simp

theorem untilNextG_snoc (s : List String) (l : String) :
    untilNextG (s ++ [l]) =
      if (s.all fun x => !isGroupLine x) = true ∧ isGroupLine l = false then s ++ [l]
      else untilNextG s := by
  induction s with
  | nil =>
    simp only [List.nil_append, untilNextG, List.all_nil, true_and]
    by_cases h : isGroupLine l = true
    · simp [List.takeWhile_cons, h]
    · simp only [Bool.not_eq_true] at h
      simp [List.takeWhile_cons, h]
  | cons x s ih =>
    simp only [untilNextG] at ih ⊢
    by_cases hx : isGroupLine x = true
    · simp [List.takeWhile_cons, hx]
    · simp only [Bool.not_eq_true] at hx
      simp only [List.cons_append, List.takeWhile_cons, hx, Bool.not_false, ih, List.all_cons,
        Bool.true_and, if_true]
      split_ifs <;> rfl

theorem untilNextG_of_all {s : List String} (h : (s.all fun x => !isGroupLine x) = true) :
    untilNextG s = s := by
  simp only [untilNextG]
  rw [List.takeWhile_eq_self_iff]
  intro x hx
  exact List.all_eq_true.1 h x hx

theorem sectionOf_snoc (n : String) (pre : List String) {l : String}
    (hl : isGroupLine l = false) :
    sectionOf n (pre ++ [l]) =
      if sectionOpen n pre = true then sectionOf n pre ++ [l] else sectionOf n pre := by
  unfold sectionOf sectionOpen
  by_cases hn : n = ""
  · simp only [hn, if_true, untilNextG_snoc, hl, and_true]
    by_cases h : (pre.all fun x => !isGroupLine x) = true
    · simp only [h, if_true, untilNextG_of_all h]
    · simp only [h, if_false]
      rfl
  · simp only [hn, if_false, afterLastDecl_snoc, declares_of_not_group hl,
      Bool.false_eq_true]
    cases afterLastDecl n pre with
    | none => simp
    | some s =>
      simp only [Option.map_some', untilNextG_snoc, hl, and_true]
      by_cases h : (s.all fun x => !isGroupLine x) = true
      · simp only [h, if_true, untilNextG_of_all h]
      · simp only [h, if_false]
        rfl

theorem sectionOpen_snoc (n : String) (pre : List String) {l : String}
    (hl : isGroupLine l = false) : sectionOpen n (pre ++ [l]) = sectionOpen n pre := by
  unfold sectionOpen
  by_cases hn : n = ""
  · simp [hn, hl]
  · simp only [hn, if_false, afterLastDecl_snoc, declares_of_not_group hl,
      Bool.false_eq_true]
    cases afterLastDecl n pre with
    | none => simp
    | some s => simp [hl]

theorem sectionOf_snoc_group (n : String) (pre : List String) {l k : String}
    (h : tokenize l = ["g", k]) (hk : k ≠ "") :
    sectionOf n (pre ++ [l]) = if n = k then [] else sectionOf n pre := by
  have hg := isGroupLine_of_tokens h
  unfold sectionOf
  by_cases hn : n = ""
  · have hnk : n ≠ k := by rw [hn]; exact Ne.symm hk
    simp only [hn, if_true, untilNextG_snoc, hg, Bool.true_eq_false, and_false, if_false]
    rw [if_neg (by rw [← hn]; exact hnk)]
  · simp only [hn, if_false, afterLastDecl_snoc, declares_of_tokens h, decide_eq_true_eq]
    by_cases hnk : n = k
    · simp [hnk, untilNextG]
    · simp only [hnk, if_false]
      cases afterLastDecl n pre with
      | none => simp
      | some s => simp [untilNextG_snoc, hg]

theorem sectionOpen_snoc_group (n : String) (pre : List String) {l k : String}
    (h : tokenize l = ["g", k]) (hk : k ≠ "") :
    sectionOpen n (pre ++ [l]) = decide (n = k) := by
  have hg := isGroupLine_of_tokens h
  unfold sectionOpen
  by_cases hn : n = ""
  · have hnk : n ≠ k := by rw [hn]; exact Ne.symm hk
    simp [hn, hg]
    rw [← hn]; exact hnk
  · simp only [hn, if_false, afterLastDecl_snoc, declares_of_tokens h, decide_eq_true_eq]
    by_cases hnk : n = k
    · simp [hnk]
    · simp only [hnk, if_false, decide_False]
      cases afterLastDecl n pre with
      | none => simp
      | some s => simp [hg]

theorem occurs_snoc (n : String) (pre : List String) {l : String}
    (hl : isGroupLine l = false) :
    occurs n (pre ++ [l]) =
      (occurs n pre || (decide (n = "") && sectionOpen "" pre && isDataLine l)) := by
  unfold occurs
  simp only [List.any_append, List.any_cons, List.any_nil, Bool.or_false,
    declares_of_not_group hl, untilNextG_snoc, hl, and_true, sectionOpen, if_true]
  by_cases h : (pre.all fun x => !isGroupLine x) = true
  · simp only [h, if_true, untilNextG_of_all h, List.any_append, List.any_cons, List.any_nil,
      Bool.or_false, Bool.and_true]
    cases pre.any (declares n) <;> cases decide (n = "") <;> cases pre.any isDataLine <;>
      cases isDataLine l <;> rfl
  · simp only [h, if_false, Bool.not_eq_true] at h ⊢
    simp [h]

theorem occurs_snoc_group (n : String) (pre : List String) {l k : String}
    (h : tokenize l = ["g", k]) :
    occurs n (pre ++ [l]) = (occurs n pre || decide (n = k)) := by
  have hg := isGroupLine_of_tokens h
  unfold occurs
  simp only [List.any_append, List.any_cons, List.any_nil, Bool.or_false,
    declares_of_tokens h, untilNextG_snoc, hg, Bool.true_eq_false, and_false, if_false]
  cases pre.any (declares n) <;> cases decide (n = k) <;> simp

/-! ## The group of a section: adding a line at the end -/

theorem filter_snoc (p : String → Bool) (sec : List String) (l : String) :
    (sec ++ [l]).filter p = sec.filter p ++ (if p l = true then [l] else []) := by
  rw [List.filter_append]
  by_cases h : p l = true
  · simp [h]
  · simp [h]

theorem countLines_snoc (d : String) (sec : List String) (l : String) :
    countLines d (sec ++ [l]) = countLines d sec + (if isLineOf d l = true then 1 else 0) := by
  simp only [countLines, filter_snoc, List.length_append]
  split_ifs <;> rfl

section

variable {F : Type} (ParseFloat : String → Except Error F)

theorem floatsOf_snoc (d : String) (sec : List String) (l : String) :
    floatsOf ParseFloat d (sec ++ [l]) =
      floatsOf ParseFloat d sec ++
        (if isLineOf d l = true then
          ((tokensToFloat64Values ParseFloat (argsOf l)).toOption).toList
        else []) := by
  simp only [floatsOf, filter_snoc, List.filterMap_append]
  split_ifs
  · cases h : (tokensToFloat64Values ParseFloat (argsOf l)).toOption <;>
      simp [List.filterMap, h]
  · simp

end

theorem facesOf_snoc (sec : List String) (l : String) :
    facesOf (sec ++ [l]) =
      facesOf sec ++
        (if isLineOf "f" l = true then ((tokensToOBJPolygons (argsOf l)).toOption).toList
        else []) := by
  simp only [facesOf, filter_snoc, List.filterMap_append]
  split_ifs
  · cases h : (tokensToOBJPolygons (argsOf l)).toOption <;> simp [List.filterMap, h]
  · simp

theorem materialsFrom_snoc (k : Nat) (sec : List String) (l : String) :
    materialsFrom k (sec ++ [l]) =
      materialsFrom k sec ++
        (if isLineOf "usemtl" l = true then [⟨k + countLines "f" sec, elemAt (argsOf l) 0⟩]
        else []) := by
  induction sec generalizing k with
  | nil =>
    simp only [List.nil_append, materialsFrom, countLines, List.filter_nil, List.length_nil,
      Nat.add_zero]
    split_ifs <;> rfl
  | cons x sec ih =>
    change materialsFrom k (x :: (sec ++ [l])) = _
    have hu : isLineOf "usemtl" x = true → isLineOf "f" x = false := by
      intro h
      simp only [isLineOf, decide_eq_true_eq, decide_eq_false_iff_not] at h ⊢
      rw [h]
      decide
    simp only [materialsFrom, ih, countLines, List.filter_cons]
    by_cases h1 : isLineOf "usemtl" x = true
    · simp only [h1, if_true, hu h1, Bool.false_eq_true, if_false, List.cons_append]
    · simp only [h1, Bool.false_eq_true, if_false]
      by_cases h2 : isLineOf "f" x = true
      · simp only [h2, if_true, List.length_cons]
        split_ifs
        · simp only [List.append_cancel_left_eq, List.cons.injEq, and_true, OBJUseMaterial.mk.injEq]
          omega
        · rfl
      · simp only [h2, Bool.false_eq_true, if_false]

theorem smoothingOf_snoc (sec : List String) (l : String) :
    smoothingOf (sec ++ [l]) =
      if isLineOf "s" l = true then ((Atoi (elemAt (argsOf l) 0)).toOption).getD 0
      else smoothingOf sec := by
  simp only [smoothingOf, filter_snoc]
  split_ifs
  · simp
  · simp

theorem isLineOf_of_tokens {l d : String} {tokens : List String}
    (h : tokenize l = d :: tokens) (d' : String) : isLineOf d' l = decide (d = d') := by
  simp only [isLineOf, h, List.head?_cons, Option.some.injEq]

theorem argsOf_of_tokens {l d : String} {tokens : List String}
    (h : tokenize l = d :: tokens) : argsOf l = tokens := by
  simp only [argsOf, h, List.drop_succ_cons, List.drop_zero]

section

variable {F : Type} (ParseFloat : String → Except Error F)

theorem groupOf_snoc (sec : List String) (l : String) :
    groupOf ParseFloat (sec ++ [l]) =
      { UseMaterial := materialsFrom 0 sec ++
          (if isLineOf "usemtl" l = true then [⟨0 + countLines "f" sec, elemAt (argsOf l) 0⟩]
          else [])
        Vertex := floatsOf ParseFloat "v" sec ++
          (if isLineOf "v" l = true then
            ((tokensToFloat64Values ParseFloat (argsOf l)).toOption).toList else [])
        UV := floatsOf ParseFloat "vt" sec ++
          (if isLineOf "vt" l = true then
            ((tokensToFloat64Values ParseFloat (argsOf l)).toOption).toList else [])
        Normal := floatsOf ParseFloat "vn" sec ++
          (if isLineOf "vn" l = true then
            ((tokensToFloat64Values ParseFloat (argsOf l)).toOption).toList else [])
        Polygon := facesOf sec ++
          (if isLineOf "f" l = true then ((tokensToOBJPolygons (argsOf l)).toOption).toList
          else [])
        Smoothing :=
          if isLineOf "s" l = true then ((Atoi (elemAt (argsOf l) 0)).toOption).getD 0
          else smoothingOf sec } := by
  simp only [groupOf, materialsFrom_snoc, floatsOf_snoc, facesOf_snoc, smoothingOf_snoc]

/-- What a line does to the group of the section it is added to, and whether the
counts stay exact. -/
theorem groupOf_snoc_other (sec : List String) {l : String}
    (h : isDataLine l = false) :
    groupOf ParseFloat (sec ++ [l]) = groupOf ParseFloat sec ∧
      (Counted ParseFloat sec → Counted ParseFloat (sec ++ [l])) := by
  simp only [isDataLine, Bool.or_eq_false_iff] at h
  obtain ⟨⟨⟨⟨⟨h1, h2⟩, h3⟩, h4⟩, h5⟩, h6⟩ := h
  constructor
  · rw [groupOf_snoc]
    simp only [h1, h2, h3, h4, h5, h6, Bool.false_eq_true, if_false, List.append_nil]
    rfl
  · intro hc
    simp only [Counted, floatsOf_snoc, facesOf_snoc, countLines_snoc, h2, h3, h4, h5,
      Bool.false_eq_true, if_false, List.append_nil, Nat.add_zero]
    exact hc

end

/-! ## The cases of the switch -/

theorem validLength_none {src : List String} {n : Nat} (h : validLength src n = none) :
    src.length = n := by
  unfold validLength at h
  split_ifs at h with h1
  exact not_not.1 h1

theorem validLength_of_length {src : List String} {n : Nat} (h : src.length = n) :
    validLength src n = none := by
  unfold validLength
  rw [if_neg (not_not.2 h)]

section

variable {F : Type} (ParseFloat : String → Except Error F)

theorem caseMtllib_next {result result' : OBJModel F} {group group' : String}
    {tokens : List String} (h : caseMtllib result group tokens = .next result' group') :
    tokens.length = 1 ∧ result' = { result with MaterialFile := elemAt tokens 0 } ∧
      group' = group := by
  unfold caseMtllib at h
  split at h
  · cases h
  · rename_i hv
    cases h
    exact ⟨validLength_none hv, rfl, rfl⟩

theorem caseO_next {result result' : OBJModel F} {group group' : String}
    {tokens : List String} (h : caseO result group tokens = .next result' group') :
    tokens.length = 1 ∧ result' = { result with Name := elemAt tokens 0 } ∧
      group' = group := by
  unfold caseO at h
  split at h
  · cases h
  · rename_i hv
    cases h
    exact ⟨validLength_none hv, rfl, rfl⟩

theorem caseG_next {result result' : OBJModel F} {group' : String}
    {tokens : List String} (h : caseG result tokens = .next result' group') :
    tokens.length = 1 ∧
      result' = { result with
        Groups := result.Groups.assign (elemAt tokens 0) (OBJGroup.zero F) } ∧
      group' = elemAt tokens 0 := by
  unfold caseG at h
  split at h
  · cases h
  · rename_i hv
    cases h
    exact ⟨validLength_none hv, rfl, rfl⟩

theorem caseUsemtl_next {result result' : OBJModel F} {group group' : String}
    {tokens : List String} (h : caseUsemtl result group tokens = .next result' group') :
    tokens.length = 1 ∧
      result' = updateGroup result group (fun tmp =>
        { tmp with
          UseMaterial := tmp.UseMaterial ++ [⟨tmp.Polygon.length, elemAt tokens 0⟩] }) ∧
      group' = group := by
  unfold caseUsemtl at h
  split at h
  · cases h
  · rename_i hv
    cases h
    exact ⟨validLength_none hv, rfl, rfl⟩

theorem caseV_next {result result' : OBJModel F} {group group' : String}
    {tokens : List String} (h : caseV ParseFloat result group tokens = .next result' group') :
    tokens.length = 3 ∧ ∃ vertex, tokensToFloat64Values ParseFloat tokens = .ok vertex ∧
      result' = updateGroup result group (fun tmp =>
        { tmp with Vertex := tmp.Vertex ++ [vertex] }) ∧
      group' = group := by
  unfold caseV at h
  split at h
  · cases h
  · rename_i hv
    split at h
    · cases h
    · rename_i vertex hp
      cases h
      exact ⟨validLength_none hv, vertex, hp, rfl, rfl⟩

theorem caseVt_next {result result' : OBJModel F} {group group' : String}
    {tokens : List String} (h : caseVt ParseFloat result group tokens = .next result' group') :
    tokens.length = 2 ∧ ∃ uv, tokensToFloat64Values ParseFloat tokens = .ok uv ∧
      result' = updateGroup result group (fun tmp => { tmp with UV := tmp.UV ++ [uv] }) ∧
      group' = group := by
  unfold caseVt at h
  split at h
  · cases h
  · rename_i hv
    split at h
    · cases h
    · rename_i uv hp
      cases h
      exact ⟨validLength_none hv, uv, hp, rfl, rfl⟩

theorem caseVn_next {result result' : OBJModel F} {group group' : String}
    {tokens : List String} (h : caseVn ParseFloat result group tokens = .next result' group') :
    tokens.length = 3 ∧ ∃ normal, tokensToFloat64Values ParseFloat tokens = .ok normal ∧
      result' = updateGroup result group (fun tmp =>
        { tmp with Normal := tmp.Normal ++ [normal] }) ∧
      group' = group := by
  unfold caseVn at h
  split at h
  · cases h
  · rename_i hv
    split at h
    · cases h
    · rename_i normal hp
      cases h
      exact ⟨validLength_none hv, normal, hp, rfl, rfl⟩

theorem caseF_next {result result' : OBJModel F} {group group' : String}
    {tokens : List String} (h : caseF result group tokens = .next result' group') :
    tokens.length = 3 ∧ ∃ polygon, tokensToOBJPolygons tokens = .ok polygon ∧
      result' = updateGroup result group (fun tmp =>
        { tmp with Polygon := tmp.Polygon ++ [polygon] }) ∧
      group' = group := by
  unfold caseF at h
  split at h
  · cases h
  · rename_i hv
    split at h
    · cases h
    · rename_i polygon hp
      cases h
      exact ⟨validLength_none hv, polygon, hp, rfl, rfl⟩

theorem caseS_next {result result' : OBJModel F} {group group' : String}
    {tokens : List String} (h : caseS result group tokens = .next result' group') :
    tokens.length = 1 ∧ ∃ smoothing, Atoi (elemAt tokens 0) = .ok smoothing ∧
      result' = updateGroup result group (fun tmp => { tmp with Smoothing := smoothing }) ∧
      group' = group := by
  unfold caseS at h
  split at h
  · cases h
  · rename_i hv
    split at h
    · cases h
    · rename_i smoothing hp
      cases h
      exact ⟨validLength_none hv, smoothing, hp, rfl, rfl⟩

end

section

variable {F : Type} (ParseFloat : String → Except Error F)

theorem requiredArgs_none_not_mem {d : String} (h : requiredArgs d = none) :
    d ∉ directives := by
  intro hmem
  simp only [directives, List.mem_cons, List.mem_singleton, List.not_mem_nil, or_false] at hmem
  rcases hmem with h1 | h1 | h1 | h1 | h1 | h1 | h1 | h1 | h1 <;>
    (subst h1; revert h; decide)

theorem flags_of_tokens {l d : String} {tokens : List String} (h : tokenize l = d :: tokens) :
    isGroupLine l = decide (d = "g") ∧
      isDataLine l = (decide (d = "usemtl") || decide (d = "v") || decide (d = "vt") ||
        decide (d = "vn") || decide (d = "f") || decide (d = "s")) := by
  simp only [isGroupLine, isDataLine, isLineOf_of_tokens h, and_self]

theorem lineStep_effect (result : OBJModel F) (group line : String) :
    StepEffect ParseFloat result group line (lineStep ParseFloat result group line) := by
  refine lineStep_dispatch ParseFloat (StepEffect ParseFloat result group line) result group
    line ?hnil ?hmtllib ?ho ?hg ?husemtl ?hv ?hvt ?hvn ?hf ?hs ?hother
  case hnil =>
    intro htok r' g' h
    cases h
    refine Or.inr (Or.inr ⟨?_, ?_, rfl, rfl⟩)
    · simp [isGroupLine, isLineOf, htok]
    · simp [isDataLine, isLineOf, htok]
  case hmtllib =>
    intro tokens htok r' g' h
    obtain ⟨-, rfl, rfl⟩ := caseMtllib_next h
    obtain ⟨h1, h2⟩ := flags_of_tokens htok
    exact Or.inr (Or.inr ⟨by rw [h1]; decide, by rw [h2]; decide, rfl, rfl⟩)
  case ho =>
    intro tokens htok r' g' h
    obtain ⟨-, rfl, rfl⟩ := caseO_next h
    obtain ⟨h1, h2⟩ := flags_of_tokens htok
    exact Or.inr (Or.inr ⟨by rw [h1]; decide, by rw [h2]; decide, rfl, rfl⟩)
  case hother =>
    intro d tokens htok hreq r' g' h
    cases h
    have hd := requiredArgs_none_not_mem hreq
    simp only [directives, List.mem_cons, List.mem_singleton, List.not_mem_nil, or_false,
      not_or] at hd
    obtain ⟨h1, h2⟩ := flags_of_tokens htok
    refine Or.inr (Or.inr ⟨?_, ?_, rfl, rfl⟩)
    · rw [h1]; simp [hd]
    · rw [h2]; simp [hd]
  case hg =>
    intro tokens htok r' g' h
    obtain ⟨hlen, rfl, rfl⟩ := caseG_next h
    refine Or.inl ⟨elemAt tokens 0, ?_, rfl, rfl, rfl, rfl⟩
    match tokens, hlen with
    | [k], _ => exact htok
  case husemtl =>
    intro tokens htok r' g' h
    obtain ⟨-, rfl, rfl⟩ := caseUsemtl_next h
    obtain ⟨h1, h2⟩ := flags_of_tokens htok
    refine Or.inr (Or.inl ⟨by rw [h1]; decide, by rw [h2]; decide, rfl, _, rfl, ?_⟩)
    intro sec hc
    have ha := argsOf_of_tokens htok
    have hfl := isLineOf_of_tokens htok
    constructor
    · rw [groupOf_snoc]
      simp only [hfl, ha, groupOf, hc.2.2.2]
      simp
    · simp only [Counted, floatsOf_snoc, facesOf_snoc, countLines_snoc, hfl]
      simpa using hc
  case hv =>
    intro tokens htok r' g' h
    obtain ⟨-, vertex, hp, rfl, rfl⟩ := caseV_next ParseFloat h
    obtain ⟨h1, h2⟩ := flags_of_tokens htok
    refine Or.inr (Or.inl ⟨by rw [h1]; decide, by rw [h2]; decide, rfl, _, rfl, ?_⟩)
    intro sec hc
    have ha := argsOf_of_tokens htok
    have hfl := isLineOf_of_tokens htok
    constructor
    · rw [groupOf_snoc]
      simp only [hfl, ha, groupOf, hp, Except.toOption]
      simp
    · simp only [Counted, floatsOf_snoc, facesOf_snoc, countLines_snoc, hfl, ha, hp,
        Except.toOption]
      simpa using hc
  case hvt =>
    intro tokens htok r' g' h
    obtain ⟨-, uv, hp, rfl, rfl⟩ := caseVt_next ParseFloat h
    obtain ⟨h1, h2⟩ := flags_of_tokens htok
    refine Or.inr (Or.inl ⟨by rw [h1]; decide, by rw [h2]; decide, rfl, _, rfl, ?_⟩)
    intro sec hc
    have ha := argsOf_of_tokens htok
    have hfl := isLineOf_of_tokens htok
    constructor
    · rw [groupOf_snoc]
      simp only [hfl, ha, groupOf, hp, Except.toOption]
      simp
    · simp only [Counted, floatsOf_snoc, facesOf_snoc, countLines_snoc, hfl, ha, hp,
        Except.toOption]
      simpa using hc
  case hvn =>
    intro tokens htok r' g' h
    obtain ⟨-, normal, hp, rfl, rfl⟩ := caseVn_next ParseFloat h
    obtain ⟨h1, h2⟩ := flags_of_tokens htok
    refine Or.inr (Or.inl ⟨by rw [h1]; decide, by rw [h2]; decide, rfl, _, rfl, ?_⟩)
    intro sec hc
    have ha := argsOf_of_tokens htok
    have hfl := isLineOf_of_tokens htok
    constructor
    · rw [groupOf_snoc]
      simp only [hfl, ha, groupOf, hp, Except.toOption]
      simp
    · simp only [Counted, floatsOf_snoc, facesOf_snoc, countLines_snoc, hfl, ha, hp,
        Except.toOption]
      simpa using hc
  case hf =>
    intro tokens htok r' g' h
    obtain ⟨-, polygon, hp, rfl, rfl⟩ := caseF_next h
    obtain ⟨h1, h2⟩ := flags_of_tokens htok
    refine Or.inr (Or.inl ⟨by rw [h1]; decide, by rw [h2]; decide, rfl, _, rfl, ?_⟩)
    intro sec hc
    have ha := argsOf_of_tokens htok
    have hfl := isLineOf_of_tokens htok
    constructor
    · rw [groupOf_snoc]
      simp only [hfl, ha, groupOf, hp, Except.toOption]
      simp
    · simp only [Counted, floatsOf_snoc, facesOf_snoc, countLines_snoc, hfl, ha, hp,
        Except.toOption]
      simpa using hc
  case hs =>
    intro tokens htok r' g' h
    obtain ⟨-, smoothing, hp, rfl, rfl⟩ := caseS_next h
    obtain ⟨h1, h2⟩ := flags_of_tokens htok
    refine Or.inr (Or.inl ⟨by rw [h1]; decide, by rw [h2]; decide, rfl, _, rfl, ?_⟩)
    intro sec hc
    have ha := argsOf_of_tokens htok
    have hfl := isLineOf_of_tokens htok
    constructor
    · rw [groupOf_snoc]
      simp only [hfl, ha, groupOf, hp, Except.toOption]
      simp
    · simp only [Counted, floatsOf_snoc, facesOf_snoc, countLines_snoc, hfl]
      simpa using hc

end

theorem any_declares_of_afterLastDecl {n : String} {lines s : List String}
    (h : afterLastDecl n lines = some s) : lines.any (declares n) = true := by
  induction lines generalizing s with
  | nil => cases h
  | cons l rest ih =>
    simp only [afterLastDecl] at h
    simp only [List.any_cons, Bool.or_eq_true]
    cases hr : afterLastDecl n rest with
    | some s' => exact Or.inr (ih hr)
    | none =>
      rw [hr] at h
      simp only at h
      split_ifs at h with hd
      exact Or.inl hd

theorem occurs_of_sectionOpen {n : String} {lines : List String} (hn : n ≠ "")
    (h : sectionOpen n lines = true) : occurs n lines = true := by
  unfold sectionOpen at h
  rw [if_neg hn] at h
  unfold occurs
  cases hs : afterLastDecl n lines with
  | none => rw [hs] at h; cases h
  | some s => simp [any_declares_of_afterLastDecl hs]

theorem GoMap.index_assign_table {V : Type} (z : V) (es : List (String × V)) (n k : String)
    (v : V) :
    ((GoMap.table es).assign k v).index z n = if n = k then v else (GoMap.table es).index z n := by
  simp only [GoMap.index, GoMap.get?_assign_table]
  split_ifs <;> rfl

section

variable {F : Type} (ParseFloat : String → Except Error F)

theorem described_nil : Described ParseFloat [] (⟨"", "", .table []⟩ : OBJModel F) "" where
  allocated := ⟨[], rfl⟩
  current := by
    intro n
    unfold sectionOpen
    by_cases hn : n = ""
    · simp [hn]
    · simp [hn, afterLastDecl]
  keys := by
    intro n
    simp [GoMap.get?, GoMap.entries, GoMap.find, occurs, untilNextG]
  content := by
    intro n
    have : sectionOf n [] = [] := by
      unfold sectionOf
      split_ifs
      · rfl
      · rfl
    rw [this]
    rfl
  counted := by
    intro n
    have : sectionOf n [] = [] := by
      unfold sectionOf
      split_ifs
      · rfl
      · rfl
    rw [this]
    exact ⟨rfl, rfl, rfl, rfl⟩

theorem described_step {pre : List String} {result result' : OBJModel F}
    {group group' line : String} (hd : Described ParseFloat pre result group)
    (h : lineStep ParseFloat result group line = .next result' group') :
    Described ParseFloat (pre ++ [line]) result' group' := by
  obtain ⟨es, hes⟩ := hd.allocated
  rcases lineStep_effect ParseFloat result group line result' group' h with
    ⟨k, htok, hk', -, -, hG⟩ | ⟨hg, hdata, hg', f, hr', hf⟩ | ⟨hg, hdata, hg', hG⟩
  · -- a `g k` line
    subst hk'
    have hk : group' ≠ "" := tokenize_ne_empty line group' (by rw [htok]; simp)
    rw [hes] at hG
    refine ⟨⟨_, hG⟩, ?_, ?_, ?_, ?_⟩
    · intro n
      rw [sectionOpen_snoc_group n pre htok hk]
      simp
    · intro n
      rw [hG, GoMap.get?_assign_table, occurs_snoc_group n pre htok, Bool.or_eq_true, ← hd.keys n,
        ← hes]
      by_cases hn : n = group'
      · simp [hn]
      · simp [hn]
    · intro n
      rw [hG, GoMap.index_assign_table, sectionOf_snoc_group n pre htok hk, ← hes]
      by_cases hn : n = group'
      · rw [if_pos hn, if_pos hn]; rfl
      · rw [if_neg hn, if_neg hn]; exact hd.content n
    · intro n
      rw [sectionOf_snoc_group n pre htok hk]
      by_cases hn : n = group'
      · rw [if_pos hn]; exact ⟨rfl, rfl, rfl, rfl⟩
      · rw [if_neg hn]; exact hd.counted n
  · -- a data line
    subst hg'
    subst hr'
    have hG : (updateGroup result group' f).Groups =
        (GoMap.table es).assign group' (f (result.Groups.index (OBJGroup.zero F) group')) := by
      simp only [updateGroup, hes]
    refine ⟨⟨_, hG⟩, ?_, ?_, ?_, ?_⟩
    · intro n
      rw [sectionOpen_snoc n pre hg]
      exact hd.current n
    · intro n
      rw [hG, GoMap.get?_assign_table, occurs_snoc n pre hg, hdata, Bool.and_true,
        Bool.or_eq_true, Bool.and_eq_true, decide_eq_true_eq, ← hd.keys n, hd.current "", ← hes]
      by_cases hn : n = group'
      · subst hn
        simp only [if_true, Option.isSome_some, true_iff]
        by_cases h0 : n = ""
        · exact Or.inr ⟨h0, h0.symm⟩
        · left
          rw [hd.keys n]
          exact occurs_of_sectionOpen h0 ((hd.current n).2 rfl)
      · simp only [hn, if_false]
        constructor
        · intro h1; exact Or.inl h1
        · rintro (h1 | ⟨h1, h2⟩)
          · exact h1
          · exact absurd (h1.trans h2) hn
    · intro n
      rw [hG, GoMap.index_assign_table, sectionOf_snoc n pre hg, ← hes]
      by_cases hn : n = group'
      · subst hn
        rw [if_pos rfl, if_pos ((hd.current n).2 rfl), hd.content n]
        exact (hf _ (hd.counted n)).1
      · rw [if_neg hn, if_neg (fun h1 => hn ((hd.current n).1 h1))]
        exact hd.content n
    · intro n
      rw [sectionOf_snoc n pre hg]
      by_cases hn : n = group'
      · subst hn
        rw [if_pos ((hd.current n).2 rfl)]
        exact (hf _ (hd.counted n)).2
      · rw [if_neg (fun h1 => hn ((hd.current n).1 h1))]
        exact hd.counted n
  · -- any other line
    subst hg'
    refine ⟨⟨es, by rw [hG, hes]⟩, ?_, ?_, ?_, ?_⟩
    · intro n
      rw [sectionOpen_snoc n pre hg]
      exact hd.current n
    · intro n
      rw [hG, occurs_snoc n pre hg, hdata, Bool.and_false, Bool.or_false]
      exact hd.keys n
    · intro n
      rw [hG, sectionOf_snoc n pre hg, hd.content n]
      split_ifs
      · exact ((groupOf_snoc_other ParseFloat _ hdata).1).symm
      · rfl
    · intro n
      rw [sectionOf_snoc n pre hg]
      split_ifs
      · exact (groupOf_snoc_other ParseFloat _ hdata).2 (hd.counted n)
      · exact hd.counted n

theorem runLines_described (lines : List String) :
    ∀ (result : OBJModel F) (group : String),
      runLines ParseFloat ⟨"", "", .table []⟩ "" lines = .next result group →
      Described ParseFloat lines result group := by
  induction lines using List.reverseRecOn with
  | nil =>
    intro result group h
    cases h
    exact described_nil ParseFloat
  | append_singleton pre line ih =>
    intro result group h
    rw [runLines_append] at h
    cases hpre : runLines ParseFloat ⟨"", "", .table []⟩ "" pre with
    | ret m e => rw [hpre] at h; cases h
    | next r g =>
      rw [hpre] at h
      simp only [runLines] at h
      cases hstep : lineStep ParseFloat r g line with
      | ret m e => rw [hstep] at h; cases h
      | next r' g' =>
        rw [hstep] at h
        cases h
        exact described_step ParseFloat (ih r g hpre) hstep

end

theorem afterLastDecl_append_cons (n : String) (pre post : List String) {line : String}
    (hline : declares n line = true) (hpost : ∀ l ∈ post, declares n l = false) :
    afterLastDecl n (pre ++ line :: post) = some post := by
  have hnone : afterLastDecl n post = none := by
    induction post with
    | nil => rfl
    | cons x post ih =>
      simp only [afterLastDecl]
      rw [ih (fun l hl => hpost l (List.mem_cons_of_mem _ hl))]
      simp [hpost x (List.mem_cons_self _ _)]
  induction pre with
  | nil =>
    simp only [List.nil_append, afterLastDecl, hnone, hline, if_true]
  | cons x pre ih =>
    change afterLastDecl n (x :: (pre ++ line :: post)) = _
    rw [afterLastDecl, ih]

section

variable {F : Type} (ParseFloat : String → Except Error F)

theorem LoadOBJ_ok {reader : Reader} (h : (LoadOBJ ParseFloat reader).2 = none) :
    ∃ group, runLines ParseFloat ⟨"", "", .table []⟩ "" (Scanner.lines reader)
      = .next (LoadOBJ ParseFloat reader).1 group := by
  unfold LoadOBJ loadLines at h ⊢
  rw [loadLoop_eq_runLines] at h ⊢
  cases hr : runLines ParseFloat ⟨"", "", .table []⟩ "" (Scanner.lines reader) with
  | next r g => exact ⟨g, rfl⟩
  | ret m e =>
    rw [hr] at h
    obtain ⟨-, err, rfl⟩ := runLines_ret ParseFloat hr
    cases h

theorem LoadOBJ_described {reader : Reader} (h : (LoadOBJ ParseFloat reader).2 = none) :
    ∃ group, Described ParseFloat (Scanner.lines reader) (LoadOBJ ParseFloat reader).1 group := by
  obtain ⟨group, hrun⟩ := LoadOBJ_ok ParseFloat h
  exact ⟨group, runLines_described ParseFloat _ _ _ hrun⟩

theorem Described.get?_eq {pre : List String} {result : OBJModel F} {group n : String}
    {grp : OBJGroup F} (hd : Described ParseFloat pre result group)
    (hg : result.Groups.get? n = some grp) : grp = groupOf ParseFloat (sectionOf n pre) := by
  have := hd.content n
  simp only [GoMap.index, hg, Option.getD_some] at this
  exact this

/-- C5: on a stream on which `LoadOBJ` succeeds, for every group name `n` of the
returned `Groups`, the lengths of the group's `Vertex`, `UV`, `Normal` and `Polygon`
lists are the numbers of `v`, `vt`, `vn` and `f` lines of the section of `n`: the
lines between the last `g n` line (the start of the stream for the group `""`) and
the following `g` line or the end of the stream. -/
theorem C5_counts_per_group (reader : Reader) (hok : (LoadOBJ ParseFloat reader).2 = none)
    (n : String) (grp : OBJGroup F)
    (hgrp : (LoadOBJ ParseFloat reader).1.Groups.get? n = some grp) :
    grp.Vertex.length = countLines "v" (sectionOf n (Scanner.lines reader)) ∧
      grp.UV.length = countLines "vt" (sectionOf n (Scanner.lines reader)) ∧
      grp.Normal.length = countLines "vn" (sectionOf n (Scanner.lines reader)) ∧
      grp.Polygon.length = countLines "f" (sectionOf n (Scanner.lines reader)) := by
  obtain ⟨group, hd⟩ := LoadOBJ_described ParseFloat hok
  rw [hd.get?_eq ParseFloat hgrp]
  exact hd.counted n

/-- C5 at a concrete stream: the group `a` is declared twice; its lists count the
lines after the second `g a`. -/
theorem C5_counts_per_group_witness :
    ∃ grp, (LoadOBJ sampleParseFloat
        ⟨"v 1 2 3\ng a\nv 1 2 3\nf 1 2 3\ng b\nvn 0 0 1\ng a\nf 1 2 3\nf 4 5 6\nvt 1 2\n", none⟩).1.Groups.get? "a"
          = some grp ∧
      grp.Vertex.length = 0 ∧ grp.UV.length = 1 ∧ grp.Normal.length = 0 ∧
      grp.Polygon.length = 2 :=
  ⟨_, rfl, C5_counts_per_group sampleParseFloat
    ⟨"v 1 2 3\ng a\nv 1 2 3\nf 1 2 3\ng b\nvn 0 0 1\ng a\nf 1 2 3\nf 4 5 6\nvt 1 2\n", none⟩
    (by decide) "a" _ rfl⟩

end

section

variable {F : Type} (ParseFloat : String → Except Error F)

theorem lineStep_usemtl (result : OBJModel F) (group : String) {line m : String}
    (htok : tokenize line = ["usemtl", m]) :
    lineStep ParseFloat result group line =
      .next (updateGroup result group fun tmp =>
        { tmp with UseMaterial := tmp.UseMaterial ++ [⟨tmp.Polygon.length, m⟩] }) group := by
  unfold lineStep
  rw [htok]
  dsimp only
  rw [if_neg (by decide), if_neg (by decide), if_neg (by decide), if_pos rfl]
  rfl

theorem lineStep_g (result : OBJModel F) (group : String) {line n : String}
    (htok : tokenize line = ["g", n]) :
    lineStep ParseFloat result group line =
      .next { result with Groups := result.Groups.assign n (OBJGroup.zero F) } n := by
  unfold lineStep
  rw [htok]
  dsimp only
  rw [if_neg (by decide), if_neg (by decide), if_pos rfl]
  rfl

/-- C6: when the loop has reached a line `usemtl m` (after the lines `pre`, with the
variables `result` and `group`), the pass over it goes on with the same `group`,
`Name` and `MaterialFile`; the entry of `group` becomes the group it had (the empty
group when it had none) with exactly one entry `{StartIndex, m}` added at the end
of `UseMaterial` and every other field unchanged, where `StartIndex` is the number
of faces of that group, which is the number of `f` lines since the group was
started; the entry of every other group is unchanged. -/
theorem C6_usemtl_appends_range (pre : List String) (result : OBJModel F) (group : String)
    (hrun : runLines ParseFloat ⟨"", "", .table []⟩ "" pre = .next result group)
    (line m : String) (htok : tokenize line = ["usemtl", m]) :
    ∃ result' : OBJModel F,
      lineStep ParseFloat result group line = .next result' group ∧
      result'.Name = result.Name ∧ result'.MaterialFile = result.MaterialFile ∧
      result'.Groups.get? group = some
        { result.Groups.index (OBJGroup.zero F) group with
          UseMaterial := (result.Groups.index (OBJGroup.zero F) group).UseMaterial ++
            [⟨(result.Groups.index (OBJGroup.zero F) group).Polygon.length, m⟩] } ∧
      (result.Groups.index (OBJGroup.zero F) group).Polygon.length
        = countLines "f" (sectionOf group pre) ∧
      sectionOpen group pre = true ∧
      ∀ k, k ≠ group → result'.Groups.get? k = result.Groups.get? k := by
  have hd := runLines_described ParseFloat pre result group hrun
  obtain ⟨es, hes⟩ := hd.allocated
  refine ⟨_, lineStep_usemtl ParseFloat result group htok, rfl, rfl, ?_, ?_, ?_, ?_⟩
  · simp only [updateGroup, hes, GoMap.get?_assign_table, if_true]
  · rw [hd.content group]
    exact (hd.counted group).2.2.2
  · exact (hd.current group).2 rfl
  · intro k hk
    simp only [updateGroup, hes, GoMap.get?_assign_table, if_neg hk]

/-- C6 at a concrete stream: after two `f` lines in group `a`, `usemtl red` adds the
range starting at 2 and leaves group `b` alone. -/
theorem C6_usemtl_appends_range_witness :
    ∃ result' : OBJModel Nat,
      lineStep sampleParseFloat
        ⟨"", "", .table [("b", ⟨[], [[7, 8, 9]], [], [], [], 0⟩),
          ("a", ⟨[], [], [], [], [[⟨1, 0, 0⟩, ⟨2, 0, 0⟩, ⟨3, 0, 0⟩],
            [⟨3, 0, 0⟩, ⟨2, 0, 0⟩, ⟨1, 0, 0⟩]], 0⟩)]⟩ "a" "usemtl red"
        = .next result' "a" ∧
      result'.Groups.get? "a" = some ⟨[⟨2, "red"⟩], [], [], [],
        [[⟨1, 0, 0⟩, ⟨2, 0, 0⟩, ⟨3, 0, 0⟩], [⟨3, 0, 0⟩, ⟨2, 0, 0⟩, ⟨1, 0, 0⟩]], 0⟩ ∧
      result'.Groups.get? "b" = some ⟨[], [[7, 8, 9]], [], [], [], 0⟩ :=
  have h := C6_usemtl_appends_range sampleParseFloat ["g b", "v 7 8 9", "g a", "f 1 2 3", "f 3 2 1"]
    _ "a" rfl "usemtl red" "red" (by decide)
  h.elim fun r hr => ⟨r, hr.1, hr.2.2.2.1, (hr.2.2.2.2.2.2 "b" (by decide)).trans rfl⟩

/-- C7: when the loop has reached a line `g n`, the pass over it makes `n` the
current group and sets the entry of `n` to the empty group, whatever it held,
leaving `Name`, `MaterialFile` and the entry of every other group unchanged. On a
stream on which `LoadOBJ` succeeds, the group returned for `n` is the group of the
lines that follow the last `g n` line up to the next `g` line: nothing from an
earlier `g n` section is kept. -/
theorem C7_group_line_resets :
    (∀ (pre : List String) (result : OBJModel F) (group line n : String),
      runLines ParseFloat ⟨"", "", .table []⟩ "" pre = .next result group →
      tokenize line = ["g", n] →
      ∃ result' : OBJModel F,
        lineStep ParseFloat result group line = .next result' n ∧
        result'.Name = result.Name ∧ result'.MaterialFile = result.MaterialFile ∧
        result'.Groups.get? n = some (OBJGroup.zero F) ∧
        ∀ k, k ≠ n → result'.Groups.get? k = result.Groups.get? k) ∧
    (∀ (reader : Reader) (pre post : List String) (line n : String),
      (LoadOBJ ParseFloat reader).2 = none →
      Scanner.lines reader = pre ++ line :: post →
      tokenize line = ["g", n] → (∀ l ∈ post, tokenize l ≠ ["g", n]) →
      (LoadOBJ ParseFloat reader).1.Groups.get? n
        = some (groupOf ParseFloat (untilNextG post))) := by
  constructor
  · intro pre result group line n hrun htok
    have hd := runLines_described ParseFloat pre result group hrun
    obtain ⟨es, hes⟩ := hd.allocated
    refine ⟨_, lineStep_g ParseFloat result group htok, rfl, rfl, ?_, ?_⟩
    · simp only [hes, GoMap.get?_assign_table, if_true]
    · intro k hk
      simp only [hes, GoMap.get?_assign_table, if_neg hk]
  · intro reader pre post line n hok hlines htok hpost
    obtain ⟨group, hd⟩ := LoadOBJ_described ParseFloat hok
    have hn : n ≠ "" := tokenize_ne_empty line n (by rw [htok]; simp)
    have hdecl : declares n line = true := by simp [declares, htok]
    have hpost' : ∀ l ∈ post, declares n l = false := by
      intro l hl
      simp only [declares, decide_eq_false_iff_not]
      exact hpost l hl
    have hafter := afterLastDecl_append_cons n pre post hdecl hpost'
    have hsec : sectionOf n (Scanner.lines reader) = untilNextG post := by
      unfold sectionOf
      rw [if_neg hn, hlines, hafter]
    have hocc : occurs n (Scanner.lines reader) = true := by
      unfold occurs
      rw [hlines]
      simp [hdecl]
    have hsome := (hd.keys n).2 hocc
    cases hg : (LoadOBJ ParseFloat reader).1.Groups.get? n with
    | none => rw [hg] at hsome; cases hsome
    | some grp => rw [hd.get?_eq ParseFloat hg, hsec]

/-- C7 at a concrete stream: group `a` is declared twice; what its first section
held (a vertex, a face, a material range, a smoothing value) is gone. -/
theorem C7_group_line_resets_witness :
    (LoadOBJ sampleParseFloat
        ⟨"g a\nv 1 2 3\nf 1 2 3\nusemtl m\ns 2\ng b\nv 4 5 6\ng a\nvt 1 2\n", none⟩).1.Groups.get? "a"
      = some ⟨[], [], [[1, 2]], [], [], 0⟩ :=
  (C7_group_line_resets sampleParseFloat).2
    ⟨"g a\nv 1 2 3\nf 1 2 3\nusemtl m\ns 2\ng b\nv 4 5 6\ng a\nvt 1 2\n", none⟩
    ["g a", "v 1 2 3", "f 1 2 3", "usemtl m", "s 2", "g b", "v 4 5 6"] ["vt 1 2"] "g a" "a"
    (by decide) (by decide) (by decide) (by decide)

/-- C8: on a stream on which `LoadOBJ` succeeds, the returned `Groups` has the key
`""` exactly when a `usemtl`, `v`, `vt`, `vn`, `f` or `s` line occurs before the
first `g` line (anywhere, if the stream has no `g` line); the group stored under
`""` is then the group of those lines. `o` and `mtllib` lines are not among the
lines that create it. -/
theorem C8_implicit_default_group (reader : Reader)
    (hok : (LoadOBJ ParseFloat reader).2 = none) :
    ((∃ grp, (LoadOBJ ParseFloat reader).1.Groups.get? "" = some grp) ↔
      ∃ line ∈ untilNextG (Scanner.lines reader), isDataLine line = true) ∧
    (∀ grp, (LoadOBJ ParseFloat reader).1.Groups.get? "" = some grp →
      grp = groupOf ParseFloat (untilNextG (Scanner.lines reader))) ∧
    (∀ line, isLineOf "o" line = true ∨ isLineOf "mtllib" line = true →
      isDataLine line = false) := by
  obtain ⟨group, hd⟩ := LoadOBJ_described ParseFloat hok
  refine ⟨?_, ?_, ?_⟩
  · rw [← Option.isSome_iff_exists, hd.keys ""]
    simp only [occurs, decide_True, Bool.true_and, Bool.or_eq_true, List.any_eq_true]
    constructor
    · rintro (⟨l, hl, hdecl⟩ | h)
      · exfalso
        simp only [declares, decide_eq_true_eq] at hdecl
        exact tokenize_ne_empty l "" (by rw [hdecl]; simp) rfl
      · exact h
    · intro h
      exact Or.inr h
  · intro grp hgrp
    have := hd.get?_eq ParseFloat hgrp
    simpa [sectionOf] using this
  · intro line h
    simp only [isLineOf, decide_eq_true_eq] at h
    rcases h with h | h <;> simp [isDataLine, isLineOf, h]

/-- C8 at a concrete stream: a `v` line before the first `g` line. -/
theorem C8_implicit_default_group_witness :
    (LoadOBJ sampleParseFloat ⟨"o x\nv 1 2 3\ng a\nv 4 5 6\n", none⟩).1.Groups.get? ""
      = some ⟨[], [[1, 2, 3]], [], [], [], 0⟩ :=
  have h := C8_implicit_default_group sampleParseFloat
    ⟨"o x\nv 1 2 3\ng a\nv 4 5 6\n", none⟩ (by decide)
  (h.1.2 ⟨"v 1 2 3", by decide, by decide⟩).elim fun grp hgrp =>
    hgrp.trans (congrArg some (h.2.1 grp hgrp))

end

/-! ## Invariants of the groups (C11, C12) -/

theorem GoMap.get?_assign {V : Type} (m : GoMap V) (n k : String) (v x : V)
    (h : (m.assign k v).get? n = some x) : (n = k ∧ x = v) ∨ m.get? n = some x := by
  cases m with
  | nil => simp [GoMap.assign, GoMap.get?, GoMap.entries, GoMap.find] at h
  | table es =>
    rw [GoMap.get?_assign_table] at h
    by_cases hn : n = k
    · rw [if_pos hn] at h
      cases h
      exact Or.inl ⟨hn, rfl⟩
    · rw [if_neg hn] at h
      exact Or.inr h

section

variable {F : Type} (ParseFloat : String → Except Error F)

theorem tokensToFloat64Values_length {tokens : List String} {result : List F}
    (h : tokensToFloat64Values ParseFloat tokens = .ok result) :
    result.length = tokens.length := by
  induction tokens generalizing result with
  | nil =>
    simp only [tokensToFloat64Values] at h
    cases h
    rfl
  | cons t ts ih =>
    simp only [tokensToFloat64Values] at h
    cases hp : ParseFloat t with
    | error e => rw [hp] at h; cases h
    | ok v =>
      rw [hp] at h
      cases hr : tokensToFloat64Values ParseFloat ts with
      | error e => rw [hr] at h; cases h
      | ok r =>
        rw [hr] at h
        cases h
        simp [ih hr]

theorem tokensToOBJPolygons_length {tokens : List String} {result : List OBJPolygon}
    (h : tokensToOBJPolygons tokens = .ok result) : result.length = tokens.length :=
  (tokensToOBJPolygons_ok h).length_eq.symm

theorem lineStep_groupsEffect (result : OBJModel F) (group line : String) :
    GroupsEffect ParseFloat result group (lineStep ParseFloat result group line) := by
  refine lineStep_dispatch ParseFloat (GroupsEffect ParseFloat result group) result group
    line ?hnil ?hmtllib ?ho ?hg ?husemtl ?hv ?hvt ?hvn ?hf ?hs ?hother
  case hnil => intro _ r' g' h; cases h; exact Or.inl rfl
  case hother => intro _ _ _ _ r' g' h; cases h; exact Or.inl rfl
  case hmtllib =>
    intro tokens _ r' g' h
    obtain ⟨-, rfl, -⟩ := caseMtllib_next h
    exact Or.inl rfl
  case ho =>
    intro tokens _ r' g' h
    obtain ⟨-, rfl, -⟩ := caseO_next h
    exact Or.inl rfl
  case hg =>
    intro tokens _ r' g' h
    obtain ⟨-, rfl, -⟩ := caseG_next h
    exact Or.inr (Or.inl ⟨_, rfl⟩)
  case husemtl =>
    intro tokens _ r' g' h
    obtain ⟨-, rfl, -⟩ := caseUsemtl_next h
    exact Or.inr (Or.inr ⟨_, GroupUpdate.usemtl _ _, rfl⟩)
  case hv =>
    intro tokens _ r' g' h
    obtain ⟨hlen, vertex, hp, rfl, -⟩ := caseV_next ParseFloat h
    exact Or.inr (Or.inr ⟨_, GroupUpdate.v _ tokens vertex hlen hp, rfl⟩)
  case hvt =>
    intro tokens _ r' g' h
    obtain ⟨hlen, uv, hp, rfl, -⟩ := caseVt_next ParseFloat h
    exact Or.inr (Or.inr ⟨_, GroupUpdate.vt _ tokens uv hlen hp, rfl⟩)
  case hvn =>
    intro tokens _ r' g' h
    obtain ⟨hlen, normal, hp, rfl, -⟩ := caseVn_next ParseFloat h
    exact Or.inr (Or.inr ⟨_, GroupUpdate.vn _ tokens normal hlen hp, rfl⟩)
  case hf =>
    intro tokens _ r' g' h
    obtain ⟨hlen, polygon, hp, rfl, -⟩ := caseF_next h
    exact Or.inr (Or.inr ⟨_, GroupUpdate.f _ tokens polygon hlen hp, rfl⟩)
  case hs =>
    intro tokens _ r' g' h
    obtain ⟨-, smoothing, hp, rfl, -⟩ := caseS_next h
    exact Or.inr (Or.inr ⟨_, GroupUpdate.s _ _ smoothing hp, rfl⟩)

/-- A property of groups that the empty group has and every write of a data
directive keeps holds of every group of every state the loop reaches. -/
theorem runLines_groups_invariant (P : OBJGroup F → Prop) (hzero : P (OBJGroup.zero F))
    (hupd : ∀ tmp new, P tmp → GroupUpdate ParseFloat tmp new → P new)
    (lines : List String) :
    ∀ (start result : OBJModel F) (group0 group : String),
      (∀ n grp, start.Groups.get? n = some grp → P grp) →
      runLines ParseFloat start group0 lines = .next result group →
      ∀ n grp, result.Groups.get? n = some grp → P grp := by
  induction lines with
  | nil =>
    intro start result group0 group hstart h
    cases h
    exact hstart
  | cons line rest ih =>
    intro start result group0 group hstart h
    simp only [runLines] at h
    cases hstep : lineStep ParseFloat start group0 line with
    | ret m e => rw [hstep] at h; cases h
    | next r g =>
      rw [hstep] at h
      refine ih r result g group ?_ h
      have hidx : P (start.Groups.index (OBJGroup.zero F) group0) := by
        unfold GoMap.index
        cases hget : start.Groups.get? group0 with
        | none => exact hzero
        | some grp => exact hstart _ _ hget
      intro n grp hn
      rcases lineStep_groupsEffect ParseFloat start group0 line r g hstep with
        hG | ⟨k, hG⟩ | ⟨new, hnew, hG⟩
      · rw [hG] at hn; exact hstart n grp hn
      · rw [hG] at hn
        rcases GoMap.get?_assign _ _ _ _ _ hn with ⟨-, rfl⟩ | hold
        · exact hzero
        · exact hstart n grp hold
      · rw [hG] at hn
        rcases GoMap.get?_assign _ _ _ _ _ hn with ⟨-, rfl⟩ | hold
        · exact hupd _ _ hidx hnew
        · exact hstart n grp hold

theorem shaped_zero : Shaped (OBJGroup.zero F) := by
  simp [Shaped, OBJGroup.zero]

theorem shaped_update {tmp new : OBJGroup F} (h : Shaped tmp)
    (hu : GroupUpdate ParseFloat tmp new) : Shaped new := by
  obtain ⟨h1, h2, h3, h4⟩ := h
  cases hu with
  | usemtl m => exact ⟨h1, h2, h3, h4⟩
  | v tokens vertex hlen hp =>
    refine ⟨h1, ?_, h3, h4⟩
    intro x hx
    simp only [List.mem_append, List.mem_singleton] at hx
    rcases hx with hx | rfl
    · exact h2 x hx
    · rw [tokensToFloat64Values_length ParseFloat hp, hlen]
  | vt tokens uv hlen hp =>
    refine ⟨h1, h2, ?_, h4⟩
    intro x hx
    simp only [List.mem_append, List.mem_singleton] at hx
    rcases hx with hx | rfl
    · exact h3 x hx
    · rw [tokensToFloat64Values_length ParseFloat hp, hlen]
  | vn tokens normal hlen hp =>
    refine ⟨h1, h2, h3, ?_⟩
    intro x hx
    simp only [List.mem_append, List.mem_singleton] at hx
    rcases hx with hx | rfl
    · exact h4 x hx
    · rw [tokensToFloat64Values_length ParseFloat hp, hlen]
  | f tokens polygon hlen hp =>
    refine ⟨?_, h2, h3, h4⟩
    intro x hx
    simp only [List.mem_append, List.mem_singleton] at hx
    rcases hx with hx | rfl
    · exact h1 x hx
    · rw [tokensToOBJPolygons_length hp, hlen]
  | s x smoothing hp => exact ⟨h1, h2, h3, h4⟩

theorem ranged_zero : Ranged (OBJGroup.zero F) := by
  simp [Ranged, startIndices, OBJGroup.zero]

theorem ranged_update {tmp new : OBJGroup F} (h : Ranged tmp)
    (hu : GroupUpdate ParseFloat tmp new) : Ranged new := by
  obtain ⟨h1, h2⟩ := h
  cases hu with
  | usemtl m =>
    simp only [Ranged, startIndices, List.map_append, List.map_cons, List.map_nil] at h1 h2 ⊢
    constructor
    · rw [List.pairwise_append]
      refine ⟨h1, List.pairwise_singleton _ _, ?_⟩
      intro a ha b hb
      simp only [List.mem_singleton] at hb
      rw [hb]
      exact h2 a ha
    · intro i hi
      simp only [List.mem_append, List.mem_singleton] at hi
      rcases hi with hi | rfl
      · exact h2 i hi
      · exact le_refl _
  | v tokens vertex hlen hp => exact ⟨h1, h2⟩
  | vt tokens uv hlen hp => exact ⟨h1, h2⟩
  | vn tokens normal hlen hp => exact ⟨h1, h2⟩
  | f tokens polygon hlen hp =>
    refine ⟨h1, ?_⟩
    intro i hi
    have := h2 i hi
    simp only [List.length_append, List.length_singleton]
    omega
  | s x smoothing hp => exact ⟨h1, h2⟩

theorem LoadOBJ_groups_invariant (P : OBJGroup F → Prop) (hzero : P (OBJGroup.zero F))
    (hupd : ∀ tmp new, P tmp → GroupUpdate ParseFloat tmp new → P new)
    {reader : Reader} (hok : (LoadOBJ ParseFloat reader).2 = none) :
    ∀ n grp, (LoadOBJ ParseFloat reader).1.Groups.get? n = some grp → P grp := by
  obtain ⟨group, hrun⟩ := LoadOBJ_ok ParseFloat hok
  refine runLines_groups_invariant ParseFloat P hzero hupd _ _ _ _ _ ?_ hrun
  intro n grp h
  simp [GoMap.get?, GoMap.entries, GoMap.find] at h

/-- C11: in every group of a document that `LoadOBJ` returns without error, every
entry of `Polygon` has exactly 3 vertex references, every entry of `Vertex` exactly
3 components, every entry of `UV` exactly 2 and every entry of `Normal` exactly 3. -/
theorem C11_shape_invariant (reader : Reader) (hok : (LoadOBJ ParseFloat reader).2 = none)
    (n : String) (grp : OBJGroup F)
    (hgrp : (LoadOBJ ParseFloat reader).1.Groups.get? n = some grp) :
    (∀ p ∈ grp.Polygon, p.length = 3) ∧ (∀ v ∈ grp.Vertex, v.length = 3) ∧
      (∀ uv ∈ grp.UV, uv.length = 2) ∧ (∀ nrm ∈ grp.Normal, nrm.length = 3) :=
  LoadOBJ_groups_invariant ParseFloat Shaped shaped_zero (fun _ _ => shaped_update ParseFloat)
    hok n grp hgrp

/-- C11 at a concrete stream with one line of each coordinate kind and a face. -/
theorem C11_shape_invariant_witness :
    ∃ grp : OBJGroup Nat,
      (LoadOBJ sampleParseFloat ⟨"g a\nv 1 2 3\nvt 4 5\nvn 6 7 8\nf 1/1/1 2 3\n", none⟩).1.Groups.get? "a"
        = some grp ∧
      (∀ p ∈ grp.Polygon, p.length = 3) ∧ (∀ v ∈ grp.Vertex, v.length = 3) ∧
      (∀ uv ∈ grp.UV, uv.length = 2) ∧ (∀ nrm ∈ grp.Normal, nrm.length = 3) :=
  ⟨_, rfl, C11_shape_invariant sampleParseFloat
    ⟨"g a\nv 1 2 3\nvt 4 5\nvn 6 7 8\nf 1/1/1 2 3\n", none⟩ (by decide) "a" _ rfl⟩

/-- C12: in every group of a document that `LoadOBJ` returns without error, the
`StartIndex` values of `UseMaterial` do not decrease along the list, which is the
order in which the `usemtl` lines were met (and none exceeds the number of faces of
the group); a group name declared by `g` more than once is no exception. -/
theorem C12_start_indices_sorted (reader : Reader)
    (hok : (LoadOBJ ParseFloat reader).2 = none) (n : String) (grp : OBJGroup F)
    (hgrp : (LoadOBJ ParseFloat reader).1.Groups.get? n = some grp) :
    (grp.UseMaterial.map OBJUseMaterial.StartIndex).Pairwise (· ≤ ·) ∧
      (∀ i ∈ grp.UseMaterial.map OBJUseMaterial.StartIndex, i ≤ grp.Polygon.length) ∧
      grp.UseMaterial = materialsFrom 0 (sectionOf n (Scanner.lines reader)) := by
  have h := LoadOBJ_groups_invariant ParseFloat Ranged ranged_zero
    (fun _ _ => ranged_update ParseFloat) hok n grp hgrp
  obtain ⟨group, hd⟩ := LoadOBJ_described ParseFloat hok
  refine ⟨h.1, h.2, ?_⟩
  rw [hd.get?_eq ParseFloat hgrp]
  rfl

/-- C12 at a concrete stream: group `a` is declared twice, with ranges starting at
3 faces in its first section and at 0 and 1 in its second. -/
theorem C12_start_indices_sorted_witness :
    ∃ grp : OBJGroup Nat,
      (LoadOBJ sampleParseFloat
        ⟨"g a\nf 1 2 3\nf 1 2 3\nf 1 2 3\nusemtl x\ng a\nusemtl y\nf 1 2 3\nusemtl z\n", none⟩).1.Groups.get? "a"
        = some grp ∧
      grp.UseMaterial = [⟨0, "y"⟩, ⟨1, "z"⟩] ∧
      (grp.UseMaterial.map OBJUseMaterial.StartIndex).Pairwise (· ≤ ·) :=
  ⟨_, rfl, rfl, (C12_start_indices_sorted sampleParseFloat
    ⟨"g a\nf 1 2 3\nf 1 2 3\nf 1 2 3\nusemtl x\ng a\nusemtl y\nf 1 2 3\nusemtl z\n", none⟩
    (by decide) "a" _ rfl).1⟩

end

/-! ## Document-level fields and whole streams (C13, C14, C15) -/

theorem lastArgOf_snoc (d : String) (pre : List String) (l : String) :
    lastArgOf d (pre ++ [l]) =
      if isLineOf d l = true then elemAt (argsOf l) 0 else lastArgOf d pre := by
  simp only [lastArgOf, filter_snoc]
  split_ifs
  · simp
  · simp

section

variable {F : Type} (ParseFloat : String → Except Error F)

theorem lineStep_namesEffect (result : OBJModel F) (group line : String) :
    NamesEffect result line (lineStep ParseFloat result group line) := by
  refine lineStep_dispatch ParseFloat (NamesEffect result line) result group
    line ?hnil ?hmtllib ?ho ?hg ?husemtl ?hv ?hvt ?hvn ?hf ?hs ?hother
  case hnil =>
    intro htok r' g' h
    cases h
    simp [isLineOf, htok]
  case hother =>
    intro d tokens htok hreq r' g' h
    cases h
    have hd := requiredArgs_none_not_mem hreq
    simp only [directives, List.mem_cons, List.mem_singleton, List.not_mem_nil, or_false,
      not_or] at hd
    simp [isLineOf_of_tokens htok, hd]
  case hmtllib =>
    intro tokens htok r' g' h
    obtain ⟨-, rfl, -⟩ := caseMtllib_next h
    simp [isLineOf_of_tokens htok, argsOf_of_tokens htok]
  case ho =>
    intro tokens htok r' g' h
    obtain ⟨-, rfl, -⟩ := caseO_next h
    simp [isLineOf_of_tokens htok, argsOf_of_tokens htok]
  case hg =>
    intro tokens htok r' g' h
    obtain ⟨-, rfl, -⟩ := caseG_next h
    simp [isLineOf_of_tokens htok]
  case husemtl =>
    intro tokens htok r' g' h
    obtain ⟨-, rfl, -⟩ := caseUsemtl_next h
    simp [isLineOf_of_tokens htok, updateGroup]
  case hv =>
    intro tokens htok r' g' h
    obtain ⟨-, _, -, rfl, -⟩ := caseV_next ParseFloat h
    simp [isLineOf_of_tokens htok, updateGroup]
  case hvt =>
    intro tokens htok r' g' h
    obtain ⟨-, _, -, rfl, -⟩ := caseVt_next ParseFloat h
    simp [isLineOf_of_tokens htok, updateGroup]
  case hvn =>
    intro tokens htok r' g' h
    obtain ⟨-, _, -, rfl, -⟩ := caseVn_next ParseFloat h
    simp [isLineOf_of_tokens htok, updateGroup]
  case hf =>
    intro tokens htok r' g' h
    obtain ⟨-, _, -, rfl, -⟩ := caseF_next h
    simp [isLineOf_of_tokens htok, updateGroup]
  case hs =>
    intro tokens htok r' g' h
    obtain ⟨-, _, -, rfl, -⟩ := caseS_next h
    simp [isLineOf_of_tokens htok, updateGroup]

theorem runLines_names (lines : List String) :
    ∀ (result : OBJModel F) (group : String),
      runLines ParseFloat ⟨"", "", .table []⟩ "" lines = .next result group →
      result.Name = lastArgOf "o" lines ∧ result.MaterialFile = lastArgOf "mtllib" lines := by
  induction lines using List.reverseRecOn with
  | nil =>
    intro result group h
    cases h
    exact ⟨rfl, rfl⟩
  | append_singleton pre line ih =>
    intro result group h
    rw [runLines_append] at h
    cases hpre : runLines ParseFloat ⟨"", "", .table []⟩ "" pre with
    | ret m e => rw [hpre] at h; cases h
    | next r g =>
      rw [hpre] at h
      simp only [runLines] at h
      cases hstep : lineStep ParseFloat r g line with
      | ret m e => rw [hstep] at h; cases h
      | next r' g' =>
        rw [hstep] at h
        cases h
        obtain ⟨h1, h2⟩ := lineStep_namesEffect ParseFloat r g line _ _ hstep
        obtain ⟨i1, i2⟩ := ih r g hpre
        rw [lastArgOf_snoc, lastArgOf_snoc, h1, h2, i1, i2]
        exact ⟨rfl, rfl⟩

theorem lineStep_o (result : OBJModel F) (group : String) {line x : String}
    (htok : tokenize line = ["o", x]) :
    lineStep ParseFloat result group line = .next { result with Name := x } group := by
  unfold lineStep
  rw [htok]
  dsimp only
  rw [if_neg (by decide), if_pos rfl]
  rfl

theorem lineStep_mtllib (result : OBJModel F) (group : String) {line x : String}
    (htok : tokenize line = ["mtllib", x]) :
    lineStep ParseFloat result group line = .next { result with MaterialFile := x } group := by
  unfold lineStep
  rw [htok]
  dsimp only
  rw [if_pos rfl]
  rfl

theorem loadLines_ignorable (lines : List String) (h : ∀ l ∈ lines, Ignorable l) :
    ∀ (result : OBJModel F) (group : String),
      loadLoop ParseFloat result group lines = (result, none) := by
  induction lines with
  | nil => intro result group; rfl
  | cons l rest ih =>
    intro result group
    simp only [loadLoop, lineStep_ignorable ParseFloat result group (h l (List.mem_cons_self _ _))]
    exact ih (fun x hx => h x (List.mem_cons_of_mem _ hx)) result group

/-- C14: on the empty stream, and on any stream whose lines are all blank or
unrecognised, `LoadOBJ` returns no error and a document with empty `Name`, empty
`MaterialFile` and a `Groups` map that is allocated (not nil) and has no entry. -/
theorem C14_empty_stream :
    (∀ err : Option String,
      LoadOBJ ParseFloat ⟨"", err⟩ = (⟨"", "", .table []⟩, none)) ∧
    (∀ reader : Reader, (∀ l ∈ Scanner.lines reader, Ignorable l) →
      LoadOBJ ParseFloat reader = (⟨"", "", .table []⟩, none)) ∧
    (GoMap.table [] : GoMap (OBJGroup F)) ≠ GoMap.nil ∧
    (GoMap.table [] : GoMap (OBJGroup F)).keys = [] := by
  refine ⟨?_, ?_, ?_, rfl⟩
  · intro err
    rfl
  · intro reader h
    unfold LoadOBJ loadLines
    exact loadLines_ignorable ParseFloat _ h _ _
  · intro h
    cases h

/-- C14 at a concrete stream of a blank line, a comment and an unknown directive. -/
theorem C14_empty_stream_witness :
    LoadOBJ sampleParseFloat ⟨"\n# comment\n  \t \nvp 1 2\n", none⟩
      = (⟨"", "", .table []⟩, none) :=
  (C14_empty_stream sampleParseFloat).2.1 ⟨"\n# comment\n  \t \nvp 1 2\n", none⟩ (by decide)

/-- C15: on a stream on which `LoadOBJ` succeeds, `Name` is the argument of the last
`o` line and `MaterialFile` the argument of the last `mtllib` line, each empty when
there is no such line; a pass of the loop over an `o` or `mtllib` line changes
neither `Groups` nor the current group. -/
theorem C15_last_write_wins :
    (∀ reader : Reader, (LoadOBJ ParseFloat reader).2 = none →
      (LoadOBJ ParseFloat reader).1.Name = lastArgOf "o" (Scanner.lines reader) ∧
      (LoadOBJ ParseFloat reader).1.MaterialFile = lastArgOf "mtllib" (Scanner.lines reader)) ∧
    (∀ (result : OBJModel F) (group line x : String), tokenize line = ["o", x] →
      lineStep ParseFloat result group line
        = .next ⟨x, result.MaterialFile, result.Groups⟩ group) ∧
    (∀ (result : OBJModel F) (group line x : String), tokenize line = ["mtllib", x] →
      lineStep ParseFloat result group line = .next ⟨result.Name, x, result.Groups⟩ group) := by
  refine ⟨?_, ?_, ?_⟩
  · intro reader hok
    obtain ⟨group, hrun⟩ := LoadOBJ_ok ParseFloat hok
    exact runLines_names ParseFloat _ _ _ hrun
  · intro result group line x htok
    exact lineStep_o ParseFloat result group htok
  · intro result group line x htok
    exact lineStep_mtllib ParseFloat result group htok

/-- C15 at a concrete stream with two `o` lines and two `mtllib` lines. -/
theorem C15_last_write_wins_witness :
    (LoadOBJ sampleParseFloat ⟨"o first\nmtllib a.mtl\ng x\no second\nmtllib b.mtl\n", none⟩).1.Name
        = "second" ∧
      (LoadOBJ sampleParseFloat
        ⟨"o first\nmtllib a.mtl\ng x\no second\nmtllib b.mtl\n", none⟩).1.MaterialFile = "b.mtl" :=
  (C15_last_write_wins sampleParseFloat).1
    ⟨"o first\nmtllib a.mtl\ng x\no second\nmtllib b.mtl\n", none⟩ (by decide)

end

section

variable {F : Type} (ParseFloat : String → Except Error F)

theorem lineStep_v (result : OBJModel F) (group : String) {line : String}
    {tokens : List String} (htok : tokenize line = "v" :: tokens) :
    lineStep ParseFloat result group line = caseV ParseFloat result group tokens := by
  unfold lineStep
  rw [htok]
  dsimp only
  rw [if_neg (by decide), if_neg (by decide), if_neg (by decide), if_neg (by decide),
    if_pos rfl]

theorem lineStep_f (result : OBJModel F) (group : String) {line : String}
    {tokens : List String} (htok : tokenize line = "f" :: tokens) :
    lineStep ParseFloat result group line = caseF result group tokens := by
  unfold lineStep
  rw [htok]
  dsimp only
  rw [if_neg (by decide), if_neg (by decide), if_neg (by decide), if_neg (by decide),
    if_neg (by decide), if_neg (by decide), if_neg (by decide), if_pos rfl]

theorem lineStep_s (result : OBJModel F) (group : String) {line : String}
    {tokens : List String} (htok : tokenize line = "s" :: tokens) :
    lineStep ParseFloat result group line = caseS result group tokens := by
  unfold lineStep
  rw [htok]
  dsimp only
  rw [if_neg (by decide), if_neg (by decide), if_neg (by decide), if_neg (by decide),
    if_neg (by decide), if_neg (by decide), if_neg (by decide), if_neg (by decide),
    if_pos rfl]

theorem loadLines_scenario (zero one : F) (h0 : ParseFloat "0.0" = .ok zero)
    (h1 : ParseFloat "1.0" = .ok one) :
    loadLines ParseFloat ["o cube", "g base", "v 0.0 0.0 0.0", "v 1.0 0.0 0.0",
        "v 0.0 1.0 0.0", "usemtl red", "f 1/1/1 2/2/1 3/3/1", "s 1"]
      = (⟨"cube", "", .table [("base",
          ⟨[⟨0, "red"⟩], [[zero, zero, zero], [one, zero, zero], [zero, one, zero]], [], [],
            [[⟨1, 1, 1⟩, ⟨2, 2, 1⟩, ⟨3, 3, 1⟩]], 1⟩)]⟩, none) := by
  have t1 : tokenize "o cube" = ["o", "cube"] := by decide
  have t2 : tokenize "g base" = ["g", "base"] := by decide
  have t3 : tokenize "v 0.0 0.0 0.0" = "v" :: ["0.0", "0.0", "0.0"] := by decide
  have t4 : tokenize "v 1.0 0.0 0.0" = "v" :: ["1.0", "0.0", "0.0"] := by decide
  have t5 : tokenize "v 0.0 1.0 0.0" = "v" :: ["0.0", "1.0", "0.0"] := by decide
  have t6 : tokenize "usemtl red" = ["usemtl", "red"] := by decide
  have t7 : tokenize "f 1/1/1 2/2/1 3/3/1" = "f" :: ["1/1/1", "2/2/1", "3/3/1"] := by decide
  have t8 : tokenize "s 1" = "s" :: ["1"] := by decide
  have p7 : tokensToOBJPolygons ["1/1/1", "2/2/1", "3/3/1"]
      = .ok [⟨1, 1, 1⟩, ⟨2, 2, 1⟩, ⟨3, 3, 1⟩] := by decide
  have p8 : Atoi (elemAt ["1"] 0) = .ok 1 := by decide
  have v3 : tokensToFloat64Values ParseFloat ["0.0", "0.0", "0.0"] = .ok [zero, zero, zero] := by
    simp only [tokensToFloat64Values, h0]
  have v4 : tokensToFloat64Values ParseFloat ["1.0", "0.0", "0.0"] = .ok [one, zero, zero] := by
    simp only [tokensToFloat64Values, h0, h1]
  have v5 : tokensToFloat64Values ParseFloat ["0.0", "1.0", "0.0"] = .ok [zero, one, zero] := by
    simp only [tokensToFloat64Values, h0, h1]
  have l3 : validLength ["0.0", "0.0", "0.0"] 3 = none := rfl
  have l4 : validLength ["1.0", "0.0", "0.0"] 3 = none := rfl
  have l5 : validLength ["0.0", "1.0", "0.0"] 3 = none := rfl
  have l7 : validLength ["1/1/1", "2/2/1", "3/3/1"] 3 = none := rfl
  have l8 : validLength ["1"] 1 = none := rfl
  simp only [loadLines, loadLoop, lineStep_o ParseFloat _ _ t1, lineStep_g ParseFloat _ _ t2,
    lineStep_v ParseFloat _ _ t3, lineStep_v ParseFloat _ _ t4, lineStep_v ParseFloat _ _ t5,
    lineStep_usemtl ParseFloat _ _ t6, lineStep_f ParseFloat _ _ t7,
    lineStep_s ParseFloat _ _ t8, caseV, caseF, caseS, l3, l4, l5, l7, l8, v3, v4, v5, p7, p8]
  rfl

/-- C13: on the eight-line input of the specification `LoadOBJ` succeeds with
`Name` `cube`, empty `MaterialFile`, and `Groups` with the single key `base`, whose
group has the three vertices, the material range `{0, red}`, the face
`[{1,1,1},{2,2,1},{3,3,1}]`, `Smoothing` 1 and no `UV` or `Normal`. The coordinates
are the values `zero` and `one` that `ParseFloat` reads from `0.0` and `1.0`. The
result is the same with and without a newline after the last line. -/
theorem C13_concrete_scenario (zero one : F) (h0 : ParseFloat "0.0" = .ok zero)
    (h1 : ParseFloat "1.0" = .ok one) :
    LoadOBJ ParseFloat
        ⟨"o cube\ng base\nv 0.0 0.0 0.0\nv 1.0 0.0 0.0\nv 0.0 1.0 0.0\nusemtl red\nf 1/1/1 2/2/1 3/3/1\ns 1\n",
          none⟩
      = (⟨"cube", "", .table [("base",
          ⟨[⟨0, "red"⟩], [[zero, zero, zero], [one, zero, zero], [zero, one, zero]], [], [],
            [[⟨1, 1, 1⟩, ⟨2, 2, 1⟩, ⟨3, 3, 1⟩]], 1⟩)]⟩, none) ∧
    LoadOBJ ParseFloat
        ⟨"o cube\ng base\nv 0.0 0.0 0.0\nv 1.0 0.0 0.0\nv 0.0 1.0 0.0\nusemtl red\nf 1/1/1 2/2/1 3/3/1\ns 1",
          none⟩
      = (⟨"cube", "", .table [("base",
          ⟨[⟨0, "red"⟩], [[zero, zero, zero], [one, zero, zero], [zero, one, zero]], [], [],
            [[⟨1, 1, 1⟩, ⟨2, 2, 1⟩, ⟨3, 3, 1⟩]], 1⟩)]⟩, none) := by
  have hl : Scanner.lines
      ⟨"o cube\ng base\nv 0.0 0.0 0.0\nv 1.0 0.0 0.0\nv 0.0 1.0 0.0\nusemtl red\nf 1/1/1 2/2/1 3/3/1\ns 1\n",
        none⟩
      = ["o cube", "g base", "v 0.0 0.0 0.0", "v 1.0 0.0 0.0", "v 0.0 1.0 0.0", "usemtl red",
        "f 1/1/1 2/2/1 3/3/1", "s 1"] := by decide
  have hl' : Scanner.lines
      ⟨"o cube\ng base\nv 0.0 0.0 0.0\nv 1.0 0.0 0.0\nv 0.0 1.0 0.0\nusemtl red\nf 1/1/1 2/2/1 3/3/1\ns 1",
        none⟩
      = ["o cube", "g base", "v 0.0 0.0 0.0", "v 1.0 0.0 0.0", "v 0.0 1.0 0.0", "usemtl red",
        "f 1/1/1 2/2/1 3/3/1", "s 1"] := by decide
  unfold LoadOBJ
  rw [hl, hl']
  exact ⟨loadLines_scenario ParseFloat zero one h0 h1,
    loadLines_scenario ParseFloat zero one h0 h1⟩

end

/-- C13 with a reader of decimal literals that knows `0.0` and `1.0`. -/
theorem C13_concrete_scenario_witness :
    (LoadOBJ (fun s => if s = "0.0" then Except.ok (0 : Nat) else
          if s = "1.0" then Except.ok 1 else Except.error (syntaxError "ParseFloat" s))
        ⟨"o cube\ng base\nv 0.0 0.0 0.0\nv 1.0 0.0 0.0\nv 0.0 1.0 0.0\nusemtl red\nf 1/1/1 2/2/1 3/3/1\ns 1\n",
          none⟩).1.Groups.get? "base"
      = some ⟨[⟨0, "red"⟩], [[0, 0, 0], [1, 0, 0], [0, 1, 0]], [], [],
          [[⟨1, 1, 1⟩, ⟨2, 2, 1⟩, ⟨3, 3, 1⟩]], 1⟩ :=
  (congrArg (fun r => r.1.Groups.get? "base")
    (C13_concrete_scenario
      (fun s => if s = "0.0" then Except.ok (0 : Nat) else
        if s = "1.0" then Except.ok 1 else Except.error (syntaxError "ParseFloat" s))
      0 1 (by decide) (by decide)).1).trans rfl

/-! ## The smoothing directive (C16) -/

theorem decimalFrom_lt (n : Nat) (cs : List Char) (h : cs.all isDecimalDigit = true) :
    decimalFrom n cs < (n + 1) * 10 ^ cs.length := by
  induction cs generalizing n with
  | nil => simp [decimalFrom]
  | cons c cs ih =>
    simp only [List.all_cons, Bool.and_eq_true] at h
    have hc : c.toNat - '0'.toNat ≤ 9 := by
      have := h.1
      simp only [isDecimalDigit, decide_eq_true_eq] at this
      have h9 : '9'.toNat = 57 := rfl
      have h0 : '0'.toNat = 48 := rfl
      omega
    rw [decimalFrom_cons]
    have := ih (n * 10 + (c.toNat - '0'.toNat)) h.2
    calc decimalFrom (n * 10 + (c.toNat - '0'.toNat)) cs
        < (n * 10 + (c.toNat - '0'.toNat) + 1) * 10 ^ cs.length := this
      _ ≤ ((n + 1) * 10) * 10 ^ cs.length := by
          apply Nat.mul_le_mul_right
          omega
      _ = (n + 1) * 10 ^ (c :: cs).length := by
          rw [List.length_cons, pow_succ]
          ring

theorem atoiLoop_digits (s0 : String) (cs : List Char) (n : Nat)
    (h : cs.all isDecimalDigit = true) :
    atoiLoop s0 cs (n : Int) = .ok (decimalFrom n cs : Int) := by
  induction cs generalizing n with
  | nil => rfl
  | cons c cs ih =>
    simp only [List.all_cons, Bool.and_eq_true] at h
    have hd : '0'.toNat ≤ c.toNat ∧ c.toNat ≤ '9'.toNat := by
      simpa [isDecimalDigit] using h.1
    rw [atoiLoop, if_pos hd, decimalFrom_cons, ← ih _ h.2]
    congr 1

theorem atoiLoop_not_digits (s0 : String) (cs : List Char) (n : Int)
    (h : ¬cs.all isDecimalDigit = true) :
    atoiLoop s0 cs n = .error (syntaxError "Atoi" s0) := by
  induction cs generalizing n with
  | nil => simp at h
  | cons c cs ih =>
    rw [atoiLoop]
    by_cases hd : '0'.toNat ≤ c.toNat ∧ c.toNat ≤ '9'.toNat
    · rw [if_pos hd]
      apply ih
      intro hall
      apply h
      simp only [List.all_cons, Bool.and_eq_true]
      exact ⟨by simpa [isDecimalDigit] using hd, hall⟩
    · rw [if_neg hd]

theorem length_le_byteLen (cs : List Char) : cs.length ≤ byteLen cs := by
  induction cs with
  | nil => simp [byteLen]
  | cons c cs ih =>
    have hc : 1 ≤ c.utf8Size := c.utf8Size_pos
    simp only [byteLen, List.map_cons, List.sum_cons, List.length_cons] at ih ⊢
    omega

theorem byteLen_drop_le (cs : List Char) : byteLen (cs.drop 1) ≤ byteLen cs := by
  cases cs with
  | nil => simp [byteLen]
  | cons c cs => simp [byteLen]

theorem byteLen_eq_zero {cs : List Char} (h : byteLen cs = 0) : cs = [] := by
  have := length_le_byteLen cs
  exact List.length_eq_zero.1 (by omega)

/-! ## The smoothing directive: `Atoi` -/

theorem intLiteral_eq (x : String) (digits : List Char)
    (hd : digits = if x.data.head? = some '+' ∨ x.data.head? = some '-' then x.data.drop 1
      else x.data) :
    intLiteral x =
      if digits ≠ [] ∧ digits.all isDecimalDigit = true then
        some (if x.data.head? = some '-' then -(decimalValue digits : Int)
          else (decimalValue digits : Int))
      else none := by
  subst hd
  rfl

theorem ParseInt_spec (x : String) :
    (∀ v, ParseInt x = .ok v ↔ (intLiteral x = some v ∧ inIntRange v)) ∧
      (∀ e, ParseInt x = .error e → ∃ kind, e = .numError "ParseInt" x kind) := by
  by_cases hx : x = ""
  · subst hx
    constructor
    · intro v
      have h1 : ParseInt "" = .error (syntaxError "ParseInt" "") := by decide
      have h2 : intLiteral "" = none := by decide
      rw [h1, h2]
      simp
    · intro e h
      have h1 : ParseInt "" = .error (syntaxError "ParseInt" "") := by decide
      rw [h1] at h
      cases h
      exact ⟨_, rfl⟩
  · generalize hd : (if x.data.head? = some '+' ∨ x.data.head? = some '-' then x.data.drop 1
      else x.data) = digits
    have hs : (if x.data.head? = some '+' ∨ x.data.head? = some '-' then
        String.mk (x.data.drop 1) else x) = String.mk digits := by
      rw [← hd]
      split_ifs <;> rfl
    have hlit := intLiteral_eq x digits hd.symm
    have hP : ParseInt x =
        match ParseUint (String.mk digits) with
        | .error (.numError _ _ .ErrSyntax) => .error (syntaxError "ParseInt" x)
        | .error _ => .error (rangeError "ParseInt" x)
        | .ok un =>
          if ¬ (x.data.head? = some '-') ∧ un ≥ 2 ^ 63 then .error (rangeError "ParseInt" x)
          else if x.data.head? = some '-' ∧ un > 2 ^ 63 then .error (rangeError "ParseInt" x)
          else if x.data.head? = some '-' then .ok (-(un : Int)) else .ok (un : Int) := by
      unfold ParseInt
      rw [if_neg hx]
      simp only [hs]
    have hne : String.mk digits ≠ "" ↔ digits ≠ [] := by
      constructor
      · intro h h0; apply h; rw [h0]
      · intro h h0; apply h
        have : (String.mk digits).data = ("" : String).data := by rw [h0]
        exact this
    rw [hP, hlit]
    cases hp : ParseUint (String.mk digits) with
    | ok un =>
      obtain ⟨h1, h2, h3, h4⟩ := (ParseUint_ok_iff _ _).1 hp
      have h1' := hne.1 h1
      have h2' : digits.all isDecimalDigit = true := h2
      have h3' : decimalValue digits = un := h3
      rw [if_pos ⟨h1', h2'⟩, h3']
      dsimp only
      constructor
      · intro v
        by_cases hneg : x.data.head? = some '-'
        · simp only [hneg, not_true_eq_false, false_and, if_false, true_and, if_true,
            inIntRange]
          by_cases hgt : un > 2 ^ 63
          · rw [if_pos hgt]
            constructor
            · intro h; cases h
            · rintro ⟨h, h5, h6⟩
              simp only [Option.some.injEq] at h
              omega
          · rw [if_neg hgt]
            constructor
            · intro h
              cases h
              refine ⟨rfl, ?_, ?_⟩ <;> omega
            · rintro ⟨h, -⟩
              simp only [Option.some.injEq] at h
              rw [h]
        · simp only [hneg, not_false_eq_true, true_and, false_and, if_false, inIntRange]
          by_cases hge : un ≥ 2 ^ 63
          · rw [if_pos hge]
            constructor
            · intro h; cases h
            · rintro ⟨h, h5, h6⟩
              simp only [Option.some.injEq] at h
              omega
          · rw [if_neg hge]
            constructor
            · intro h
              cases h
              refine ⟨rfl, ?_, ?_⟩ <;> omega
            · rintro ⟨h, -⟩
              simp only [Option.some.injEq] at h
              rw [h]
      · intro e h
        split_ifs at h <;> (cases h; exact ⟨_, rfl⟩)
    | error err =>
      constructor
      · intro v
        constructor
        · intro h
          cases err with
          | invalidFormat => cases h
          | numError a b k => cases k <;> cases h
        · rintro ⟨h, h5, h6⟩
          exfalso
          by_cases hdig : digits ≠ [] ∧ digits.all isDecimalDigit = true
          · rw [if_pos hdig] at h
            by_cases hlt : decimalValue digits < 2 ^ 64
            · have := (ParseUint_ok_iff (String.mk digits) (decimalValue digits)).2
                ⟨hne.2 hdig.1, hdig.2, rfl, hlt⟩
              rw [hp] at this
              cases this
            · simp only [Option.some.injEq] at h
              split_ifs at h <;> omega
          · rw [if_neg hdig] at h
            cases h
      · intro e h
        cases err with
        | invalidFormat => cases h; exact ⟨_, rfl⟩
        | numError a b k => cases k <;> (cases h; exact ⟨_, rfl⟩)

theorem Atoi_spec (x : String) :
    (∀ v, Atoi x = .ok v ↔ (intLiteral x = some v ∧ inIntRange v)) ∧
      (∀ e, Atoi x = .error e → ∃ kind, e = .numError "Atoi" x kind) := by
  by_cases hfast : 0 < byteLen x.data ∧ byteLen x.data < 19
  · generalize hd : (if x.data.head? = some '+' ∨ x.data.head? = some '-' then x.data.drop 1
      else x.data) = digits
    have hd' : (if x.data.head? = some '-' ∨ x.data.head? = some '+' then x.data.drop 1
        else x.data) = digits := by
      rw [← hd]
      by_cases h : x.data.head? = some '+' ∨ x.data.head? = some '-'
      · rw [if_pos h, if_pos h.symm]
      · rw [if_neg h, if_neg (fun h' => h h'.symm)]
    have hlit := intLiteral_eq x digits hd.symm
    have hA : Atoi x =
        if (x.data.head? = some '-' ∨ x.data.head? = some '+') ∧ digits.length < 1 then
          .error (syntaxError "Atoi" x)
        else
          match atoiLoop x digits 0 with
          | .error err => .error err
          | .ok n => if x.data.head? = some '-' then .ok (-n) else .ok n := by
      unfold Atoi
      simp only [hfast, and_self, if_true, hd']
    have hlen : digits.length ≤ 18 := by
      have h1 := length_le_byteLen digits
      have h2 : byteLen digits ≤ byteLen x.data := by
        rw [← hd]
        split_ifs
        · exact byteLen_drop_le _
        · exact le_refl _
      omega
    rw [hA, hlit]
    by_cases hempty : digits = []
    · have hsigned : x.data.head? = some '-' ∨ x.data.head? = some '+' := by
        by_contra hns
        rw [if_neg hns] at hd'
        rw [hempty] at hd'
        rw [hd'] at hfast
        simp [byteLen] at hfast
      rw [if_pos ⟨hsigned, by rw [hempty]; decide⟩, if_neg (fun h => h.1 hempty)]
      constructor
      · intro v; simp
      · intro e h; cases h; exact ⟨_, rfl⟩
    · have hpos : ¬ digits.length < 1 := by
        intro h
        apply hempty
        exact List.length_eq_zero.1 (by omega)
      rw [if_neg (fun h => hpos h.2)]
      by_cases hall : digits.all isDecimalDigit = true
      · have hloop := atoiLoop_digits x digits 0 hall
        have hb := decimalFrom_lt 0 digits hall
        have hpow : 10 ^ digits.length ≤ 10 ^ 18 := Nat.pow_le_pow_right (by norm_num) hlen
        have hval : decimalValue digits < 10 ^ 18 := by
          unfold decimalValue
          omega
        rw [if_pos ⟨hempty, hall⟩]
        simp only [Nat.cast_zero] at hloop
        rw [hloop]
        dsimp only
        constructor
        · intro v
          by_cases hneg : x.data.head? = some '-'
          · rw [if_pos hneg, if_pos hneg]
            constructor
            · intro h
              cases h
              refine ⟨rfl, ?_, ?_⟩ <;> (unfold decimalValue at hval; omega)
            · rintro ⟨h, -⟩
              simp only [Option.some.injEq] at h
              rw [← h]
              rfl
          · rw [if_neg hneg, if_neg hneg]
            constructor
            · intro h
              cases h
              refine ⟨rfl, ?_, ?_⟩ <;> (unfold decimalValue at hval; omega)
            · rintro ⟨h, -⟩
              simp only [Option.some.injEq] at h
              rw [← h]
              rfl
        · intro e h
          split_ifs at h
      · rw [atoiLoop_not_digits x digits 0 hall, if_neg (fun h => hall h.2)]
        constructor
        · intro v; simp
        · intro e h; cases h; exact ⟨_, rfl⟩
  · have hA : Atoi x =
        match ParseInt x with
        | .error (.numError _ num err) => .error (.numError "Atoi" num err)
        | .error err => .error err
        | .ok i64 => .ok i64 := by
      unfold Atoi
      simp only [hfast, if_false]
    obtain ⟨h1, h2⟩ := ParseInt_spec x
    rw [hA]
    cases hp : ParseInt x with
    | ok i =>
      constructor
      · intro v
        rw [← h1 v, hp]
      · intro e h; cases h
    | error err =>
      obtain ⟨kind, rfl⟩ := h2 err hp
      constructor
      · intro v
        rw [← h1 v, hp]
        simp
      · intro e h; cases h; exact ⟨_, rfl⟩

section

variable {F : Type} (ParseFloat : String → Except Error F)

theorem Atoi_of_literal {x : String} {v : Int} (h : intLiteral x = some v)
    (hr : inIntRange v) : Atoi x = .ok v :=
  ((Atoi_spec x).1 v).2 ⟨h, hr⟩

theorem Atoi_of_not_literal {x : String}
    (h : ¬∃ v, intLiteral x = some v ∧ inIntRange v) :
    ∃ kind, Atoi x = .error (.numError "Atoi" x kind) := by
  cases hA : Atoi x with
  | ok v => exact absurd ⟨v, ((Atoi_spec x).1 v).1 hA⟩ h
  | error e =>
    obtain ⟨kind, rfl⟩ := (Atoi_spec x).2 e hA
    exact ⟨kind, rfl⟩

theorem smoothingOf_of_count {lines : List String} (h : countLines "s" lines = 0) :
    smoothingOf lines = 0 := by
  unfold countLines at h
  unfold smoothingOf
  rw [List.length_eq_zero.1 h]
  rfl

/-- C16: a line `s x` with exactly one argument, met by the loop with the variables
`result` and `group`, sets `Smoothing` of the current group to the value of `x` and
changes nothing else when `x` is a base-10 integer (an optional sign, then digits)
in the range of `int`; for every other `x` the pass returns the zero model and a
`strconv.NumError` of `Atoi` for `x`, so `LoadOBJ` fails with it when no earlier
line fails, as for `s off`. A group whose section has no `s` line has
`Smoothing` 0. -/
theorem C16_smoothing_directive :
    (∀ (pre : List String) (result : OBJModel F) (group line x : String) (v : Int),
      runLines ParseFloat ⟨"", "", .table []⟩ "" pre = .next result group →
      tokenize line = ["s", x] → intLiteral x = some v → inIntRange v →
      ∃ result' : OBJModel F,
        lineStep ParseFloat result group line = .next result' group ∧
        result'.Name = result.Name ∧ result'.MaterialFile = result.MaterialFile ∧
        result'.Groups.get? group
          = some { result.Groups.index (OBJGroup.zero F) group with Smoothing := v } ∧
        ∀ k, k ≠ group → result'.Groups.get? k = result.Groups.get? k) ∧
    (∀ (result : OBJModel F) (group line x : String), tokenize line = ["s", x] →
      (¬∃ v, intLiteral x = some v ∧ inIntRange v) →
      ∃ kind, lineStep ParseFloat result group line
        = .ret (OBJModel.zero F) (some (.numError "Atoi" x kind))) ∧
    (∀ (reader : Reader) (pre post : List String) (line x : String),
      Scanner.lines reader = pre ++ line :: post → (loadLines ParseFloat pre).2 = none →
      tokenize line = ["s", x] → (¬∃ v, intLiteral x = some v ∧ inIntRange v) →
      ∃ kind, LoadOBJ ParseFloat reader
        = (OBJModel.zero F, some (.numError "Atoi" x kind))) ∧
    LoadOBJ ParseFloat ⟨"s off", none⟩
      = (OBJModel.zero F, some (.numError "Atoi" "off" .ErrSyntax)) ∧
    (∀ (reader : Reader) (n : String) (grp : OBJGroup F),
      (LoadOBJ ParseFloat reader).2 = none →
      (LoadOBJ ParseFloat reader).1.Groups.get? n = some grp →
      countLines "s" (sectionOf n (Scanner.lines reader)) = 0 → grp.Smoothing = 0) := by
  refine ⟨?_, ?_, ?_, rfl, ?_⟩
  · intro pre result group line x v hrun htok hlit hrange
    have hd := runLines_described ParseFloat pre result group hrun
    obtain ⟨es, hes⟩ := hd.allocated
    have hstep : lineStep ParseFloat result group line =
        .next (updateGroup result group fun tmp => { tmp with Smoothing := v }) group := by
      rw [lineStep_s ParseFloat result group htok]
      simp only [caseS, validLength, List.length_singleton, ne_eq, not_true_eq_false,
        if_false, elemAt, List.getD_cons_zero, Atoi_of_literal hlit hrange]
    refine ⟨_, hstep, rfl, rfl, ?_, ?_⟩
    · simp only [updateGroup, hes, GoMap.get?_assign_table, if_true]
    · intro k hk
      simp only [updateGroup, hes, GoMap.get?_assign_table, if_neg hk]
  · intro result group line x htok hbad
    obtain ⟨kind, hk⟩ := Atoi_of_not_literal hbad
    refine ⟨kind, ?_⟩
    rw [lineStep_s ParseFloat result group htok]
    simp only [caseS, validLength, List.length_singleton, ne_eq, not_true_eq_false,
      if_false, elemAt, List.getD_cons_zero, hk]
  · intro reader pre post line x hlines hpre htok hbad
    obtain ⟨kind, hk⟩ := Atoi_of_not_literal hbad
    refine ⟨kind, ?_⟩
    unfold LoadOBJ
    rw [hlines]
    unfold loadLines at hpre ⊢
    rw [loadLoop_eq_runLines] at hpre ⊢
    rw [runLines_append]
    cases hr : runLines ParseFloat ⟨"", "", .table []⟩ "" pre with
    | ret m e =>
      rw [hr] at hpre
      obtain ⟨-, err, rfl⟩ := runLines_ret ParseFloat hr
      cases hpre
    | next r g =>
      have hstep : lineStep ParseFloat r g line
          = .ret (OBJModel.zero F) (some (.numError "Atoi" x kind)) := by
        rw [lineStep_s ParseFloat r g htok]
        simp only [caseS, validLength, List.length_singleton, ne_eq, not_true_eq_false,
          if_false, elemAt, List.getD_cons_zero, hk]
      simp only [runLines, hstep]
  · intro reader n grp hok hgrp hcount
    obtain ⟨group, hd⟩ := LoadOBJ_described ParseFloat hok
    rw [hd.get?_eq ParseFloat hgrp]
    exact smoothingOf_of_count hcount

/-- C16 at a concrete stream: `s -12` sets the smoothing value of group `a` and
leaves its vertex alone. -/
theorem C16_smoothing_directive_witness :
    ∃ result' : OBJModel Nat,
      lineStep sampleParseFloat ⟨"", "", .table [("a", ⟨[], [[1, 2, 3]], [], [], [], 0⟩)]⟩
        "a" "s -12" = .next result' "a" ∧
      result'.Groups.get? "a" = some ⟨[], [[1, 2, 3]], [], [], [], -12⟩ :=
  have h := (C16_smoothing_directive sampleParseFloat).1 ["g a", "v 1 2 3"] _ "a" "s -12" "-12"
    (-12) rfl (by decide) (by decide) ⟨by decide, by decide⟩
  h.elim fun r hr => ⟨r, hr.1, hr.2.2.2.1⟩

end

/-! ## Read failures and the error of a bad line (C17, C18) -/

theorem byteLen_replicate (n : Nat) : byteLen (List.replicate n 'x') = n := by
  induction n with
  | zero => rfl
  | succ n ih =>
    simp only [byteLen, List.replicate_succ, List.map_cons, List.sum_cons] at ih ⊢
    rw [ih]
    have : Char.utf8Size 'x' = 1 := by decide
    omega

theorem splitChars_longLine (rest : List Char) :
    splitChars '\n' (longLine ++ String.mk ('\n' :: rest)).data
      = List.replicate MaxScanTokenSize 'x' :: splitChars '\n' rest := by
  have h : (longLine ++ String.mk ('\n' :: rest)).data
      = List.replicate MaxScanTokenSize 'x' ++ '\n' :: rest := by
    simp [longLine, String.data_append]
  rw [h, splitChars_append]
  intro hmem
  have := List.eq_of_mem_replicate hmem
  exact absurd this (by decide)

theorem scanLines_tooLong (long : List Char) (rest : List (List Char)) (hrest : rest ≠ [])
    (h : ¬ byteLen long + 1 ≤ MaxScanTokenSize) :
    scanLines (long :: rest) = [] ∧ scanTooLong (long :: rest) = true := by
  cases rest with
  | nil => exact absurd rfl hrest
  | cons r rs =>
    constructor
    · rw [scanLines, if_neg h]
      exact fun h0 => List.noConfusion h0
    · rw [scanTooLong, if_neg h]
      exact fun h0 => List.noConfusion h0

theorem lines_longLine :
    Scanner.lines ⟨longLine ++ "\ng a\nv 1 2\n", none⟩ = [] ∧
      Scanner.Err ⟨longLine ++ "\ng a\nv 1 2\n", none⟩ = some .ErrTooLong := by
  have hs := splitChars_longLine "g a\nv 1 2\n".data
  have hdata : (longLine ++ "\ng a\nv 1 2\n" : String)
      = longLine ++ String.mk ('\n' :: "g a\nv 1 2\n".data) := rfl
  have hlen : ¬ byteLen (List.replicate MaxScanTokenSize 'x') + 1 ≤ MaxScanTokenSize := by
    rw [byteLen_replicate]
    omega
  obtain ⟨h1, h2⟩ := scanLines_tooLong (List.replicate MaxScanTokenSize 'x')
    (splitChars '\n' "g a\nv 1 2\n".data) (splitChars_ne_nil _ _) hlen
  constructor
  · unfold Scanner.lines
    rw [hdata, hs, h1]
    rfl
  · unfold Scanner.Err
    rw [hdata, hs, h2, if_pos rfl]

section

variable {F : Type} (ParseFloat : String → Except Error F)

/-- C17 (the code at the failing inputs): `LoadOBJ` never consults `scanner.Err()`.
Its result depends on the reader's data only, not on the error that ended the
reading. When the reader fails after `g a` and `v 1 2 3`, the scan ends with the
read error, yet `LoadOBJ` returns a nil error and the document built from the two
lines; when the first line is too long for the scanner, the scan ends at once with
`ErrTooLong`, the lines `g a` and `v 1 2` (a bad line) are never read, and `LoadOBJ`
returns a nil error and the empty document. -/
theorem C17_read_failure_not_surfaced :
    (∀ (data : String) (err : Option String),
      LoadOBJ ParseFloat ⟨data, err⟩ = LoadOBJ ParseFloat ⟨data, none⟩) ∧
    (Scanner.Err ⟨"g a\nv 1 2 3\n", some "read: connection reset"⟩
        = some (.readError "read: connection reset") ∧
      LoadOBJ sampleParseFloat ⟨"g a\nv 1 2 3\n", some "read: connection reset"⟩
        = (⟨"", "", .table [("a", ⟨[], [[1, 2, 3]], [], [], [], 0⟩)]⟩, none)) ∧
    (Scanner.Err ⟨longLine ++ "\ng a\nv 1 2\n", none⟩ = some .ErrTooLong ∧
      LoadOBJ ParseFloat ⟨longLine ++ "\ng a\nv 1 2\n", none⟩
        = (⟨"", "", .table []⟩, none)) := by
  refine ⟨fun _ _ => rfl, ⟨by decide, by decide⟩, lines_longLine.2, ?_⟩
  unfold LoadOBJ
  rw [lines_longLine.1]
  rfl

/-- C18 (as stated, refuted): the errors that `LoadOBJ` returns for a bad `v` line
and for a bad `f` line are one and the same value, the error `invalid format`, so
nothing read off the error tells the two directives apart. -/
theorem C18_error_carries_no_directive :
    (LoadOBJ sampleParseFloat ⟨"v 1 2", none⟩).2 = some .invalidFormat ∧
    (LoadOBJ sampleParseFloat ⟨"f 1 2", none⟩).2 = some .invalidFormat ∧
    ¬∃ directiveOf : Option Error → String,
      directiveOf (LoadOBJ sampleParseFloat ⟨"v 1 2", none⟩).2 = "v" ∧
      directiveOf (LoadOBJ sampleParseFloat ⟨"f 1 2", none⟩).2 = "f" := by
  have hv : (LoadOBJ sampleParseFloat ⟨"v 1 2", none⟩).2 = some .invalidFormat := by decide
  have hf : (LoadOBJ sampleParseFloat ⟨"f 1 2", none⟩).2 = some .invalidFormat := by decide
  refine ⟨hv, hf, ?_⟩
  rintro ⟨directiveOf, h1, h2⟩
  rw [hv] at h1
  rw [hf, h1] at h2
  exact absurd h2 (by decide)

/-- C18 (amended): for every line whose recognised directive has the wrong number
of arguments and before which no line fails, the error returned by `LoadOBJ` is the
one error `invalid format`, the same for every directive and every line: two such
streams return equal errors. -/
theorem C18_constant_error (reader reader' : Reader)
    (pre post pre' post' : List String) (line line' d d' : String)
    (args args' : List String) (n n' : Nat)
    (hlines : Scanner.lines reader = pre ++ line :: post)
    (hlines' : Scanner.lines reader' = pre' ++ line' :: post')
    (hpre : (loadLines ParseFloat pre).2 = none)
    (hpre' : (loadLines ParseFloat pre').2 = none)
    (htok : tokenize line = d :: args) (htok' : tokenize line' = d' :: args')
    (hreq : requiredArgs d = some n) (hreq' : requiredArgs d' = some n')
    (hlen : args.length ≠ n) (hlen' : args'.length ≠ n') :
    (LoadOBJ ParseFloat reader).2 = some .invalidFormat ∧
      (LoadOBJ ParseFloat reader').2 = (LoadOBJ ParseFloat reader).2 := by
  have h1 : (LoadOBJ ParseFloat reader).2 = some .invalidFormat := by
    unfold LoadOBJ
    rw [hlines]
    exact (loadLines_badLine ParseFloat htok hreq hlen).2 hpre
  have h2 : (LoadOBJ ParseFloat reader').2 = some .invalidFormat := by
    unfold LoadOBJ
    rw [hlines']
    exact (loadLines_badLine ParseFloat htok' hreq' hlen').2 hpre'
  exact ⟨h1, h2.trans h1.symm⟩

/-- C18 (amended) at two concrete streams: a bad `v` line after `g a`, and a bad `f`
line after `o x`. -/
theorem C18_constant_error_witness :
    (LoadOBJ sampleParseFloat ⟨"g a\nv 1 2\n", none⟩).2 = some .invalidFormat ∧
      (LoadOBJ sampleParseFloat ⟨"o x\nf 1 2 3 4\nv 1\n", none⟩).2
        = (LoadOBJ sampleParseFloat ⟨"g a\nv 1 2\n", none⟩).2 :=
  C18_constant_error sampleParseFloat ⟨"g a\nv 1 2\n", none⟩ ⟨"o x\nf 1 2 3 4\nv 1\n", none⟩
    ["g a"] [] ["o x"] ["v 1"] "v 1 2" "f 1 2 3 4" "v" "f" ["1", "2"] ["1", "2", "3", "4"] 3 3
    (by decide) (by decide) (by decide) (by decide) (by decide) (by decide) (by decide)
    (by decide) (by decide) (by decide)

end

/-! ## The consumer's loop (C19) -/

theorem GoMap.mem_put {V : Type} (k : String) (v : V) (es : List (String × V))
    (e : String × V) (h : e ∈ GoMap.put k v es) : e = (k, v) ∨ e ∈ es := by
  induction es with
  | nil =>
    simp only [GoMap.put, List.mem_singleton] at h
    exact Or.inl h
  | cons x es ih =>
    obtain ⟨k', v'⟩ := x
    simp only [GoMap.put] at h
    split_ifs at h with hk
    · simp only [List.mem_cons] at h ⊢
      rcases h with h | h
      · exact Or.inl h
      · exact Or.inr (Or.inr h)
    · simp only [List.mem_cons] at h ⊢
      rcases h with h | h
      · exact Or.inr (Or.inl h)
      · rcases ih h with h | h
        · exact Or.inl h
        · exact Or.inr (Or.inr h)

theorem GoMap.mem_of_find {V : Type} (k : String) (v : V) (es : List (String × V))
    (h : GoMap.find k es = some v) : (k, v) ∈ es := by
  induction es with
  | nil => cases h
  | cons x es ih =>
    obtain ⟨k', v'⟩ := x
    simp only [GoMap.find] at h
    split_ifs at h with hk
    · cases h
      subst hk
      exact List.mem_cons_self _ _
    · exact List.mem_cons_of_mem _ (ih h)

theorem GoMap.mem_entries_assign {V : Type} (m : GoMap V) (k : String) (v : V)
    (e : String × V) (h : e ∈ (m.assign k v).entries) : e = (k, v) ∨ e ∈ m.entries := by
  cases m with
  | nil => simp [GoMap.assign, GoMap.entries] at h
  | table es => exact GoMap.mem_put k v es e h

section

variable {F : Type} (ParseFloat : String → Except Error F)

/-- A property of groups that the empty group has and every write of a data
directive keeps holds of every entry of the map in every state the loop reaches. -/
theorem runLines_entries_invariant (P : OBJGroup F → Prop) (hzero : P (OBJGroup.zero F))
    (hupd : ∀ tmp new, P tmp → GroupUpdate ParseFloat tmp new → P new)
    (lines : List String) :
    ∀ (start result : OBJModel F) (group0 group : String),
      (∀ e ∈ start.Groups.entries, P e.2) →
      runLines ParseFloat start group0 lines = .next result group →
      ∀ e ∈ result.Groups.entries, P e.2 := by
  induction lines with
  | nil =>
    intro start result group0 group hstart h
    cases h
    exact hstart
  | cons line rest ih =>
    intro start result group0 group hstart h
    simp only [runLines] at h
    cases hstep : lineStep ParseFloat start group0 line with
    | ret m e => rw [hstep] at h; cases h
    | next r g =>
      rw [hstep] at h
      refine ih r result g group ?_ h
      have hidx : P (start.Groups.index (OBJGroup.zero F) group0) := by
        unfold GoMap.index
        cases hget : start.Groups.get? group0 with
        | none => exact hzero
        | some grp => exact hstart _ (GoMap.mem_of_find _ _ _ hget)
      intro e he
      rcases lineStep_groupsEffect ParseFloat start group0 line r g hstep with
        hG | ⟨k, hG⟩ | ⟨new, hnew, hG⟩
      · rw [hG] at he; exact hstart e he
      · rw [hG] at he
        rcases GoMap.mem_entries_assign _ _ _ _ he with rfl | hold
        · exact hzero
        · exact hstart e hold
      · rw [hG] at he
        rcases GoMap.mem_entries_assign _ _ _ _ he with rfl | hold
        · exact hupd _ _ hidx hnew
        · exact hstart e hold

theorem LoadOBJ_entries_shaped (reader : Reader) :
    ∀ e ∈ (LoadOBJ ParseFloat reader).1.Groups.entries, Shaped e.2 := by
  cases hr : runLines ParseFloat ⟨"", "", .table []⟩ "" (Scanner.lines reader) with
  | next r g =>
    have hL : (LoadOBJ ParseFloat reader).1 = r := by
      simp only [LoadOBJ, loadLines, loadLoop_eq_runLines, hr]
    rw [hL]
    refine runLines_entries_invariant ParseFloat Shaped shaped_zero
      (fun _ _ => shaped_update ParseFloat) _ _ _ _ _ ?_ hr
    intro e he
    simp [GoMap.entries] at he
  | ret m err =>
    have hL : (LoadOBJ ParseFloat reader).1 = m := by
      simp only [LoadOBJ, loadLines, loadLoop_eq_runLines, hr]
    obtain ⟨rfl, -⟩ := runLines_ret ParseFloat hr
    rw [hL]
    intro e he
    simp [OBJModel.zero, GoMap.entries] at he

end

section

variable {F G : Type} (float32 : F → G)

theorem vertexLoop_shaped (vs : List (List F)) (h : ∀ v ∈ vs, v.length = 3) :
    ∀ triangle : List G, ∃ t, vertexLoop float32 vs triangle = some t ∧
      t.length = triangle.length + 3 * vs.length := by
  induction vs with
  | nil => intro triangle; exact ⟨triangle, rfl, by simp⟩
  | cons v rest ih =>
    intro triangle
    have hv := h v (List.mem_cons_self _ _)
    match v, hv with
    | [a, b, c], _ =>
      obtain ⟨t, ht, hlen⟩ := ih (fun x hx => h x (List.mem_cons_of_mem _ hx))
        (triangle ++ [float32 a, float32 b, float32 c])
      refine ⟨t, ?_, ?_⟩
      · simpa [vertexLoop] using ht
      · simp only [List.length_append, List.length_cons, List.length_nil] at hlen ⊢
        omega

theorem polygonLoop_shaped (ps : List (List OBJPolygon)) (h : ∀ p ∈ ps, p.length = 3) :
    ∀ index : List Nat, ∃ i, polygonLoop ps index = some i ∧
      i.length = index.length + 3 * ps.length := by
  induction ps with
  | nil => intro index; exact ⟨index, rfl, by simp⟩
  | cons p rest ih =>
    intro index
    have hp := h p (List.mem_cons_self _ _)
    match p, hp with
    | [a, b, c], _ =>
      obtain ⟨i, hi, hlen⟩ := ih (fun x hx => h x (List.mem_cons_of_mem _ hx))
        (index ++ [toIndex a.VertexIndex, toIndex b.VertexIndex, toIndex c.VertexIndex])
      refine ⟨i, ?_, ?_⟩
      · simpa [polygonLoop] using hi
      · simp only [List.length_append, List.length_cons, List.length_nil] at hlen ⊢
        omega

theorem flatten_shaped (groups : List (String × OBJGroup F))
    (h : ∀ e ∈ groups, Shaped e.2) :
    ∀ (triangle : List G) (index : List Nat),
      ∃ t i, flatten float32 groups triangle index = some (t, i) ∧
        t.length = triangle.length + 3 * totalVertices groups ∧
        i.length = index.length + 3 * totalFaces groups := by
  induction groups with
  | nil => intro triangle index; exact ⟨triangle, index, rfl, by simp [totalVertices], by simp [totalFaces]⟩
  | cons e rest ih =>
    intro triangle index
    obtain ⟨k, group⟩ := e
    have hs := h (k, group) (List.mem_cons_self _ _)
    obtain ⟨t1, ht1, hl1⟩ := vertexLoop_shaped float32 group.Vertex hs.2.1 triangle
    obtain ⟨i1, hi1, hl2⟩ := polygonLoop_shaped group.Polygon hs.1 index
    obtain ⟨t, i, hti, hl3, hl4⟩ := ih (fun x hx => h x (List.mem_cons_of_mem _ hx)) t1 i1
    refine ⟨t, i, ?_, ?_, ?_⟩
    · simp only [flatten, ht1, hi1, hti]
    · simp only [totalVertices, List.map_cons, List.sum_cons] at hl3 ⊢
      omega
    · simp only [totalFaces, List.map_cons, List.sum_cons] at hl4 ⊢
      omega

end

section

variable {F G : Type} (ParseFloat : String → Except Error F) (float32 : F → G)

/-- C19: the flattening loop of `main` is safe on every document that `LoadOBJ`
returns. In whatever order the map yields its entries (any permutation `order` of
them), every vertex of every group has the components `v[0]`, `v[1]`, `v[2]` and
every face the references `p[0]`, `p[1]`, `p[2]`, the loop ends without an index
out of range, and it leaves a position buffer of 3 times the total number of
vertices and an index buffer of 3 times the total number of faces over all groups. -/
theorem C19_consumer_loop_safe (reader : Reader) (order : List (String × OBJGroup F))
    (hperm : order.Perm (LoadOBJ ParseFloat reader).1.Groups.entries) :
    (∀ e ∈ order, (∀ v ∈ e.2.Vertex, 2 < v.length) ∧ (∀ p ∈ e.2.Polygon, 2 < p.length)) ∧
    ∃ triangle index, flatten float32 order [] [] = some (triangle, index) ∧
      triangle.length = 3 * totalVertices (LoadOBJ ParseFloat reader).1.Groups.entries ∧
      index.length = 3 * totalFaces (LoadOBJ ParseFloat reader).1.Groups.entries := by
  have hsh : ∀ e ∈ order, Shaped e.2 := fun e he =>
    LoadOBJ_entries_shaped ParseFloat reader e (hperm.mem_iff.1 he)
  constructor
  · intro e he
    obtain ⟨h1, h2, -, -⟩ := hsh e he
    exact ⟨fun v hv => by rw [h2 v hv]; decide, fun p hp => by rw [h1 p hp]; decide⟩
  · obtain ⟨t, i, hti, hl1, hl2⟩ := flatten_shaped float32 order hsh [] []
    refine ⟨t, i, hti, ?_, ?_⟩
    · have : totalVertices order = totalVertices (LoadOBJ ParseFloat reader).1.Groups.entries :=
        (hperm.map _).sum_eq
      rw [hl1, this]
      simp
    · have : totalFaces order = totalFaces (LoadOBJ ParseFloat reader).1.Groups.entries :=
        (hperm.map _).sum_eq
      rw [hl2, this]
      simp

end

/-- C19 at a concrete stream of two groups, with the entries taken in the reverse
of the order in which the groups were declared. -/
theorem C19_consumer_loop_safe_witness :
    ∃ triangle index,
      flatten (fun x : Nat => x)
        [("b", ⟨[], [[7, 8, 9]], [], [], [[⟨1, 0, 0⟩, ⟨1, 0, 0⟩, ⟨1, 0, 0⟩]], 0⟩),
          ("a", ⟨[], [[1, 2, 3], [4, 5, 6]], [], [], [], 0⟩)] [] []
        = some (triangle, index) ∧
      triangle.length = 9 ∧ index.length = 3 :=
  (C19_consumer_loop_safe sampleParseFloat (fun x : Nat => x)
    ⟨"g a\nv 1 2 3\nv 4 5 6\ng b\nv 7 8 9\nf 1 1 1\n", none⟩
    [("b", ⟨[], [[7, 8, 9]], [], [], [[⟨1, 0, 0⟩, ⟨1, 0, 0⟩, ⟨1, 0, 0⟩]], 0⟩),
      ("a", ⟨[], [[1, 2, 3], [4, 5, 6]], [], [], [], 0⟩)]
    (List.Perm.swap _ _ [])).2.elim fun t h => h.elim fun i hi => ⟨t, i, hi.1, hi.2.1, hi.2.2⟩

end OBJ
